import Mathlib

/-!
# RobotPiscine: the cooperative task scheduler and the cleaning-cycle controller

A shallow embedding of `src/src/timerTask.cpp` (the scheduler) and of the
cycle logic of `src/src/main.cpp`, followed by theorems about them.

Conventions of the embedding.

* The C++ globals become fields of an explicit state that every operation
  takes and returns.
* A function pointer `void (*fonc)(void)` is a value of a type `F` of code
  addresses; what calling an address does is given by a map
  `call : F → Sys F E → Option (Sys F E)` (the code memory). A call that does
  not return (null pointer, unbounded recursion) is `none`.
* `unsigned` is 32 bits wide: counters are `Nat` and every `++` is taken
  modulo `2^32`.
* An array access outside `0 .. MAX_TASK-1` is undefined behaviour and is `none`.
* `fired` is a journal that the embedding adds: every call site `fonc()` of the
  scheduler appends the slot whose action it invokes, so that "the action was
  invoked k times" can be stated.
-/

namespace RobotPiscine

/-! ## timerTask.h -/

abbrev MAX_TASK : Nat := 4

abbrev N_CREE : Nat := 0
abbrev CREE : Nat := 1
abbrev PRET : Nat := 2
abbrev EXEC : Nat := 4
abbrev SUSP : Nat := 3

/-- Number of values of the 32-bit type `unsigned`. -/
abbrev UINT : Nat := 4294967296

/-- The private fields of `class Task`. -/
structure Task (F : Type) where
  fonc : F
  status : Nat
  currentTime : Nat
  startTime : Nat
  timerTask : Bool
deriving DecidableEq, Repr

/-- The globals of `timerTask.cpp` (`tabTask`, `tabLastStatusTask`), the journal of
action invocations, and the rest of the program's globals (`env`). -/
structure Sys (F E : Type) where
  tabTask : Fin MAX_TASK → Task F
  tabLastStatusTask : Fin MAX_TASK → Task F
  fired : List (Fin MAX_TASK)
  env : E

variable {F E : Type}

/-- The table slot designated by an `int` index, when it is inside the array. -/
def slot (taskId : Int) : Option (Fin MAX_TASK) :=
  if h : 0 ≤ taskId ∧ taskId < MAX_TASK then some ⟨taskId.toNat, by omega⟩ else none

/-- Assignment `tabTask[i] = t`. -/
def Sys.setTask (s : Sys F E) (i : Fin MAX_TASK) (t : Task F) : Sys F E :=
  { s with tabTask := Function.update s.tabTask i t }

/-- Assignment `tabLastStatusTask[i] = t`. -/
def Sys.setLast (s : Sys F E) (i : Fin MAX_TASK) (t : Task F) : Sys F E :=
  { s with tabLastStatusTask := Function.update s.tabLastStatusTask i t }

/-- The call `tabTask[i].fonc()`, entered in the journal. -/
def callFonc (call : F → Sys F E → Option (Sys F E)) (i : Fin MAX_TASK) (s : Sys F E) :
    Option (Sys F E) :=
  call (s.tabTask i).fonc { s with fired := s.fired ++ [i] }

/-- Method `Task::Task()`: the default constructor; `fonc` and `timerTask` are not assigned and
keep the zero value of a global object (`null`, `false`). -/
def Task.init (null : F) : Task F :=
  { fonc := null, status := N_CREE, currentTime := 0, startTime := 0, timerTask := false }

/-- Method `Task::t_creer`: the first slot whose status is `N_CREE` receives the new task. -/
def t_creer (fonc : F) (stopTime : Nat) (isTimer : Bool) (s : Sys F E) : Int × Sys F E :=
  match (List.finRange MAX_TASK).find? (fun taskId => decide ((s.tabTask taskId).status = N_CREE)) with
  | some taskId =>
    ((taskId.val : Int),
      s.setTask taskId
        { fonc := fonc, startTime := stopTime, currentTime := 0, status := CREE,
          timerTask := isTimer })
  | none => (-1, s)

/-- The body of the loop of `Task::schedule` for one `taskId`. -/
def scheduleTask (call : F → Sys F E → Option (Sys F E)) (taskId : Fin MAX_TASK)
    (s : Sys F E) : Option (Sys F E) :=
  if (s.tabTask taskId).status = PRET then do
    let s1 := s.setTask taskId
      { s.tabTask taskId with currentTime := ((s.tabTask taskId).currentTime + 1) % UINT }
    let s2 ←
      if (s1.tabTask taskId).currentTime = (s1.tabTask taskId).startTime then
        callFonc call taskId (s1.setTask taskId { s1.tabTask taskId with status := EXEC })
      else some s1
    if (s2.tabTask taskId).status = EXEC then
      if !(s2.tabTask taskId).timerTask then
        some (s2.setTask taskId { s2.tabTask taskId with status := CREE })
      else
        some (s2.setTask taskId { s2.tabTask taskId with status := PRET, currentTime := 0 })
    else some s2
  else some s

/-- Method `Task::schedule`: one tick, the loop over `taskId = 0 .. MAX_TASK-1`. -/
def schedule (call : F → Sys F E → Option (Sys F E)) (s : Sys F E) : Option (Sys F E) :=
  (List.finRange MAX_TASK).foldlM (fun acc taskId => scheduleTask call taskId acc) s

/-- Method `Task::getStatus`. -/
def getStatus (taskId : Int) (s : Sys F E) : Option Nat :=
  (slot taskId).map fun i => (s.tabTask i).status

/-- Method `Task::t_start`. -/
def t_start (call : F → Sys F E → Option (Sys F E)) (taskId : Int) (s : Sys F E) :
    Option (Sys F E) :=
  if taskId = -1 then some s
  else do
    let i ← slot taskId
    let s1 := s.setTask i { s.tabTask i with status := PRET, currentTime := 0 }
    if (s1.tabTask i).timerTask then callFonc call i s1 else some s1

/-- Method `Task::t_stop`. -/
def t_stop (taskId : Int) (s : Sys F E) : Option (Sys F E) :=
  if taskId = -1 then some s
  else do
    let i ← slot taskId
    some (s.setTask i { s.tabTask i with status := CREE, currentTime := 0 })

/-- Method `Task::setInterval`. -/
def setInterval (taskId : Int) (interval : Nat) (s : Sys F E) : Option (Sys F E) := do
  let i ← slot taskId
  some (s.setTask i { s.tabTask i with startTime := interval })

/-- Method `Task::t_delete`. -/
def t_delete (taskId : Int) (s : Sys F E) : Option (Sys F E) :=
  if taskId = -1 then some s
  else do
    let i ← slot taskId
    some (s.setTask i { s.tabTask i with status := N_CREE })

/-- Method `Task::getCurrentTime`. -/
def getCurrentTime (taskId : Int) (s : Sys F E) : Option Nat :=
  (slot taskId).map fun i => (s.tabTask i).currentTime

/-- Method `Task::setCurrentTime`. -/
def setCurrentTime (taskId : Int) (time : Nat) (s : Sys F E) : Option (Sys F E) := do
  let i ← slot taskId
  some (s.setTask i { s.tabTask i with currentTime := time })

/-- Method `Task::getStartTime`. -/
def getStartTime (taskId : Int) (s : Sys F E) : Option Nat :=
  (slot taskId).map fun i => (s.tabTask i).startTime

/-- Method `Task::setStartTime`. -/
def setStartTime (taskId : Int) (time : Nat) (s : Sys F E) : Option (Sys F E) := do
  let i ← slot taskId
  some (s.setTask i { s.tabTask i with startTime := time })

/-- Method `Task::t_suspend`. -/
def t_suspend (taskId : Int) (s : Sys F E) : Option (Sys F E) :=
  if taskId = -1 then some s
  else do
    let i ← slot taskId
    let s1 := s.setLast i { s.tabLastStatusTask i with status := (s.tabTask i).status }
    some (s1.setTask i { s1.tabTask i with status := SUSP })

/-- Method `Task::t_resume`. -/
def t_resume (taskId : Int) (s : Sys F E) : Option (Sys F E) :=
  if taskId = -1 then some s
  else do
    let i ← slot taskId
    some (s.setTask i { s.tabTask i with status := (s.tabLastStatusTask i).status })

/-- The state of `timerTask.cpp` before `setup`: both tables hold default-constructed
tasks. -/
def Sys.init (null : F) (env : E) : Sys F E :=
  { tabTask := fun _ => Task.init null, tabLastStatusTask := fun _ => Task.init null,
    fired := [], env := env }

/-- The scheduler is ticked `k` times in a row (`loop` calls `schedule` once per second). -/
def ticks (call : F → Sys F E → Option (Sys F E)) : Nat → Sys F E → Option (Sys F E)
  | 0, s => some s
  | k + 1, s => (schedule call s).bind (ticks call k)

/-- An action that does not call scheduler operations: it returns, and leaves both tables
and the journal as they were. -/
def Passive (call : F → Sys F E → Option (Sys F E)) (f : F) : Prop :=
  ∀ s, ∃ s1, call f s = some s1 ∧ s1.tabTask = s.tabTask ∧
    s1.tabLastStatusTask = s.tabLastStatusTask ∧ s1.fired = s.fired

/-- No action touches task `i`: every action returns, leaves slot `i` of both tables as it
was and does not invoke the action of task `i`. -/
def Keeps (call : F → Sys F E → Option (Sys F E)) (i : Fin MAX_TASK) : Prop :=
  ∀ f s, ∃ s1, call f s = some s1 ∧ s1.tabTask i = s.tabTask i ∧
    s1.tabLastStatusTask i = s.tabLastStatusTask i ∧ s1.fired.count i = s.fired.count i

/-- A call of `t_start`, `t_stop` or `t_suspend` on a valid id. -/
inductive Op where
  | start (i : Fin MAX_TASK)
  | stop (i : Fin MAX_TASK)
  | suspend (i : Fin MAX_TASK)
deriving DecidableEq, Repr

/-- The call that an `Op` stands for. -/
def applyOp (call : F → Sys F E → Option (Sys F E)) : Op → Sys F E → Option (Sys F E)
  | .start i, s => t_start call (i.val : Int) s
  | .stop i, s => t_stop (i.val : Int) s
  | .suspend i, s => t_suspend (i.val : Int) s

/-- A sequence of such calls, in order. -/
def applyOps (call : F → Sys F E → Option (Sys F E)) : List Op → Sys F E → Option (Sys F E)
  | [], s => some s
  | o :: os, s => (applyOp call o s).bind (applyOps call os)

/-- One call of the interface of `class Task`, as the program may issue it from `setup`,
`loop` or a callback; the ids are the `int` arguments as they are passed, valid or not. -/
inductive Call (F : Type) where
  | creer (fonc : F) (stopTime : Nat) (isTimer : Bool)
  | start (taskId : Int)
  | stop (taskId : Int)
  | delete (taskId : Int)
  | suspend (taskId : Int)
  | resume (taskId : Int)
  | interval (taskId : Int) (value : Nat)
  | currentTime (taskId : Int) (value : Nat)
  | startTime (taskId : Int) (value : Nat)
  | schedule

/-- The method that a `Call` stands for; the id returned by `t_creer` is dropped. -/
def applyCall (call : F → Sys F E → Option (Sys F E)) : Call F → Sys F E → Option (Sys F E)
  | .creer fonc stopTime isTimer, s => some (t_creer fonc stopTime isTimer s).2
  | .start taskId, s => t_start call taskId s
  | .stop taskId, s => t_stop taskId s
  | .delete taskId, s => t_delete taskId s
  | .suspend taskId, s => t_suspend taskId s
  | .resume taskId, s => t_resume taskId s
  | .interval taskId value, s => setInterval taskId value s
  | .currentTime taskId value, s => setCurrentTime taskId value s
  | .startTime taskId value, s => setStartTime taskId value s
  | .schedule, s => schedule call s

/-- A history of such calls, in order. -/
def applyCalls (call : F → Sys F E → Option (Sys F E)) :
    List (Call F) → Sys F E → Option (Sys F E)
  | [], s => some s
  | c :: cs, s => (applyCall call c s).bind (applyCalls call cs)

/-- The call is `t_suspend(id)` for the id of slot `i`. -/
def Call.suspends (i : Fin MAX_TASK) : Call F → Prop
  | .suspend taskId => taskId = (i.val : Int)
  | _ => False

/-- The state in which `schedule` enters the action of a due task `i`: `currentTime`
incremented, status `EXEC`, the invocation entered in the journal. Only used to state
lemmas. -/
def Sys.entered (s : Sys F E) (i : Fin MAX_TASK) : Sys F E :=
  { s.setTask i
      { s.tabTask i with
        currentTime := ((s.tabTask i).currentTime + 1) % UINT, status := EXEC } with
    fired := s.fired ++ [i] }

/-- The state in which `t_start` enters the action of a recurring task `i`: status `PRET`,
`currentTime = 0`, the invocation entered in the journal. Only used to state lemmas. -/
def Sys.started (s : Sys F E) (i : Fin MAX_TASK) : Sys F E :=
  { s.setTask i { s.tabTask i with status := PRET, currentTime := 0 } with
    fired := s.fired ++ [i] }

/-- The end of the loop body of `schedule`, once the action of task `i` has returned: a task
still `EXEC` becomes `CREE` (one-shot) or `PRET` with `currentTime = 0` (recurring). Only
used to state lemmas. -/
def Sys.rearmed (s : Sys F E) (i : Fin MAX_TASK) : Sys F E :=
  if (s.tabTask i).status = EXEC then
    if !(s.tabTask i).timerTask then s.setTask i { s.tabTask i with status := CREE }
    else s.setTask i { s.tabTask i with status := PRET, currentTime := 0 }
  else s

/-- The task is ready and its next increment reaches its interval. -/
def Task.due (t : Task F) : Bool :=
  decide (t.status = PRET ∧ (t.currentTime + 1) % UINT = t.startTime)

/-- The record that one iteration of the loop of `schedule` leaves of a task whose action
is passive; only used to state the lemmas on the loop. -/
def Task.afterTick (t : Task F) : Task F :=
  if t.status = PRET then
    if (t.currentTime + 1) % UINT = t.startTime then
      if t.timerTask then { t with status := PRET, currentTime := 0 }
      else { t with status := CREE, currentTime := (t.currentTime + 1) % UINT }
    else { t with currentTime := (t.currentTime + 1) % UINT }
  else t

/-- The number of times the action of a task is invoked by `k` successive ticks when every
action is passive; only used to state the lemmas on `ticks`. -/
def Task.firings : Nat → Task F → Nat
  | 0, _ => 0
  | k + 1, t => (if t.due then 1 else 0) + Task.firings k t.afterTick

/-! ## A small passive program, used for the instances of the scheduler theorems -/

/-- A code memory whose only action counts its calls in `env` and touches nothing else. -/
def demoCall : Unit → Sys Unit Nat → Option (Sys Unit Nat) :=
  fun _ s => some { s with env := s.env + 1 }

/-- A table holding a recurring task that is due at the next tick, a one-shot task that is
not yet due, a suspended task and a free slot. -/
def demoSys : Sys Unit Nat :=
  { tabTask := fun i =>
      if i = 0 then { fonc := (), status := PRET, currentTime := 4, startTime := 5, timerTask := true }
      else if i = 1 then
        { fonc := (), status := PRET, currentTime := 0, startTime := 3, timerTask := false }
      else if i = 2 then
        { fonc := (), status := SUSP, currentTime := 1, startTime := 2, timerTask := true }
      else Task.init (),
    tabLastStatusTask := fun _ => Task.init (),
    fired := [],
    env := 0 }

/-! ## const.h, main.h

The collaborators that the firmware only talks to (message bus, clock, flash files, GPIO
pins, the library random generator) are fields of the state: what the firmware hands to
them is recorded, what it reads from them is an input. Delays and serial traces are not
represented. -/

/-- Addresses of the functions that `setup` registers as task actions; `null` is the value
of `fonc` in a default-constructed task. -/
inductive Fonc where
  | null
  | robotTask
  | robotEndTask
  | scheduleCleanTask
deriving DecidableEq, Repr

/-- The topic strings of `const.h` (they share the secret `PREFIX`), and any other topic. -/
inductive Topic where
  | TOPIC_SET_PARAM
  | TOPIC_GET_PARAM
  | TOPIC_GET_VERSION
  | TOPIC_GET_LOGS
  | TOPIC_GET_STATUS
  | TOPIC_START
  | TOPIC_MANUAL
  | TOPIC_DELETE_LOGS
  | TOPIC_RESET
  | TOPIC_PARAM
  | TOPIC_READ_VERSION
  | TOPIC_READ_LOGS
  | TOPIC_LOG_STATUS
  | TOPIC_STATUS
  | TOPIC_RESET_CYCLE
  | TOPIC_SCHEDULED
  | TOPIC_CYCLE_TIME
  | other
deriving DecidableEq, Repr

/-- The constant `PARAM` of `const.h`. -/
def PARAM : List Char := "1:10:30:40:99:150:360:1".toList

abbrev SCHEDULED_ENABLE : Nat := 0
abbrev SCHEDULED_TIME_H : Nat := 1
abbrev SCHEDULED_TIME_M : Nat := 2
abbrev MIN_RANDOM : Nat := 3
abbrev MAX_RAMDOM : Nat := 4
abbrev N_CYCLES : Nat := 5
abbrev ACTIVE_TIME : Nat := 6
abbrev LOG_STATUS : Nat := 7
abbrev PARAM_LEN : Nat := 8

/-- The constant `version` of `const.h`. -/
def version : List Char := "2025.05.10 [D.T]".toList

/-- The globals of `main.h`, the `static` locals of `main.cpp`, and the collaborators. -/
structure Globals where
  scheduleEnabled : Int
  scheduleH : Int
  scheduleM : Int
  minRandom : Int
  maxRandom : Int
  nbCycles : Int
  activeTime : Int
  logStatus : Int
  currentRandomValue : Nat
  currentCycle : Int
  activeScheduledTask : Bool
  direction : Bool
  idRobotTask : Int
  idEndRobotTask : Int
  idScheduleCleanTask : Int
  /-- Contents of `char tabParam[33]` up to its terminator. -/
  tabParam : List Char
  bufferTime : List Char
  /-- The global `char randomBuffer[12]`; no statement of the program writes it. -/
  randomBuffer : List Char
  /-- The local `static unsigned randomValue` of `robotTask`. -/
  randomValue : Nat
  /-- The local `static boolean b` of `PubSubCallback`. -/
  b : Bool
  /-- The local `static Item items[PARAM_LEN + 1]` of `split`: nine strings of at most four
  characters. -/
  items : List (List Char)
  /-- Level of pin `GPIO2_FORWARD`; `true` is `HIGH` (relay released). -/
  pinForward : Bool
  /-- Level of pin `GPIO0_RETURN`; `true` is `HIGH` (relay released). -/
  pinReturn : Bool
  /-- What `getHour()` reads. -/
  hours : Int
  /-- What `getMinutes()` reads. -/
  minutes : Int
  /-- What `getDate()` returns. -/
  date : List Char
  /-- What `WiFi.localIP().toString()` returns. -/
  localIP : List Char
  /-- Successive raw outputs of the library random generator. -/
  rawRandom : Nat → Nat
  /-- Number of raw outputs consumed so far. -/
  randomCalls : Nat
  /-- Messages handed to `mqttClient.publish`, oldest first. -/
  published : List (Topic × List Char)
  /-- Contents of the file `r_param.txt`, when it exists. -/
  paramFile : Option (List Char)
  /-- Lines of the file `logs.txt`, oldest first. -/
  logFile : List (List Char)
  /-- Whether `ESP.restart()` has been called. -/
  restarted : Bool

/-- The whole state of the firmware. -/
abbrev St : Type := Sys Fonc Globals

/-- Assignment to globals of `main.h`. -/
def Sys.upd (s : Sys F E) (f : E → E) : Sys F E :=
  { s with env := f s.env }

/-- Conversion of an `int` or `long` to `unsigned`. -/
def toUnsigned (x : Int) : Nat := (x % (UINT : Int)).toNat

/-- Inline `powerOff` of `main.h`. -/
def powerOff (s : St) : St :=
  s.upd fun g => { g with pinReturn := true, pinForward := true }

/-- Inline `robotForward` of `main.h`. -/
def robotForward (s : St) : St :=
  s.upd fun g => { g with pinForward := false, pinReturn := true }

/-- Inline `robotReturn` of `main.h`. -/
def robotReturn (s : St) : St :=
  s.upd fun g => { g with pinForward := true, pinReturn := false }

/-- The call `mqttClient.publish(topic, payload)`. -/
def publish (topic : Topic) (payload : List Char) (s : St) : St :=
  s.upd fun g => { g with published := g.published ++ [(topic, payload)] }

/-- Library function `random(howsmall, howbig)` of the Arduino core: `howsmall` when the
range is empty (the generator is then not called), else the next raw output reduced into
`[howsmall, howbig)`. The result is paired with the state of the generator. -/
def random (howsmall howbig : Int) (s : St) : Int × St :=
  (if howsmall ≥ howbig then howsmall
    else ((s.env.rawRandom s.env.randomCalls : Nat) : Int) % (howbig - howsmall) + howsmall,
   s.upd fun g =>
    { g with randomCalls := if howsmall ≥ howbig then g.randomCalls else g.randomCalls + 1 })

/-- Function `logsWrite`: one line, date first, appended to the log file. -/
def logsWrite (msg : List Char) (s : St) : St :=
  s.upd fun g => { g with logFile := g.logFile ++ [g.date ++ " - ".toList ++ msg] }

/-- Function `writeLogs`: as `logsWrite`, but nothing is written when `logStatus` is 0. -/
def writeLogs (log : List Char) (s : St) : St :=
  s.upd fun g =>
    { g with
      logFile :=
        if g.logStatus = 0 then g.logFile else g.logFile ++ [g.date ++ " - ".toList ++ log] }

/-- Library function `strtok` called until it returns `NULL`: the maximal runs of
characters other than the delimiter, `cur` being the run in progress. -/
def strtokAll (motif : Char) : List Char → List Char → List (List Char)
  | [], cur => if cur = [] then [] else [cur]
  | c :: cs, cur =>
    if c = motif then (if cur = [] then strtokAll motif cs [] else cur :: strtokAll motif cs [])
    else strtokAll motif cs (cur ++ [c])

/-- The loop of `split`: `strcpy(items[i++].item, pch)` for each token. Writing past the
five bytes of an item or past the nine items is undefined behaviour. -/
def splitLoop : List (List Char) → Nat → List (List Char) → Option (List (List Char))
  | [], _, items => some items
  | pch :: rest, i, items =>
    if i < PARAM_LEN + 1 ∧ pch.length < 5 then splitLoop rest (i + 1) (items.set i pch)
    else none

/-- Function `split`: the tokens overwrite the first entries of the static array, the other
entries keep what earlier calls left there. -/
def split (str : List Char) (motif : Char) (s : St) : Option St := do
  let items ← splitLoop (strtokAll motif str []) 0 s.env.items
  pure (s.upd fun g => { g with items := items })

/-- Inline `get` of `main.h`. -/
def get (paramItem : List (List Char)) (k : Nat) : List Char :=
  paramItem.getD k []

/-- The characters that `isspace` accepts. -/
def isSpace (c : Char) : Bool :=
  c = ' ' || (9 ≤ c.toNat && c.toNat ≤ 13)

/-- The digits of `atoi`, most significant first, `acc` being the value read so far. -/
def atoiDigits : List Char → Nat → Nat
  | [], acc => acc
  | c :: cs, acc =>
    if 48 ≤ c.toNat ∧ c.toNat ≤ 57 then atoiDigits cs (acc * 10 + (c.toNat - 48)) else acc

/-- Library function `atoi`: leading white space, an optional sign, then digits. -/
def atoi (str : List Char) : Int :=
  match str.dropWhile isSpace with
  | '-' :: cs => -((atoiDigits cs 0 : Nat) : Int)
  | '+' :: cs => ((atoiDigits cs 0 : Nat) : Int)
  | cs => ((atoiDigits cs 0 : Nat) : Int)

/-- Function `setParam`; `DEBUG_TIME` is empty since `DEBUG` is not defined. -/
def setParam (tabParam : List Char) (s : St) : Option St := do
  -- char temp[50]; strcpy(temp, tabParam);
  if tabParam.length < 50 then do
    let s ← split tabParam ':' s
    let paramItem := s.env.items
    pure (s.upd fun g =>
      { g with
        scheduleEnabled := atoi (get paramItem SCHEDULED_ENABLE),
        scheduleH := atoi (get paramItem SCHEDULED_TIME_H),
        scheduleM := atoi (get paramItem SCHEDULED_TIME_M),
        minRandom := atoi (get paramItem MIN_RANDOM),
        maxRandom := atoi (get paramItem MAX_RAMDOM),
        nbCycles := atoi (get paramItem N_CYCLES),
        activeTime := atoi (get paramItem ACTIVE_TIME),
        logStatus := atoi (get paramItem LOG_STATUS) })
  else none

/-- Function `endCycle`. -/
def endCycle (s : St) : Option St := do
  let s ← t_stop s.env.idRobotTask s
  let s ← t_stop s.env.idEndRobotTask s
  let s := s.upd fun g => { g with currentCycle := 0 }
  let s := powerOff s
  let s := publish Topic.TOPIC_RESET_CYCLE [] s
  pure (s.upd fun g => { g with activeScheduledTask := false })

/-- Function `robotTask`, the action of the oscillation task. -/
def robotTask (s : St) : Option St := do
  let s := powerOff s
  let s ←
    if !s.env.direction then do
      let r := random s.env.minRandom s.env.maxRandom s
      let s := r.2.upd fun g => { g with currentRandomValue := toUnsigned r.1 }
      let s := s.upd fun g => { g with randomValue := g.currentRandomValue }
      let s ← setInterval s.env.idRobotTask s.env.currentRandomValue s
      pure (robotForward s)
    else do
      let s :=
        if s.env.randomValue > 30 then
          s.upd fun g => { g with currentRandomValue := g.randomValue - 20 }
        else s
      let s ← setInterval s.env.idRobotTask s.env.currentRandomValue s
      pure (robotReturn s)
  let s := publish Topic.TOPIC_CYCLE_TIME s.env.randomBuffer s
  let s := s.upd fun g => { g with direction := !g.direction }
  let s := s.upd fun g => { g with currentCycle := g.currentCycle + 1 }
  if s.env.currentCycle ≥ s.env.nbCycles then do
    let s ← endCycle s
    pure (writeLogs "End count cycle".toList s)
  else pure s

/-- Function `robotEndTask`, the action of the end-of-cycle task. -/
def robotEndTask (s : St) : Option St := do
  let s ← endCycle s
  pure (writeLogs "End time cycle".toList s)

/-- Decimal text of an `int`, as `%d` prints it. -/
def fmtD (n : Int) : List Char :=
  if n < 0 then '-' :: Nat.toDigits 10 n.natAbs else Nat.toDigits 10 n.toNat

/-- Decimal text of an `int`, as `%02d` prints it. -/
def fmt02d (n : Int) : List Char :=
  if (fmtD n).length < 2 then '0' :: fmtD n else fmtD n

/-- Function `scheduleCleanTask`, the action of the scheduled-start task; `call` is the
code memory through which `t_start` invokes actions. -/
def scheduleCleanTask (call : Fonc → St → Option St) (s : St) : Option St :=
  if s.env.scheduleEnabled ≠ 0 then
    if s.env.scheduleM = s.env.minutes ∧ s.env.scheduleH = s.env.hours then do
      let s ← t_start call s.env.idRobotTask s
      let s ← t_start call s.env.idEndRobotTask s
      let s := writeLogs "Start scheduled clean cycle".toList s
      let s := s.upd fun g =>
        { g with bufferTime := fmt02d g.hours ++ [':'] ++ fmt02d g.minutes ++ [Char.ofNat 13] }
      let s := publish Topic.TOPIC_SCHEDULED s.env.bufferTime s
      pure (s.upd fun g => { g with activeScheduledTask := true })
    else pure s
  else pure s

/-- The code memory: what calling each address does. `depth` bounds the nesting of calls
made through the task table (an action that starts a task whose action starts a task ...);
a null pointer, or a nesting deeper than `depth`, does not return. -/
def invoke : Nat → Fonc → St → Option St
  | 0, _, _ => none
  | _ + 1, Fonc.null, _ => none
  | _ + 1, Fonc.robotTask, s => robotTask s
  | _ + 1, Fonc.robotEndTask, s => robotEndTask s
  | depth + 1, Fonc.scheduleCleanTask, s => scheduleCleanTask (invoke depth) s

/-- What the device finds when it is powered on or restarted. -/
structure Boot where
  paramFile : Option (List Char)
  logFile : List (List Char)
  /-- What `bootRaison()` returns. -/
  bootRaison : List Char
  hours : Int
  minutes : Int
  date : List Char
  localIP : List Char
  rawRandom : Nat → Nat

/-- The globals at power-on: zero-initialised, the collaborators as found. -/
def Globals.init (boot : Boot) : Globals :=
  { scheduleEnabled := 0, scheduleH := 0, scheduleM := 0, minRandom := 0, maxRandom := 0,
    nbCycles := 0, activeTime := 0, logStatus := 0, currentRandomValue := 0,
    currentCycle := 0, activeScheduledTask := false, direction := false,
    idRobotTask := 0, idEndRobotTask := 0, idScheduleCleanTask := 0,
    tabParam := [], bufferTime := [], randomBuffer := [], randomValue := 0, b := false,
    items := List.replicate (PARAM_LEN + 1) [],
    pinForward := false, pinReturn := false,
    hours := boot.hours, minutes := boot.minutes, date := boot.date, localIP := boot.localIP,
    rawRandom := boot.rawRandom, randomCalls := 0, published := [],
    paramFile := boot.paramFile, logFile := boot.logFile, restarted := false }

/-- Function `initFileParam`; copying more than 32 characters into `tabParam[33]` is
undefined behaviour. -/
def initFileParam (force : Bool) (s : St) : Option St :=
  match s.env.paramFile with
  | some text =>
    if force then some (s.upd fun g => { g with paramFile := some PARAM, tabParam := PARAM })
    else if text.length < 33 then some (s.upd fun g => { g with tabParam := text })
    else none
  | none => some (s.upd fun g => { g with paramFile := some PARAM, tabParam := PARAM })

/-- Method `FileLittleFS::purge` on the log file: each line occupies its characters and a
line feed. -/
def purge (size : Nat) (s : St) : St :=
  if (s.env.logFile.map fun line => line.length + 1).sum > size then
    s.upd fun g => { g with logFile := [] }
  else s

/-- Function `deleteLogs`. -/
def deleteLogs (s : St) : St :=
  s.upd fun g => { g with logFile := [] }

/-- Function `setup`, from the pin initialisation on (network start-up left out). -/
def setup (call : Fonc → St → Option St) (boot : Boot) : Option St := do
  let s : St := Sys.init Fonc.null (Globals.init boot)
  let s := s.upd fun g => { g with pinForward := true, pinReturn := true }
  let s ← initFileParam false s
  let s := logsWrite boot.bootRaison s
  let s ← setParam s.env.tabParam s
  let s := purge 4048 s
  let r := random s.env.minRandom s.env.maxRandom s
  let c := t_creer Fonc.robotTask (toUnsigned r.1) true r.2
  let s := c.2.upd fun g => { g with idRobotTask := c.1 }
  let c := t_creer Fonc.robotEndTask (toUnsigned (s.env.activeTime * 60)) false s
  let s := c.2.upd fun g => { g with idEndRobotTask := c.1 }
  let c := t_creer Fonc.scheduleCleanTask 60 true s
  let s := c.2.upd fun g => { g with idScheduleCleanTask := c.1 }
  let s ← t_start call s.env.idScheduleCleanTask s
  let s := publish Topic.TOPIC_RESET_CYCLE [] s
  let r := random s.env.minRandom s.env.maxRandom s
  pure (r.2.upd fun g => { g with currentRandomValue := toUnsigned r.1 })

/-- Function `publishState`; its buffer `randomBuffer` is a local one. -/
def publishState (s : St) : Option St := do
  let endTime ← getCurrentTime s.env.idEndRobotTask s
  let endStart ← getStartTime s.env.idEndRobotTask s
  let robotStatus ← getStatus s.env.idRobotTask s
  let buffer :=
    "Cycle ".toList ++ fmtD s.env.currentCycle ++ ['/'] ++ fmtD s.env.nbCycles ++
      ", t=".toList ++ fmtD ((endTime / 60 : Nat) : Int) ++ ['/'] ++
      fmtD ((endStart / 60 : Nat) : Int) ++ " mn#".toList ++
      fmtD (if robotStatus ≠ CREE then 1 else 0)
  let s := publish Topic.TOPIC_STATUS buffer s
  let robotTime ← getCurrentTime s.env.idRobotTask s
  let randomBuffer :=
    (if !s.env.direction then "AV ".toList else "AR ".toList) ++
      fmtD (robotTime : Int) ++ ['/'] ++ fmtD (s.env.currentRandomValue : Int)
  let s := publish Topic.TOPIC_CYCLE_TIME randomBuffer s
  if s.env.activeScheduledTask then pure (publish Topic.TOPIC_SCHEDULED s.env.bufferTime s)
  else pure s

/-- Function `PubSubCallback`: a message `(topic, payload)` arrives. -/
def PubSubCallback (call : Fonc → St → Option St) (topic : Topic) (strPayload : List Char)
    (s : St) : Option St :=
  match topic with
  | Topic.TOPIC_SET_PARAM =>
    -- strcpy(tabParam, strPayload.c_str()) into char tabParam[33]
    if strPayload.length < 33 then do
      let s := s.upd fun g => { g with tabParam := strPayload }
      let s := s.upd fun g => { g with paramFile := some g.tabParam }
      let s ← setParam s.env.tabParam s
      setStartTime s.env.idEndRobotTask (toUnsigned (s.env.activeTime * 60)) s
    else none
  | Topic.TOPIC_GET_PARAM =>
    let s := publish Topic.TOPIC_PARAM s.env.tabParam s
    if s.env.currentCycle ≠ 0 then some (publish Topic.TOPIC_CYCLE_TIME s.env.randomBuffer s)
    else some (publish Topic.TOPIC_CYCLE_TIME ['0'] s)
  | Topic.TOPIC_GET_VERSION =>
    some (publish Topic.TOPIC_READ_VERSION (version ++ [';'] ++ s.env.localIP) s)
  | Topic.TOPIC_GET_LOGS =>
    let s := s.env.logFile.foldl
      (fun acc line => publish Topic.TOPIC_READ_LOGS (line ++ [Char.ofNat 10]) acc) s
    some (publish Topic.TOPIC_READ_LOGS "#####".toList s)
  | Topic.TOPIC_GET_STATUS => publishState s
  | Topic.TOPIC_START =>
    if strPayload = "ON".toList then do
      let s ← t_start call s.env.idRobotTask s
      let s ← t_start call s.env.idEndRobotTask s
      pure (writeLogs "Start manual cycle".toList s)
    else do
      let s ← robotEndTask s
      pure (publish Topic.TOPIC_CYCLE_TIME ['0'] s)
  | Topic.TOPIC_MANUAL =>
    if s.env.currentCycle = 0 then do
      let s ← t_stop s.env.idRobotTask s
      let s ← t_stop s.env.idEndRobotTask s
      if strPayload = "ON".toList then pure (robotForward s)
      else if strPayload = "OFF".toList then pure (robotReturn s)
      else pure (powerOff s)
    else
      if strPayload = "STOP".toList then do
        let s ←
          if !s.env.b then do
            let s ← t_suspend s.env.idRobotTask s
            pure (powerOff s)
          else do
            let s ← t_resume s.env.idRobotTask s
            if !s.env.direction then pure (robotForward s) else pure (robotReturn s)
        pure (s.upd fun g => { g with b := !g.b })
      else pure s
  | Topic.TOPIC_DELETE_LOGS => some (deleteLogs s)
  | Topic.TOPIC_RESET => some (s.upd fun g => { g with restarted := true })
  | _ => some s

/-- What the clock and the network report at some instant. -/
structure Reading where
  hours : Int
  minutes : Int
  date : List Char
  localIP : List Char

/-- The collaborators now report `r`. -/
def setReading (r : Reading) (s : St) : St :=
  s.upd fun g =>
    { g with hours := r.hours, minutes := r.minutes, date := r.date, localIP := r.localIP }

/-- One pass of `loop` in which a second has elapsed: the scheduler is ticked. -/
def tick (depth : Nat) (s : St) : Option St :=
  schedule (invoke depth) s

/-- The states that the firmware goes through, observed between two passes of `loop`:
the state that `setup` leaves, then any succession of ticks, of incoming messages, and of
changes of what the clock and the network report. A restart leads back to `setup`. -/
inductive Reachable : St → Prop where
  | boot (depth : Nat) (boot : Boot) (s : St) :
      setup (invoke depth) boot = some s → Reachable s
  | tick (depth : Nat) (s s1 : St) :
      Reachable s → tick depth s = some s1 → Reachable s1
  | message (depth : Nat) (topic : Topic) (strPayload : List Char) (s s1 : St) :
      Reachable s → topic ≠ Topic.TOPIC_RESET →
      PubSubCallback (invoke depth) topic strPayload s = some s1 → Reachable s1
  | clock (r : Reading) (s : St) :
      Reachable s → Reachable (setReading r s)

/-- Successive ticks, the collaborators reporting the given readings, one per tick. -/
def runTicks (depth : Nat) : List Reading → St → Option St
  | [], s => some s
  | r :: rest, s => (tick depth (setReading r s)).bind (runTicks depth rest)

/-- The test of `scheduleCleanTask`: the schedule is enabled and the clock shows the
scheduled hour and minute. -/
def Matches (s : St) : Prop :=
  s.env.scheduleEnabled ≠ 0 ∧ s.env.scheduleM = s.env.minutes ∧ s.env.scheduleH = s.env.hours

instance (s : St) : Decidable (Matches s) := by
  unfold Matches
  infer_instance

/-- The controller is idle: the oscillation task and the end-of-cycle task are both `CREE`
with `currentTime = 0`, `currentCycle` is 0 and both relays are released (motor off). -/
def Idle (s : St) : Prop :=
  getStatus s.env.idRobotTask s = some CREE ∧
  getCurrentTime s.env.idRobotTask s = some 0 ∧
  getStatus s.env.idEndRobotTask s = some CREE ∧
  getCurrentTime s.env.idEndRobotTask s = some 0 ∧
  s.env.currentCycle = 0 ∧ s.env.pinForward = true ∧ s.env.pinReturn = true

instance (s : St) : Decidable (Idle s) := by
  unfold Idle
  infer_instance

/-- The part of the state that no task action changes: the task ids, the configuration, what
the collaborators report, the action and kind of every task, the interval of the
end-of-cycle task, the slots of the scheduled-start task and of the free slot, the
saved-status table and the pause toggle. -/
structure Frame (s s1 : St) : Prop where
  idRobot : s1.env.idRobotTask = s.env.idRobotTask
  idEnd : s1.env.idEndRobotTask = s.env.idEndRobotTask
  idSched : s1.env.idScheduleCleanTask = s.env.idScheduleCleanTask
  scheduleEnabled : s1.env.scheduleEnabled = s.env.scheduleEnabled
  scheduleH : s1.env.scheduleH = s.env.scheduleH
  scheduleM : s1.env.scheduleM = s.env.scheduleM
  minRandom : s1.env.minRandom = s.env.minRandom
  maxRandom : s1.env.maxRandom = s.env.maxRandom
  nbCycles : s1.env.nbCycles = s.env.nbCycles
  activeTime : s1.env.activeTime = s.env.activeTime
  logStatus : s1.env.logStatus = s.env.logStatus
  hours : s1.env.hours = s.env.hours
  minutes : s1.env.minutes = s.env.minutes
  b : s1.env.b = s.env.b
  fonc : ∀ i, (s1.tabTask i).fonc = (s.tabTask i).fonc
  timerTask : ∀ i, (s1.tabTask i).timerTask = (s.tabTask i).timerTask
  start1 : (s1.tabTask 1).startTime = (s.tabTask 1).startTime
  task2 : s1.tabTask 2 = s.tabTask 2
  task3 : s1.tabTask 3 = s.tabTask 3
  last : s1.tabLastStatusTask = s.tabLastStatusTask

/-- The middle of `robotTask` (the `if (!direction) ... else ...` statement): the duration
of the next leg is chosen, installed as interval of the oscillation task, and the motor is
driven. Only used to reason on `robotTask` piece by piece. -/
def robotTaskLeg (s : St) : Option St :=
  if !s.env.direction then do
    let r := random s.env.minRandom s.env.maxRandom s
    let s := r.2.upd fun g => { g with currentRandomValue := toUnsigned r.1 }
    let s := s.upd fun g => { g with randomValue := g.currentRandomValue }
    let s ← setInterval s.env.idRobotTask s.env.currentRandomValue s
    pure (robotForward s)
  else do
    let s :=
      if s.env.randomValue > 30 then
        s.upd fun g => { g with currentRandomValue := g.randomValue - 20 }
      else s
    let s ← setInterval s.env.idRobotTask s.env.currentRandomValue s
    pure (robotReturn s)

/-- The end of `robotTask`, from the publication on. Only used to reason on `robotTask`
piece by piece. -/
def robotTaskCount (s : St) : Option St := do
  let s := publish Topic.TOPIC_CYCLE_TIME s.env.randomBuffer s
  let s := s.upd fun g => { g with direction := !g.direction }
  let s := s.upd fun g => { g with currentCycle := g.currentCycle + 1 }
  if s.env.currentCycle ≥ s.env.nbCycles then do
    let s ← endCycle s
    pure (writeLogs "End count cycle".toList s)
  else pure s

/-- The end of `scheduleCleanTask`, after the two `t_start` calls. Only used to reason on
`scheduleCleanTask` piece by piece. -/
def scheduleCleanTaskEnd (s : St) : St :=
  let s := writeLogs "Start scheduled clean cycle".toList s
  let s := s.upd fun g =>
    { g with bufferTime := fmt02d g.hours ++ [':'] ++ fmt02d g.minutes ++ [Char.ofNat 13] }
  let s := publish Topic.TOPIC_SCHEDULED s.env.bufferTime s
  s.upd fun g => { g with activeScheduledTask := true }

/-- The creation of the oscillation task in `setup`. Only used to reason on `setup` piece
by piece. -/
def setupRobotTask (s : St) : St :=
  let r := random s.env.minRandom s.env.maxRandom s
  let c := t_creer Fonc.robotTask (toUnsigned r.1) true r.2
  c.2.upd fun g => { g with idRobotTask := c.1 }

/-- The creation of the end-of-cycle task in `setup`. Only used to reason on `setup` piece
by piece. -/
def setupEndRobotTask (s : St) : St :=
  let c := t_creer Fonc.robotEndTask (toUnsigned (s.env.activeTime * 60)) false s
  c.2.upd fun g => { g with idEndRobotTask := c.1 }

/-- The creation of the scheduled-start task in `setup`. Only used to reason on `setup`
piece by piece. -/
def setupScheduleCleanTask (s : St) : St :=
  let c := t_creer Fonc.scheduleCleanTask 60 true s
  c.2.upd fun g => { g with idScheduleCleanTask := c.1 }

/-- The end of `setup`, from the start of the scheduled-start task on. Only used to reason
on `setup` piece by piece. -/
def setupEnd (call : Fonc → St → Option St) (s : St) : Option St := do
  let s ← t_start call s.env.idScheduleCleanTask s
  let s := publish Topic.TOPIC_RESET_CYCLE [] s
  let r := random s.env.minRandom s.env.maxRandom s
  pure (r.2.upd fun g => { g with currentRandomValue := toUnsigned r.1 })

/-- Where a cycle of `n` oscillations stands `k` ticks after its start, `base` being the
number of oscillation firings journalled before the start: still oscillating after `c`
firings (`1 ≤ c < n`, `currentCycle = c`), or idle after the `n`-th firing, or (when the
very first firing was the `n`-th) ended with the end-of-cycle task armed by the start. Only
used to state lemmas. -/
def Phase (base n k : Nat) (s : St) : Prop :=
  (∃ c : Nat, 1 ≤ c ∧ c < n ∧ (s.tabTask 0).status = PRET ∧ (s.tabTask 1).status = PRET ∧
    (s.tabTask 1).currentTime = k ∧ s.env.currentCycle = (c : Int) ∧
    s.fired.count 0 = base + c) ∨
  (Idle s ∧ s.fired.count 0 = base + n) ∨
  ((s.tabTask 0).status = CREE ∧ (s.tabTask 1).status = PRET ∧
    (s.tabTask 1).currentTime = k ∧ s.fired.count 0 = base + n)

/-- What `setup` establishes and every later step keeps: the three task ids, the action
and kind of the three tasks, the interval of the end-of-cycle task, and the fourth slot
free. -/
structure Inv (s : St) : Prop where
  idRobot : s.env.idRobotTask = 0
  idEnd : s.env.idEndRobotTask = 1
  idSched : s.env.idScheduleCleanTask = 2
  fonc0 : (s.tabTask 0).fonc = Fonc.robotTask
  timer0 : (s.tabTask 0).timerTask = true
  fonc1 : (s.tabTask 1).fonc = Fonc.robotEndTask
  timer1 : (s.tabTask 1).timerTask = false
  start1 : (s.tabTask 1).startTime = toUnsigned (s.env.activeTime * 60)
  fonc2 : (s.tabTask 2).fonc = Fonc.scheduleCleanTask
  timer2 : (s.tabTask 2).timerTask = true
  free3 : (s.tabTask 3).status = N_CREE

/-! ## A concrete power-on, used for the instances of the controller theorems -/

/-- A power-on at 09:15 with the stored configuration `1:10:30:2:5:3:1:1` (daily start
at 10:30, legs of 2 to 4 ticks, three oscillations, one minute of activity); the generator
outputs 7, 15, 2, 2, ... -/
def bootDemo : Boot :=
  { paramFile := some "1:10:30:2:5:3:1:1".toList,
    logFile := [],
    bootRaison := "Startup power on".toList,
    hours := 9,
    minutes := 15,
    date := "01/06/2025 09:15:00".toList,
    localIP := "192.168.1.20".toList,
    rawRandom := fun k => if k = 0 then 7 else if k = 1 then 15 else 2 }

/-- The state that `setup` leaves after the power-on `bootDemo`. -/
def bootState : St :=
  match setup (invoke 1) bootDemo with
  | some s => s
  | none => Sys.init Fonc.null (Globals.init bootDemo)

/-- A power-on at 10:30, the scheduled minute, with the stored configuration
`1:10:30:10:30:150:360:1` (legs of 10 to 29 ticks); the generator outputs 7, 15, 2, 2, ...,
so that the successive draws are 17, 25 and 12. -/
def bootScheduled : Boot :=
  { paramFile := some "1:10:30:10:30:150:360:1".toList,
    logFile := [],
    bootRaison := "Startup power on".toList,
    hours := 10,
    minutes := 30,
    date := "01/06/2025 10:30:00".toList,
    localIP := "192.168.1.20".toList,
    rawRandom := fun k => if k = 0 then 7 else if k = 1 then 15 else 2 }

/-! ## Further concrete states and notions used by the theorems on the controller -/

/-- The state `bootState` once the clock shows 10:30, the scheduled time of the stored
configuration `1:10:30:2:5:3:1:1`: the test of `scheduleCleanTask` matches. -/
def bootMatching : St :=
  setReading
    { hours := 10, minutes := 30, date := "01/06/2025 10:30:00".toList,
      localIP := "192.168.1.20".toList }
    bootState

/-- The transition Idle → Running as its two call sites (`scheduleCleanTask` and the start
command) perform it: `Task::t_start(idRobotTask); Task::t_start(idEndRobotTask);`. -/
def startCycle (call : Fonc → St → Option St) (s : St) : Option St := do
  let s ← t_start call s.env.idRobotTask s
  t_start call s.env.idEndRobotTask s

/-- What the spec calls the observable cycle state: `currentCycle`, `direction`,
`currentRandomValue`, the two relay pins, and status, `currentTime` and `startTime` of the
oscillation task and of the end-of-cycle task. -/
structure CycleState where
  currentCycle : Int
  direction : Bool
  currentRandomValue : Nat
  pinForward : Bool
  pinReturn : Bool
  robotTask : Nat × Nat × Nat
  endRobotTask : Nat × Nat × Nat
deriving DecidableEq, Repr

/-- The observable cycle state of a state of the firmware. -/
def cycleState (s : St) : CycleState :=
  { currentCycle := s.env.currentCycle, direction := s.env.direction,
    currentRandomValue := s.env.currentRandomValue, pinForward := s.env.pinForward,
    pinReturn := s.env.pinReturn,
    robotTask := ((s.tabTask 0).status, (s.tabTask 0).currentTime, (s.tabTask 0).startTime),
    endRobotTask :=
      ((s.tabTask 1).status, (s.tabTask 1).currentTime, (s.tabTask 1).startTime) }

/-- The reading of the collaborators one minute after the power-on `bootDemo`. -/
def demoReading : Reading :=
  { hours := 9, minutes := 16, date := "01/06/2025 09:16:00".toList,
    localIP := "192.168.1.20".toList }

/-- The state `bootState` after the start command: a cycle is running, its first (forward)
leg in flight. -/
def bootStarted : St :=
  match PubSubCallback (invoke 1) Topic.TOPIC_START "ON".toList bootState with
  | some s => s
  | none => bootState

/-- The state `bootStarted` one tick later. -/
def bootRunning : St :=
  match tick 1 (setReading demoReading bootStarted) with
  | some s => s
  | none => bootState

/-- The state `bootStarted` after a manual `STOP`: the cycle is paused. -/
def bootPaused : St :=
  match PubSubCallback (invoke 1) Topic.TOPIC_MANUAL "STOP".toList bootStarted with
  | some s => s
  | none => bootState

/-- The state `bootPaused` after a second start command: the cycle is running again, and
the pause toggle of the manual command still says "paused". -/
def bootRestarted : St :=
  match PubSubCallback (invoke 1) Topic.TOPIC_START "ON".toList bootPaused with
  | some s => s
  | none => bootState

/-- The eight configuration variables, in the order of the field indices of `const.h`. -/
def config (s : St) : List Int :=
  [s.env.scheduleEnabled, s.env.scheduleH, s.env.scheduleM, s.env.minRandom,
    s.env.maxRandom, s.env.nbCycles, s.env.activeTime, s.env.logStatus]

/-- The text `t0:t1:...:tn` of a list of fields. -/
def joinFields : List (List Char) → List Char
  | [] => []
  | [t] => t
  | t :: ts => t ++ ':' :: joinFields ts

/-- The configuration string `v0:v1:...` of a list of integers, each written in decimal as
`%d` writes it. -/
def formatParam (vs : List Int) : List Char :=
  joinFields (vs.map fmtD)

/-- Entry `k` of the static array of `split` once the tokens `toks` have been copied over
the entries `items` that earlier calls left. Only used to state lemmas. -/
def itemAfter (toks items : List (List Char)) (k : Nat) : List Char :=
  if k < toks.length then toks.getD k [] else items.getD k []

/-- The part of the globals that only `setParam` writes: the static array of `split`, the
eight configuration variables, and the global `randomBuffer`. Only used to state lemmas. -/
def parserState (s : St) : List (List Char) × List Char × List Int :=
  (s.env.items, s.env.randomBuffer, config s)

/-- What `setup` establishes about the parser and every later step keeps: the static array
of `split` has its nine entries, each configuration variable is `atoi` of the entry of its
index, and the global `randomBuffer` is empty. -/
structure Parsed (s : St) : Prop where
  length : s.env.items.length = PARAM_LEN + 1
  config : config s = (List.range PARAM_LEN).map fun k => atoi (get s.env.items k)
  buffer : s.env.randomBuffer = []

/-- The table `demoSys` after `setInterval(0, 3)`: the interval of the recurring task of
slot 0 is now below its `currentTime` (4). -/
def demoLate : Sys Unit Nat :=
  demoSys.setTask 0 { demoSys.tabTask 0 with startTime := 3 }

/-- The state `bootRunning` (end-of-cycle task `PRET`, `currentTime = 1`) after the set-param
command `1:10:30:2:5:3:0:1`, which lowers `activeTime` to 0. -/
def bootLowered : St :=
  match PubSubCallback (invoke 1) Topic.TOPIC_SET_PARAM "1:10:30:2:5:3:0:1".toList bootRunning with
  | some s => s
  | none => bootState

/-! ## Lemmas on the scheduler -/

theorem fin_four : ∀ i : Fin MAX_TASK, i = 0 ∨ i = 1 ∨ i = 2 ∨ i = 3 := by decide

theorem finRange_four : List.finRange MAX_TASK = [0, 1, 2, 3] := by decide

theorem scheduleTask_passive (call : F → Sys F E → Option (Sys F E)) (i : Fin MAX_TASK)
    (s : Sys F E) (hp : Passive call (s.tabTask i).fonc) :
    ∃ s1, scheduleTask call i s = some s1 ∧
      s1.tabTask = Function.update s.tabTask i (s.tabTask i).afterTick ∧
      s1.tabLastStatusTask = s.tabLastStatusTask ∧
      s1.fired = s.fired ++ (if (s.tabTask i).due then [i] else []) := by
  unfold scheduleTask
  by_cases hr : (s.tabTask i).status = PRET
  · by_cases hd : ((s.tabTask i).currentTime + 1) % UINT = (s.tabTask i).startTime
    · obtain ⟨s1, h1, ht, hl, hf⟩ := hp
        { (s.setTask i { s.tabTask i with
              currentTime := ((s.tabTask i).currentTime + 1) % UINT }).setTask i
            { s.tabTask i with
              currentTime := ((s.tabTask i).currentTime + 1) % UINT, status := EXEC } with
          fired := s.fired ++ [i] }
      cases hb : (s.tabTask i).timerTask <;>
        simp [hr, hd, hb, callFonc, Sys.setTask, Task.afterTick, Task.due] at h1 ht hl hf ⊢ <;>
        simp [h1, ht, hl, hf, Sys.setTask]
    · simp [hr, hd, Sys.setTask, Task.afterTick, Task.due]
  · simp [hr, Task.afterTick, Task.due]

theorem schedule_passive (call : F → Sys F E → Option (Sys F E)) (s : Sys F E)
    (hp : ∀ i, Passive call (s.tabTask i).fonc) :
    ∃ s1, schedule call s = some s1 ∧
      s1.tabTask = (fun i => (s.tabTask i).afterTick) ∧
      s1.tabLastStatusTask = s.tabLastStatusTask ∧
      s1.fired = s.fired ++ (List.finRange MAX_TASK).filter (fun i => (s.tabTask i).due) := by
  obtain ⟨a, ha, hta, hla, hfa⟩ := scheduleTask_passive call 0 s (hp 0)
  obtain ⟨b, hb, htb, hlb, hfb⟩ := scheduleTask_passive call 1 a
    (by rw [hta]; simpa using hp 1)
  obtain ⟨c, hc, htc, hlc, hfc⟩ := scheduleTask_passive call 2 b
    (by rw [htb, hta]; simpa using hp 2)
  obtain ⟨d, hd, htd, hld, hfd⟩ := scheduleTask_passive call 3 c
    (by rw [htc, htb, hta]; simpa using hp 3)
  refine ⟨d, ?_, ?_, ?_, ?_⟩
  · simp only [schedule, finRange_four, List.foldlM_cons, List.foldlM_nil, ha, hb, hc, hd,
      Option.bind_eq_bind, Option.some_bind, Option.pure_def]
  · rw [htd, htc, htb, hta]
    funext i
    rcases fin_four i with h | h | h | h <;> subst h <;> simp
  · rw [hld, hlc, hlb, hla]
  · rw [hfd, hfc, hfb, hfa, htc, htb, hta, finRange_four]
    simp [List.filter_cons]
    cases h0 : (s.tabTask 0).due <;> cases h1 : (s.tabTask 1).due <;>
      cases h2 : (s.tabTask 2).due <;> cases h3 : (s.tabTask 3).due <;> simp

theorem count_filter_finRange (p : Fin MAX_TASK → Bool) (i : Fin MAX_TASK) :
    ((List.finRange MAX_TASK).filter p).count i = if p i then 1 else 0 := by
  rw [finRange_four]
  rcases fin_four i with h | h | h | h <;> subst h <;>
    cases h0 : p 0 <;> cases h1 : p 1 <;> cases h2 : p 2 <;> cases h3 : p 3 <;>
    simp [List.filter_cons, h0, h1, h2, h3]

theorem demoCall_passive (f : Unit) : Passive demoCall f :=
  fun _ => ⟨_, rfl, rfl, rfl, rfl⟩

/-- Claim C1. One call of `schedule` (one tick), when every action of the table leaves the
scheduler alone: the call returns; a task that is not `PRET` is left unchanged and its action
is not invoked; a `PRET` task gets `currentTime` incremented (as an `unsigned`), and if the
incremented value differs from `startTime` nothing else changes and its action is not
invoked; if it equals `startTime` the action is invoked exactly once and the task ends
`CREE` when it is one-shot, `PRET` with `currentTime = 0` when it is recurring. -/
theorem C1_schedule_tick (call : F → Sys F E → Option (Sys F E)) (s : Sys F E)
    (hp : ∀ i, Passive call (s.tabTask i).fonc) :
    ∃ s1, schedule call s = some s1 ∧ ∀ i : Fin MAX_TASK,
      ((s.tabTask i).status ≠ PRET →
        s1.tabTask i = s.tabTask i ∧ s1.fired.count i = s.fired.count i) ∧
      ((s.tabTask i).status = PRET →
        ((s.tabTask i).currentTime + 1) % UINT ≠ (s.tabTask i).startTime →
        s1.tabTask i =
            { s.tabTask i with currentTime := ((s.tabTask i).currentTime + 1) % UINT } ∧
          s1.fired.count i = s.fired.count i) ∧
      ((s.tabTask i).status = PRET →
        ((s.tabTask i).currentTime + 1) % UINT = (s.tabTask i).startTime →
        s1.fired.count i = s.fired.count i + 1 ∧
          ((s.tabTask i).timerTask = false →
            s1.tabTask i =
              { s.tabTask i with
                currentTime := ((s.tabTask i).currentTime + 1) % UINT, status := CREE }) ∧
          ((s.tabTask i).timerTask = true →
            s1.tabTask i = { s.tabTask i with currentTime := 0, status := PRET })) := by
  obtain ⟨s1, h1, ht, -, hf⟩ := schedule_passive call s hp
  refine ⟨s1, h1, fun i => ⟨?_, ?_, ?_⟩⟩
  · intro hr
    rw [hf, List.count_append, count_filter_finRange]
    simp [ht, Task.afterTick, Task.due, hr]
  · intro hr hd
    rw [hf, List.count_append, count_filter_finRange]
    simp [ht, Task.afterTick, Task.due, hr, hd]
  · intro hr hd
    refine ⟨?_, ?_, ?_⟩
    · rw [hf, List.count_append, count_filter_finRange]
      simp [Task.due, hr, hd]
    · intro hb
      simp [ht, Task.afterTick, hr, hd, hb]
    · intro hb
      simp [ht, Task.afterTick, hr, hd, hb]

/-- Instance of C1 on `demoSys`. -/
theorem C1_schedule_tick_witness :
    (∀ i, Passive demoCall (demoSys.tabTask i).fonc) ∧
    ∃ s1, schedule demoCall demoSys = some s1 ∧ ∀ i : Fin MAX_TASK,
      ((demoSys.tabTask i).status ≠ PRET →
        s1.tabTask i = demoSys.tabTask i ∧ s1.fired.count i = demoSys.fired.count i) ∧
      ((demoSys.tabTask i).status = PRET →
        ((demoSys.tabTask i).currentTime + 1) % UINT ≠ (demoSys.tabTask i).startTime →
        s1.tabTask i =
            { demoSys.tabTask i with
              currentTime := ((demoSys.tabTask i).currentTime + 1) % UINT } ∧
          s1.fired.count i = demoSys.fired.count i) ∧
      ((demoSys.tabTask i).status = PRET →
        ((demoSys.tabTask i).currentTime + 1) % UINT = (demoSys.tabTask i).startTime →
        s1.fired.count i = demoSys.fired.count i + 1 ∧
          ((demoSys.tabTask i).timerTask = false →
            s1.tabTask i =
              { demoSys.tabTask i with
                currentTime := ((demoSys.tabTask i).currentTime + 1) % UINT,
                status := CREE }) ∧
          ((demoSys.tabTask i).timerTask = true →
            s1.tabTask i = { demoSys.tabTask i with currentTime := 0, status := PRET })) :=
  ⟨fun _ => demoCall_passive _, C1_schedule_tick demoCall demoSys (fun _ => demoCall_passive _)⟩

theorem slot_val (i : Fin MAX_TASK) : slot (i.val : Int) = some i := by
  rcases fin_four i with h | h | h | h <;> subst h <;> rfl

theorem val_ne_neg_one (i : Fin MAX_TASK) : (i.val : Int) ≠ -1 := by omega

theorem t_start_passive (call : F → Sys F E → Option (Sys F E)) (s : Sys F E)
    (i : Fin MAX_TASK) (hp : Passive call (s.tabTask i).fonc) :
    ∃ s1, t_start call (i.val : Int) s = some s1 ∧
      s1.tabTask =
        Function.update s.tabTask i { s.tabTask i with status := PRET, currentTime := 0 } ∧
      s1.tabLastStatusTask = s.tabLastStatusTask ∧
      s1.fired = s.fired ++ (if (s.tabTask i).timerTask then [i] else []) := by
  unfold t_start
  cases hb : (s.tabTask i).timerTask
  · simp [val_ne_neg_one, slot_val, Sys.setTask, hb]
  · obtain ⟨s1, h1, ht, hl, hf⟩ := hp
      { s.setTask i { s.tabTask i with status := PRET, currentTime := 0 } with
        fired := s.fired ++ [i] }
    simp [callFonc, Sys.setTask, hb] at h1 ht hl hf
    simp [val_ne_neg_one, slot_val, Sys.setTask, hb, callFonc, h1, ht, hl, hf]

/-- Claim C2. The call `t_start(-1)` returns the state it was given (no task changes, no
action is invoked). For a valid id whose action leaves the scheduler alone, `t_start(id)`
returns with the task `PRET` and `currentTime = 0`, its `startTime`, `timerTask` and `fonc`
as before, every other task and the saved-status table unchanged, and the journal extended
by exactly one invocation of the task's action when it is recurring, by none when it is
one-shot. -/
theorem C2_t_start (call : F → Sys F E → Option (Sys F E)) (s : Sys F E)
    (i : Fin MAX_TASK) (hp : Passive call (s.tabTask i).fonc) :
    t_start call (-1) s = some s ∧
    ∃ s1, t_start call (i.val : Int) s = some s1 ∧
      (s1.tabTask i).status = PRET ∧ (s1.tabTask i).currentTime = 0 ∧
      (s1.tabTask i).startTime = (s.tabTask i).startTime ∧
      (s1.tabTask i).timerTask = (s.tabTask i).timerTask ∧
      (s1.tabTask i).fonc = (s.tabTask i).fonc ∧
      (∀ j, j ≠ i → s1.tabTask j = s.tabTask j) ∧
      s1.tabLastStatusTask = s.tabLastStatusTask ∧
      ((s.tabTask i).timerTask = true → s1.fired = s.fired ++ [i]) ∧
      ((s.tabTask i).timerTask = false → s1.fired = s.fired) := by
  refine ⟨by simp [t_start], ?_⟩
  obtain ⟨s1, h1, ht, hl, hf⟩ := t_start_passive call s i hp
  refine ⟨s1, h1, ?_, ?_, ?_, ?_, ?_, ?_, hl, ?_, ?_⟩
  · simp [ht]
  · simp [ht]
  · simp [ht]
  · simp [ht]
  · simp [ht]
  · intro j hj
    simp [ht, Function.update_noteq hj]
  · intro hb
    simp [hf, hb]
  · intro hb
    simp [hf, hb]

/-- Instance of C2: the recurring task of slot 0 of `demoSys`. -/
theorem C2_t_start_witness :
    Passive demoCall (demoSys.tabTask 0).fonc ∧
    t_start demoCall (-1) demoSys = some demoSys ∧
    ∃ s1, t_start demoCall (((0 : Fin MAX_TASK).val : Nat) : Int) demoSys = some s1 ∧
      (s1.tabTask 0).status = PRET ∧ (s1.tabTask 0).currentTime = 0 ∧
      (s1.tabTask 0).startTime = (demoSys.tabTask 0).startTime ∧
      (s1.tabTask 0).timerTask = (demoSys.tabTask 0).timerTask ∧
      (s1.tabTask 0).fonc = (demoSys.tabTask 0).fonc ∧
      (∀ j, j ≠ 0 → s1.tabTask j = demoSys.tabTask j) ∧
      s1.tabLastStatusTask = demoSys.tabLastStatusTask ∧
      ((demoSys.tabTask 0).timerTask = true → s1.fired = demoSys.fired ++ [0]) ∧
      ((demoSys.tabTask 0).timerTask = false → s1.fired = demoSys.fired) :=
  ⟨demoCall_passive _, C2_t_start demoCall demoSys 0 (demoCall_passive _)⟩

theorem ticks_passive (call : F → Sys F E → Option (Sys F E)) (hp : ∀ f, Passive call f)
    (k : Nat) (s : Sys F E) :
    ∃ s1, ticks call k s = some s1 ∧
      s1.tabTask = (fun i => Task.afterTick^[k] (s.tabTask i)) ∧
      s1.tabLastStatusTask = s.tabLastStatusTask ∧
      ∀ i, s1.fired.count i = s.fired.count i + (s.tabTask i).firings k := by
  induction k generalizing s with
  | zero => exact ⟨s, rfl, rfl, rfl, fun i => rfl⟩
  | succ k ih =>
    obtain ⟨a, ha, hta, hla, hfa⟩ := schedule_passive call s (fun i => hp _)
    obtain ⟨b, hb, htb, hlb, hfb⟩ := ih a
    refine ⟨b, ?_, ?_, ?_, ?_⟩
    · simp [ticks, ha, hb]
    · rw [htb, hta]
      funext i
      simp [Function.iterate_succ_apply]
    · rw [hlb, hla]
    · intro i
      rw [hfb i, hfa, hta, List.count_append, count_filter_finRange]
      simp only [Task.firings]
      omega

theorem firings_add (j k : Nat) (t : Task F) :
    t.firings (j + k) = t.firings j + (Task.afterTick^[j] t).firings k := by
  induction j generalizing t with
  | zero => simp [Task.firings]
  | succ j ih =>
    rw [Nat.add_right_comm, Task.firings, Task.firings, ih, Function.iterate_succ_apply]
    omega

theorem afterTick_iter_idle (k : Nat) (t : Task F) (h : t.status ≠ PRET) :
    Task.afterTick^[k] t = t ∧ t.firings k = 0 := by
  induction k with
  | zero => exact ⟨rfl, rfl⟩
  | succ k ih =>
    have e : t.afterTick = t := by simp [Task.afterTick, h]
    refine ⟨?_, ?_⟩
    · rw [Function.iterate_succ_apply, e, ih.1]
    · rw [Task.firings, e, ih.2]
      simp [Task.due, h]

theorem afterTick_iter_counting (k : Nat) (t : Task F) (hr : t.status = PRET)
    (hk : t.currentTime + k < t.startTime) (hu : t.startTime < UINT) :
    Task.afterTick^[k] t = { t with currentTime := t.currentTime + k } ∧ t.firings k = 0 := by
  induction k generalizing t with
  | zero => exact ⟨rfl, rfl⟩
  | succ k ih =>
    have hm : (t.currentTime + 1) % UINT = t.currentTime + 1 := Nat.mod_eq_of_lt (by omega)
    have hne : t.currentTime + 1 ≠ t.startTime := by omega
    have e : t.afterTick = { t with currentTime := t.currentTime + 1 } := by
      simp [Task.afterTick, hr, hm, hne]
    obtain ⟨h1, h2⟩ := ih { t with currentTime := t.currentTime + 1 } hr
      (by simp only; omega) hu
    refine ⟨?_, ?_⟩
    · rw [Function.iterate_succ_apply, e, h1]
      simp only [Task.mk.injEq, true_and, and_true]
      omega
    · rw [Task.firings, e, h2]
      simp [Task.due, hr, hm, hne]

theorem afterTick_iter_fire (t : Task F) (n : Nat) (hr : t.status = PRET)
    (hc : t.currentTime = 0) (hs : t.startTime = n) (hn : 1 ≤ n) (hu : n < UINT) :
    t.firings (n - 1) = 0 ∧ t.firings n = 1 ∧
    Task.afterTick^[n - 1] t = { t with currentTime := n - 1 } ∧
    Task.afterTick^[n] t =
      (if t.timerTask then { t with currentTime := 0 }
       else { t with status := CREE, currentTime := n }) := by
  obtain ⟨h1, h2⟩ := afterTick_iter_counting (n - 1) t hr (by omega) (by omega)
  have hm : (n - 1 + 1) % UINT = n := by
    rw [Nat.sub_add_cancel hn]; exact Nat.mod_eq_of_lt hu
  have e : n = (n - 1) + 1 := by omega
  rw [hc, Nat.zero_add] at h1
  refine ⟨h2, ?_, h1, ?_⟩
  · rw [e, firings_add, h2, h1]
    simp [Task.firings, Task.due, hr, hm, hs]
  · rw [e, Function.iterate_succ_apply', h1, ← e]
    cases hb : t.timerTask <;> simp [Task.afterTick, hr, hm, hs, hb]

theorem t_creer_spec (f : F) (n : Nat) (b : Bool) (s : Sys F E) :
    ((∀ i, (s.tabTask i).status ≠ N_CREE) ∧ t_creer f n b s = (-1, s)) ∨
    (∃ i : Fin MAX_TASK, (s.tabTask i).status = N_CREE ∧
      (∀ j, j < i → (s.tabTask j).status ≠ N_CREE) ∧
      t_creer f n b s =
        ((i.val : Int), s.setTask i
          { fonc := f, startTime := n, currentTime := 0, status := CREE, timerTask := b })) := by
  unfold t_creer
  rw [finRange_four]
  by_cases h0 : (s.tabTask 0).status = N_CREE
  · right
    refine ⟨0, h0, fun j hj => ?_, ?_⟩
    · rcases fin_four j with h | h | h | h <;> subst h <;> exact absurd hj (by decide)
    · simp [List.find?, h0]
  by_cases h1 : (s.tabTask 1).status = N_CREE
  · right
    refine ⟨1, h1, fun j hj => ?_, ?_⟩
    · rcases fin_four j with h | h | h | h <;> subst h <;> first | exact h0 | exact absurd hj (by decide)
    · simp [List.find?, h0, h1]
  by_cases h2 : (s.tabTask 2).status = N_CREE
  · right
    refine ⟨2, h2, fun j hj => ?_, ?_⟩
    · rcases fin_four j with h | h | h | h <;> subst h <;>
        first | exact h0 | exact h1 | exact absurd hj (by decide)
    · simp [List.find?, h0, h1, h2]
  by_cases h3 : (s.tabTask 3).status = N_CREE
  · right
    refine ⟨3, h3, fun j hj => ?_, ?_⟩
    · rcases fin_four j with h | h | h | h <;> subst h <;>
        first | exact h0 | exact h1 | exact h2 | exact absurd hj (by decide)
    · simp [List.find?, h0, h1, h2, h3]
  left
  refine ⟨fun i => ?_, ?_⟩
  · rcases fin_four i with h | h | h | h <;> subst h <;> assumption
  · simp [List.find?, h0, h1, h2, h3]

/-- Claim C3 as stated fails. A recurring task created with interval 5 in the empty table
gets id 0; started and ticked 5 times its action has been invoked twice, not once; ticked 4
times it has been invoked once, not zero times: `t_start` itself invokes the action of a
recurring task. -/
theorem C3_counterexample :
    (t_creer () 5 true (Sys.init () (0 : Nat))).1 = 0 ∧
    ((t_start demoCall 0 (t_creer () 5 true (Sys.init () (0 : Nat))).2).bind
        (ticks demoCall 5)).map (fun s => s.fired.count 0) = some 2 ∧
    ((t_start demoCall 0 (t_creer () 5 true (Sys.init () (0 : Nat))).2).bind
        (ticks demoCall 5)).map (fun s => s.fired.count 0) ≠ some 1 ∧
    ((t_start demoCall 0 (t_creer () 5 true (Sys.init () (0 : Nat))).2).bind
        (ticks demoCall 4)).map (fun s => s.fired.count 0) = some 1 ∧
    ((t_start demoCall 0 (t_creer () 5 true (Sys.init () (0 : Nat))).2).bind
        (ticks demoCall 4)).map (fun s => s.fired.count 0) ≠ some 0 := by
  decide

/-- Claim C3, amended. A recurring task created with interval `n` (`1 ≤ n < 2^32`), among
passive actions: `t_start` invokes its action once, immediately; the `n - 1` first ticks
invoke it zero times (one invocation in total); the `n`-th tick invokes it once (two
invocations in total). -/
theorem C3_recurring_fires (call : F → Sys F E → Option (Sys F E))
    (hp : ∀ g, Passive call g) (f : F) (n : Nat) (hn : 1 ≤ n) (hu : n < UINT)
    (s : Sys F E) (i : Fin MAX_TASK) (hc : (t_creer f n true s).1 = (i.val : Int)) :
    ∃ s1, t_start call (i.val : Int) (t_creer f n true s).2 = some s1 ∧
      s1.fired.count i = s.fired.count i + 1 ∧
      (∃ s2, ticks call (n - 1) s1 = some s2 ∧ s2.fired.count i = s.fired.count i + 1) ∧
      (∃ s3, ticks call n s1 = some s3 ∧ s3.fired.count i = s.fired.count i + 2) := by
  rcases t_creer_spec f n true s with ⟨-, h⟩ | ⟨j, -, -, h⟩
  · rw [h] at hc
    exact absurd hc.symm (val_ne_neg_one i)
  rw [h] at hc ⊢
  have hji : j = i := by
    apply Fin.ext
    have : (j.val : Int) = (i.val : Int) := hc
    omega
  subst hji
  obtain ⟨s1, h1, ht1, -, hf1⟩ := t_start_passive call
    (s.setTask j ⟨f, CREE, 0, n, true⟩) j (hp _)
  have hj : s1.tabTask j =
      { fonc := f, startTime := n, currentTime := 0, status := PRET, timerTask := true } := by
    simp [ht1, Sys.setTask]
  have hcount : s1.fired.count j = s.fired.count j + 1 := by
    simp [hf1, Sys.setTask]
  obtain ⟨e1, e2, -, -⟩ := afterTick_iter_fire (s1.tabTask j) n (by rw [hj]) (by rw [hj])
    (by rw [hj]) hn hu
  refine ⟨s1, h1, hcount, ?_, ?_⟩
  · obtain ⟨s2, h2, -, -, hf2⟩ := ticks_passive call hp (n - 1) s1
    exact ⟨s2, h2, by rw [hf2 j, e1, hcount]⟩
  · obtain ⟨s3, h3, -, -, hf3⟩ := ticks_passive call hp n s1
    exact ⟨s3, h3, by rw [hf3 j, e2, hcount]⟩

/-- Instance of the amended C3: interval 5, created in the empty table. -/
theorem C3_recurring_fires_witness :
    ∃ s1, t_start demoCall (((0 : Fin MAX_TASK).val : Nat) : Int)
        (t_creer () 5 true (Sys.init () (0 : Nat))).2 = some s1 ∧
      s1.fired.count 0 = (Sys.init () (0 : Nat)).fired.count 0 + 1 ∧
      (∃ s2, ticks demoCall (5 - 1) s1 = some s2 ∧
        s2.fired.count 0 = (Sys.init () (0 : Nat)).fired.count 0 + 1) ∧
      (∃ s3, ticks demoCall 5 s1 = some s3 ∧
        s3.fired.count 0 = (Sys.init () (0 : Nat)).fired.count 0 + 2) :=
  C3_recurring_fires demoCall demoCall_passive () 5 (by decide) (by decide)
    (Sys.init () 0) 0 (by decide)

theorem scheduleTask_keeps (call : F → Sys F E → Option (Sys F E)) (i : Fin MAX_TASK)
    (hk : Keeps call i) (j : Fin MAX_TASK) (s : Sys F E) (hs : (s.tabTask i).status ≠ PRET) :
    ∃ s1, scheduleTask call j s = some s1 ∧ s1.tabTask i = s.tabTask i ∧
      s1.tabLastStatusTask i = s.tabLastStatusTask i ∧ s1.fired.count i = s.fired.count i := by
  unfold scheduleTask
  by_cases hr : (s.tabTask j).status = PRET
  · have hji : j ≠ i := fun h => hs (h ▸ hr)
    have hij : i ≠ j := fun h => hji h.symm
    by_cases hd : ((s.tabTask j).currentTime + 1) % UINT = (s.tabTask j).startTime
    · obtain ⟨s1, h1, ht, hl, hf⟩ := hk (s.tabTask j).fonc
        { (s.setTask j { s.tabTask j with
              currentTime := ((s.tabTask j).currentTime + 1) % UINT }).setTask j
            { s.tabTask j with
              currentTime := ((s.tabTask j).currentTime + 1) % UINT, status := EXEC } with
          fired := s.fired ++ [j] }
      simp [Sys.setTask, Function.update_noteq hij, List.count_append, hji, hd] at h1 ht hl hf
      simp only [hr, hd, callFonc, Sys.setTask, Function.update_same, if_true,
        Function.update_idem, h1, Option.bind_eq_bind, Option.some_bind]
      have hc : List.count i [j] = 0 := List.count_eq_zero.mpr (by simp [hij])
      split_ifs <;> simp [Function.update_noteq hij, ht, hl, hf, hc]
    · simp [hr, hd, Sys.setTask, Function.update_noteq hij]
  · simp [hr]

theorem schedule_keeps (call : F → Sys F E → Option (Sys F E)) (i : Fin MAX_TASK)
    (hk : Keeps call i) (s : Sys F E) (hs : (s.tabTask i).status ≠ PRET) :
    ∃ s1, schedule call s = some s1 ∧ s1.tabTask i = s.tabTask i ∧
      s1.tabLastStatusTask i = s.tabLastStatusTask i ∧ s1.fired.count i = s.fired.count i := by
  obtain ⟨a, ha, hta, hla, hfa⟩ := scheduleTask_keeps call i hk 0 s hs
  obtain ⟨b, hb, htb, hlb, hfb⟩ := scheduleTask_keeps call i hk 1 a (by rw [hta]; exact hs)
  obtain ⟨c, hc, htc, hlc, hfc⟩ := scheduleTask_keeps call i hk 2 b
    (by rw [htb, hta]; exact hs)
  obtain ⟨d, hd, htd, hld, hfd⟩ := scheduleTask_keeps call i hk 3 c
    (by rw [htc, htb, hta]; exact hs)
  refine ⟨d, ?_, ?_, ?_, ?_⟩
  · simp only [schedule, finRange_four, List.foldlM_cons, List.foldlM_nil, ha, hb, hc, hd,
      Option.bind_eq_bind, Option.some_bind, Option.pure_def]
  · rw [htd, htc, htb, hta]
  · rw [hld, hlc, hlb, hla]
  · rw [hfd, hfc, hfb, hfa]

theorem ticks_keeps (call : F → Sys F E → Option (Sys F E)) (i : Fin MAX_TASK)
    (hk : Keeps call i) (k : Nat) (s : Sys F E) (hs : (s.tabTask i).status ≠ PRET) :
    ∃ s1, ticks call k s = some s1 ∧ s1.tabTask i = s.tabTask i ∧
      s1.tabLastStatusTask i = s.tabLastStatusTask i ∧ s1.fired.count i = s.fired.count i := by
  induction k generalizing s with
  | zero => exact ⟨s, rfl, rfl, rfl, rfl⟩
  | succ k ih =>
    obtain ⟨a, ha, hta, hla, hfa⟩ := schedule_keeps call i hk s hs
    obtain ⟨b, hb, htb, hlb, hfb⟩ := ih a (by rw [hta]; exact hs)
    exact ⟨b, by simp [ticks, ha, hb], by rw [htb, hta], by rw [hlb, hla], by rw [hfb, hfa]⟩

/-- Claim C4. For a valid id, whatever the status of the task, and for every `k`:
`t_suspend(id)`, then `k` ticks during which no action touches that task, then
`t_resume(id)` all return, and leave the task's `status`, `currentTime` and `startTime`
(indeed the whole record) equal to their values before the suspend; after each of the
ticks the task's action has not been invoked and its `currentTime` has not advanced. -/
theorem C4_suspend_ticks_resume (call : F → Sys F E → Option (Sys F E)) (i : Fin MAX_TASK)
    (hk : Keeps call i) (k : Nat) (s : Sys F E) :
    ∃ s1, t_suspend (i.val : Int) s = some s1 ∧ s1.fired = s.fired ∧
      (∀ j, j ≤ k → ∃ sj, ticks call j s1 = some sj ∧
        sj.fired.count i = s.fired.count i ∧
        (sj.tabTask i).currentTime = (s.tabTask i).currentTime) ∧
      ∃ s2, ticks call k s1 = some s2 ∧
        ∃ s3, t_resume (i.val : Int) s2 = some s3 ∧
          (s3.tabTask i).status = (s.tabTask i).status ∧
          (s3.tabTask i).currentTime = (s.tabTask i).currentTime ∧
          (s3.tabTask i).startTime = (s.tabTask i).startTime ∧
          s3.tabTask i = s.tabTask i ∧
          s3.fired.count i = s.fired.count i := by
  have h1 : t_suspend (i.val : Int) s =
      some ((s.setLast i { s.tabLastStatusTask i with status := (s.tabTask i).status }).setTask
        i { s.tabTask i with status := SUSP }) := by
    simp [t_suspend, val_ne_neg_one, slot_val, Sys.setTask, Sys.setLast]
  refine ⟨_, h1, by simp [Sys.setTask, Sys.setLast], ?_, ?_⟩
  · intro j _
    obtain ⟨sj, hj, htj, -, hfj⟩ := ticks_keeps call i hk j
      ((s.setLast i { s.tabLastStatusTask i with status := (s.tabTask i).status }).setTask
        i { s.tabTask i with status := SUSP }) (by simp [Sys.setTask])
    refine ⟨sj, hj, ?_, ?_⟩
    · rw [hfj]; simp [Sys.setTask, Sys.setLast]
    · rw [htj]; simp [Sys.setTask]
  · obtain ⟨s2, h2, ht2, hl2, hf2⟩ := ticks_keeps call i hk k
      ((s.setLast i { s.tabLastStatusTask i with status := (s.tabTask i).status }).setTask
        i { s.tabTask i with status := SUSP }) (by simp [Sys.setTask])
    refine ⟨s2, h2,
      s2.setTask i { s2.tabTask i with status := (s2.tabLastStatusTask i).status },
      ?_, ?_, ?_, ?_, ?_, ?_⟩
    · simp [t_resume, val_ne_neg_one, slot_val]
    all_goals simp [Sys.setTask, Sys.setLast, ht2, hl2, hf2]

theorem demoCall_keeps (i : Fin MAX_TASK) : Keeps demoCall i :=
  fun _ _ => ⟨_, rfl, rfl, rfl, rfl⟩

/-- Instance of C4: the ready recurring task of slot 0 of `demoSys`, three ticks. -/
theorem C4_suspend_ticks_resume_witness :
    Keeps demoCall 0 ∧
    ∃ s1, t_suspend (((0 : Fin MAX_TASK).val : Nat) : Int) demoSys = some s1 ∧
      s1.fired = demoSys.fired ∧
      (∀ j, j ≤ 3 → ∃ sj, ticks demoCall j s1 = some sj ∧
        sj.fired.count 0 = demoSys.fired.count 0 ∧
        (sj.tabTask 0).currentTime = (demoSys.tabTask 0).currentTime) ∧
      ∃ s2, ticks demoCall 3 s1 = some s2 ∧
        ∃ s3, t_resume (((0 : Fin MAX_TASK).val : Nat) : Int) s2 = some s3 ∧
          (s3.tabTask 0).status = (demoSys.tabTask 0).status ∧
          (s3.tabTask 0).currentTime = (demoSys.tabTask 0).currentTime ∧
          (s3.tabTask 0).startTime = (demoSys.tabTask 0).startTime ∧
          s3.tabTask 0 = demoSys.tabTask 0 ∧
          s3.fired.count 0 = demoSys.fired.count 0 :=
  ⟨demoCall_keeps 0, C4_suspend_ticks_resume demoCall 0 (demoCall_keeps 0) 3 demoSys⟩

theorem t_creer_filled (f : F) (n : Nat) (b : Bool) (j : Nat) (s : Sys F E)
    (hj : j < MAX_TASK)
    (hs : ∀ i : Fin MAX_TASK, (i.val < j → (s.tabTask i).status ≠ N_CREE) ∧
      (j ≤ i.val → (s.tabTask i).status = N_CREE)) :
    (t_creer f n b s).1 = (j : Int) ∧
    ∀ i : Fin MAX_TASK, (i.val < j + 1 → ((t_creer f n b s).2.tabTask i).status ≠ N_CREE) ∧
      (j + 1 ≤ i.val → ((t_creer f n b s).2.tabTask i).status = N_CREE) := by
  rcases t_creer_spec f n b s with ⟨hfull, -⟩ | ⟨i, hi, hlow, h⟩
  · exact absurd ((hs ⟨j, hj⟩).2 (le_refl _)) (hfull _)
  · have hij : i.val = j := by
      have h1 : j ≤ i.val := by
        by_contra hc
        exact (hs i).1 (by omega) hi
      have h2 : ¬ j < i.val := by
        intro hc
        exact hlow ⟨j, hj⟩ (by simpa [Fin.lt_def] using hc) ((hs ⟨j, hj⟩).2 (le_refl _))
      omega
    rw [h]
    refine ⟨by simp [hij], fun k => ?_⟩
    by_cases hk : k = i
    · subst hk
      simp [Sys.setTask, hij]
    · have hne : k.val ≠ j := fun hc => hk (Fin.ext (hc.trans hij.symm))
      simp only [Sys.setTask, Function.update_noteq hk]
      exact ⟨fun hlt => (hs k).1 (by omega), fun hle => (hs k).2 (by omega)⟩

theorem applyOp_live (call : F → Sys F E → Option (Sys F E)) (hp : ∀ g, Passive call g)
    (o : Op) (s : Sys F E) (hs : ∀ i, (s.tabTask i).status ≠ N_CREE) :
    ∃ s1, applyOp call o s = some s1 ∧ ∀ i, (s1.tabTask i).status ≠ N_CREE := by
  cases o with
  | start j =>
    obtain ⟨s1, h1, ht, -, -⟩ := t_start_passive call s j (hp _)
    refine ⟨s1, h1, fun i => ?_⟩
    rw [ht]
    by_cases h : i = j
    · subst h; simp
    · simp [Function.update_noteq h, hs i]
  | stop j =>
    refine ⟨s.setTask j { s.tabTask j with status := CREE, currentTime := 0 }, ?_, fun i => ?_⟩
    · simp [applyOp, t_stop, val_ne_neg_one, slot_val]
    · by_cases h : i = j
      · subst h; simp [Sys.setTask]
      · simp [Sys.setTask, Function.update_noteq h, hs i]
  | suspend j =>
    refine ⟨(s.setLast j { s.tabLastStatusTask j with status := (s.tabTask j).status }).setTask
        j { s.tabTask j with status := SUSP }, ?_, fun i => ?_⟩
    · simp [applyOp, t_suspend, val_ne_neg_one, slot_val, Sys.setTask, Sys.setLast]
    · by_cases h : i = j
      · subst h; simp [Sys.setTask]
      · simp [Sys.setTask, Sys.setLast, Function.update_noteq h, hs i]

theorem applyOps_live (call : F → Sys F E → Option (Sys F E)) (hp : ∀ g, Passive call g)
    (ops : List Op) (s : Sys F E) (hs : ∀ i, (s.tabTask i).status ≠ N_CREE) :
    ∃ s1, applyOps call ops s = some s1 ∧ ∀ i, (s1.tabTask i).status ≠ N_CREE := by
  induction ops generalizing s with
  | nil => exact ⟨s, rfl, hs⟩
  | cons o os ih =>
    obtain ⟨a, ha, hsa⟩ := applyOp_live call hp o s hs
    obtain ⟨b, hb, hsb⟩ := ih a hsa
    exact ⟨b, by simp [applyOps, ha, hb], hsb⟩

/-- Claim C5. The call `t_creer` returns -1 with the state unchanged exactly when no slot of
the 4-slot table is `N_CREE`; otherwise it returns the lowest `N_CREE` index, and afterwards
that slot is `CREE` with `currentTime = 0`, the given interval, action and recurring flag,
every other slot and the saved-status table being unchanged. From the empty table four
successive creates return 0, 1, 2, 3, and after any sequence of `t_start`, `t_stop`,
`t_suspend` calls on these four tasks (their actions being passive) a fifth create returns
-1 and changes nothing. -/
theorem C5_t_creer (call : F → Sys F E → Option (Sys F E)) (hp : ∀ g, Passive call g)
    (f : F) (n : Nat) (b : Bool) (s : Sys F E)
    (null : F) (env : E) (f1 f2 f3 f4 f5 : F) (n1 n2 n3 n4 n5 : Nat)
    (b1 b2 b3 b4 b5 : Bool) (ops : List Op) :
    (((t_creer f n b s).1 = -1 ∧ (t_creer f n b s).2 = s) ↔
      ∀ i, (s.tabTask i).status ≠ N_CREE) ∧
    (∀ i : Fin MAX_TASK, (s.tabTask i).status = N_CREE →
      (∀ j, j < i → (s.tabTask j).status ≠ N_CREE) →
      (t_creer f n b s).1 = (i.val : Int) ∧
      (t_creer f n b s).2.tabTask i =
        { fonc := f, status := CREE, currentTime := 0, startTime := n, timerTask := b } ∧
      (∀ j, j ≠ i → (t_creer f n b s).2.tabTask j = s.tabTask j) ∧
      (t_creer f n b s).2.tabLastStatusTask = s.tabLastStatusTask) ∧
    (t_creer f1 n1 b1 (Sys.init null env)).1 = 0 ∧
    (t_creer f2 n2 b2 (t_creer f1 n1 b1 (Sys.init null env)).2).1 = 1 ∧
    (t_creer f3 n3 b3 (t_creer f2 n2 b2 (t_creer f1 n1 b1 (Sys.init null env)).2).2).1 = 2 ∧
    (t_creer f4 n4 b4 (t_creer f3 n3 b3 (t_creer f2 n2 b2
      (t_creer f1 n1 b1 (Sys.init null env)).2).2).2).1 = 3 ∧
    ∃ s5, applyOps call ops (t_creer f4 n4 b4 (t_creer f3 n3 b3 (t_creer f2 n2 b2
        (t_creer f1 n1 b1 (Sys.init null env)).2).2).2).2 = some s5 ∧
      t_creer f5 n5 b5 s5 = (-1, s5) := by
  refine ⟨?_, ?_, ?_⟩
  · rcases t_creer_spec f n b s with ⟨hfull, h⟩ | ⟨i, hi, -, h⟩
    · rw [h]; exact ⟨fun _ => hfull, fun _ => ⟨rfl, rfl⟩⟩
    · rw [h]
      refine ⟨fun hh => absurd hh.1 (val_ne_neg_one i), fun hh => absurd hi (hh i)⟩
  · intro i hi hlow
    rcases t_creer_spec f n b s with ⟨hfull, -⟩ | ⟨j, hj, hjlow, h⟩
    · exact absurd hi (hfull i)
    · have hji : j = i := by
        rcases lt_trichotomy j i with hlt | heq | hgt
        · exact absurd hj (hlow j hlt)
        · exact heq
        · exact absurd hi (hjlow i hgt)
      subst hji
      rw [h]
      refine ⟨rfl, by simp [Sys.setTask], fun k hk => ?_, rfl⟩
      simp [Sys.setTask, Function.update_noteq hk]
  · have h0 : ∀ i : Fin MAX_TASK, (i.val < 0 → ((Sys.init null env).tabTask i).status ≠ N_CREE) ∧
        (0 ≤ i.val → ((Sys.init null env).tabTask i).status = N_CREE) :=
      fun i => ⟨fun h => absurd h (Nat.not_lt_zero _), fun _ => rfl⟩
    obtain ⟨e1, h1⟩ := t_creer_filled f1 n1 b1 0 (Sys.init null env) (by decide) h0
    obtain ⟨e2, h2⟩ := t_creer_filled f2 n2 b2 1 _ (by decide) h1
    obtain ⟨e3, h3⟩ := t_creer_filled f3 n3 b3 2 _ (by decide) h2
    obtain ⟨e4, h4⟩ := t_creer_filled f4 n4 b4 3 _ (by decide) h3
    refine ⟨e1, e2, e3, e4, ?_⟩
    obtain ⟨s5, h5, hs5⟩ := applyOps_live call hp ops _ (fun i => (h4 i).1 i.isLt)
    refine ⟨s5, h5, ?_⟩
    rcases t_creer_spec f5 n5 b5 s5 with ⟨-, h⟩ | ⟨i, hi, -, -⟩
    · exact h
    · exact absurd hi (hs5 i)

/-- Instance of C5 with the passive program: a full table, then five creates from the
empty table with a start, a suspend and a stop before the fifth. -/
theorem C5_t_creer_witness :
    (((t_creer () 7 true demoSys).1 = -1 ∧ (t_creer () 7 true demoSys).2 = demoSys) ↔
      ∀ i, (demoSys.tabTask i).status ≠ N_CREE) ∧
    (∀ i : Fin MAX_TASK, (demoSys.tabTask i).status = N_CREE →
      (∀ j, j < i → (demoSys.tabTask j).status ≠ N_CREE) →
      (t_creer () 7 true demoSys).1 = (i.val : Int) ∧
      (t_creer () 7 true demoSys).2.tabTask i =
        { fonc := (), status := CREE, currentTime := 0, startTime := 7, timerTask := true } ∧
      (∀ j, j ≠ i → (t_creer () 7 true demoSys).2.tabTask j = demoSys.tabTask j) ∧
      (t_creer () 7 true demoSys).2.tabLastStatusTask = demoSys.tabLastStatusTask) ∧
    (t_creer () 1 true (Sys.init () (0 : Nat))).1 = 0 ∧
    (t_creer () 2 false (t_creer () 1 true (Sys.init () (0 : Nat))).2).1 = 1 ∧
    (t_creer () 3 true (t_creer () 2 false (t_creer () 1 true (Sys.init () (0 : Nat))).2).2).1
      = 2 ∧
    (t_creer () 4 false (t_creer () 3 true (t_creer () 2 false
      (t_creer () 1 true (Sys.init () (0 : Nat))).2).2).2).1 = 3 ∧
    ∃ s5, applyOps demoCall [Op.start 0, Op.suspend 1, Op.stop 0]
        (t_creer () 4 false (t_creer () 3 true (t_creer () 2 false
        (t_creer () 1 true (Sys.init () (0 : Nat))).2).2).2).2 = some s5 ∧
      t_creer () 5 true s5 = (-1, s5) :=
  C5_t_creer demoCall demoCall_passive () 7 true demoSys () 0 () () () () () 1 2 3 4 5
    true false true false true [Op.start 0, Op.suspend 1, Op.stop 0]

/-- Claim C6. A one-shot task with interval `n` (`1 ≤ n < 2^32`), among passive actions:
`t_start` does not invoke its action; after `t_start` and `n` ticks the action has been
invoked exactly once and the task is `CREE`; after any `m` further ticks (no `t_start`) the
number of invocations is still one and the task is still `CREE`. -/
theorem C6_one_shot (call : F → Sys F E → Option (Sys F E)) (hp : ∀ g, Passive call g)
    (s : Sys F E) (i : Fin MAX_TASK) (n : Nat) (hn : 1 ≤ n) (hu : n < UINT)
    (hone : (s.tabTask i).timerTask = false) (hint : (s.tabTask i).startTime = n) (m : Nat) :
    ∃ s1, t_start call (i.val : Int) s = some s1 ∧ s1.fired.count i = s.fired.count i ∧
      ∃ s2, ticks call n s1 = some s2 ∧ s2.fired.count i = s.fired.count i + 1 ∧
        (s2.tabTask i).status = CREE ∧
        ∃ s3, ticks call m s2 = some s3 ∧ s3.fired.count i = s.fired.count i + 1 ∧
          (s3.tabTask i).status = CREE := by
  obtain ⟨s1, h1, ht1, -, hf1⟩ := t_start_passive call s i (hp _)
  have hi : s1.tabTask i = { s.tabTask i with status := PRET, currentTime := 0 } := by
    simp [ht1]
  have hc1 : s1.fired.count i = s.fired.count i := by simp [hf1, hone]
  obtain ⟨-, e2, -, e4⟩ := afterTick_iter_fire (s1.tabTask i) n (by rw [hi]) (by rw [hi])
    (by rw [hi]; exact hint) hn hu
  obtain ⟨s2, h2, ht2, -, hf2⟩ := ticks_passive call hp n s1
  have hi2 : (s2.tabTask i).status = CREE := by
    rw [ht2]
    simp only [e4]
    simp [hi, hone]
  have hc2 : s2.fired.count i = s.fired.count i + 1 := by rw [hf2 i, e2, hc1]
  obtain ⟨s3, h3, ht3, -, hf3⟩ := ticks_passive call hp m s2
  obtain ⟨e5, e6⟩ := afterTick_iter_idle m (s2.tabTask i) (by rw [hi2]; decide)
  refine ⟨s1, h1, hc1, s2, h2, hc2, hi2, s3, h3, ?_, ?_⟩
  · rw [hf3 i, e6, hc2]
  · rw [ht3]
    simp only [e5]
    exact hi2

/-- Instance of C6: the one-shot task of slot 1 of `demoSys` (interval 3), and 10 further
ticks. -/
theorem C6_one_shot_witness :
    ∃ s1, t_start demoCall (((1 : Fin MAX_TASK).val : Nat) : Int) demoSys = some s1 ∧
      s1.fired.count 1 = demoSys.fired.count 1 ∧
      ∃ s2, ticks demoCall 3 s1 = some s2 ∧ s2.fired.count 1 = demoSys.fired.count 1 + 1 ∧
        (s2.tabTask 1).status = CREE ∧
        ∃ s3, ticks demoCall 10 s2 = some s3 ∧ s3.fired.count 1 = demoSys.fired.count 1 + 1 ∧
          (s3.tabTask 1).status = CREE :=
  C6_one_shot demoCall demoCall_passive demoSys 1 3 (by decide) (by decide) (by decide)
    (by decide) 10

theorem scheduleTask_idle (call : F → Sys F E → Option (Sys F E)) (i : Fin MAX_TASK)
    (s : Sys F E) (h : (s.tabTask i).status ≠ PRET) : scheduleTask call i s = some s := by
  simp [scheduleTask, h]

theorem scheduleTask_counting (call : F → Sys F E → Option (Sys F E)) (i : Fin MAX_TASK)
    (s : Sys F E) (hr : (s.tabTask i).status = PRET)
    (hd : ((s.tabTask i).currentTime + 1) % UINT ≠ (s.tabTask i).startTime) :
    scheduleTask call i s =
      some (s.setTask i
        { s.tabTask i with currentTime := ((s.tabTask i).currentTime + 1) % UINT }) := by
  simp [scheduleTask, hr, hd, Sys.setTask]

theorem scheduleTask_due (call : F → Sys F E → Option (Sys F E)) (i : Fin MAX_TASK)
    (s s1 : Sys F E) (hr : (s.tabTask i).status = PRET)
    (hd : ((s.tabTask i).currentTime + 1) % UINT = (s.tabTask i).startTime)
    (hc : call (s.tabTask i).fonc (s.entered i) = some s1) :
    scheduleTask call i s = some (s1.rearmed i) := by
  have hc1 : call (s.tabTask i).fonc
      { tabTask := Function.update s.tabTask i
          { fonc := (s.tabTask i).fonc, status := EXEC,
            currentTime := (s.tabTask i).startTime,
            startTime := (s.tabTask i).startTime, timerTask := (s.tabTask i).timerTask },
        tabLastStatusTask := s.tabLastStatusTask, fired := s.fired ++ [i], env := s.env } =
      some s1 := by
    rw [← hc]
    simp [Sys.entered, Sys.setTask, hd]
  simp only [scheduleTask, hr, hd, callFonc, Sys.setTask, Function.update_same, if_true,
    Function.update_idem, hc1, Option.bind_eq_bind, Option.some_bind, Sys.rearmed]
  split_ifs <;> rfl

theorem t_start_timer (call : F → Sys F E → Option (Sys F E)) (i : Fin MAX_TASK)
    (s : Sys F E) (hb : (s.tabTask i).timerTask = true) :
    t_start call (i.val : Int) s = call (s.tabTask i).fonc (s.started i) := by
  simp [t_start, val_ne_neg_one, slot_val, hb, callFonc, Sys.started, Sys.setTask]

theorem t_start_one_shot (call : F → Sys F E → Option (Sys F E)) (i : Fin MAX_TASK)
    (s : Sys F E) (hb : (s.tabTask i).timerTask = false) :
    t_start call (i.val : Int) s =
      some (s.setTask i { s.tabTask i with status := PRET, currentTime := 0 }) := by
  simp [t_start, val_ne_neg_one, slot_val, hb, Sys.setTask]

@[simp] theorem started_tabTask (s : Sys F E) (i : Fin MAX_TASK) :
    (s.started i).tabTask =
      Function.update s.tabTask i { s.tabTask i with status := PRET, currentTime := 0 } := rfl

@[simp] theorem started_last (s : Sys F E) (i : Fin MAX_TASK) :
    (s.started i).tabLastStatusTask = s.tabLastStatusTask := rfl

@[simp] theorem started_fired (s : Sys F E) (i : Fin MAX_TASK) :
    (s.started i).fired = s.fired ++ [i] := rfl

@[simp] theorem started_env (s : Sys F E) (i : Fin MAX_TASK) : (s.started i).env = s.env := rfl

@[simp] theorem entered_tabTask (s : Sys F E) (i : Fin MAX_TASK) :
    (s.entered i).tabTask =
      Function.update s.tabTask i
        { s.tabTask i with
          currentTime := ((s.tabTask i).currentTime + 1) % UINT, status := EXEC } := rfl

@[simp] theorem entered_last (s : Sys F E) (i : Fin MAX_TASK) :
    (s.entered i).tabLastStatusTask = s.tabLastStatusTask := rfl

@[simp] theorem entered_fired (s : Sys F E) (i : Fin MAX_TASK) :
    (s.entered i).fired = s.fired ++ [i] := rfl

@[simp] theorem entered_env (s : Sys F E) (i : Fin MAX_TASK) : (s.entered i).env = s.env := rfl

/-! ## Lemmas on the cycle controller -/

theorem slot_zero : slot 0 = some 0 := rfl

theorem slot_one : slot 1 = some 1 := rfl

theorem slot_two : slot 2 = some 2 := rfl

@[simp] theorem upd_tabTask (s : Sys F E) (f : E → E) : (s.upd f).tabTask = s.tabTask := rfl

@[simp] theorem upd_last (s : Sys F E) (f : E → E) :
    (s.upd f).tabLastStatusTask = s.tabLastStatusTask := rfl

@[simp] theorem upd_fired (s : Sys F E) (f : E → E) : (s.upd f).fired = s.fired := rfl

@[simp] theorem upd_env (s : Sys F E) (f : E → E) : (s.upd f).env = f s.env := rfl

@[simp] theorem setTask_tabTask (s : Sys F E) (i : Fin MAX_TASK) (t : Task F) :
    (s.setTask i t).tabTask = Function.update s.tabTask i t := rfl

@[simp] theorem setTask_last (s : Sys F E) (i : Fin MAX_TASK) (t : Task F) :
    (s.setTask i t).tabLastStatusTask = s.tabLastStatusTask := rfl

@[simp] theorem setTask_fired (s : Sys F E) (i : Fin MAX_TASK) (t : Task F) :
    (s.setTask i t).fired = s.fired := rfl

@[simp] theorem setTask_env (s : Sys F E) (i : Fin MAX_TASK) (t : Task F) :
    (s.setTask i t).env = s.env := rfl

@[simp] theorem setLast_tabTask (s : Sys F E) (i : Fin MAX_TASK) (t : Task F) :
    (s.setLast i t).tabTask = s.tabTask := rfl

@[simp] theorem setLast_last (s : Sys F E) (i : Fin MAX_TASK) (t : Task F) :
    (s.setLast i t).tabLastStatusTask = Function.update s.tabLastStatusTask i t := rfl

@[simp] theorem setLast_fired (s : Sys F E) (i : Fin MAX_TASK) (t : Task F) :
    (s.setLast i t).fired = s.fired := rfl

@[simp] theorem setLast_env (s : Sys F E) (i : Fin MAX_TASK) (t : Task F) :
    (s.setLast i t).env = s.env := rfl

theorem ne_01 : (0 : Fin MAX_TASK) ≠ 1 := by decide
theorem ne_02 : (0 : Fin MAX_TASK) ≠ 2 := by decide
theorem ne_03 : (0 : Fin MAX_TASK) ≠ 3 := by decide
theorem ne_10 : (1 : Fin MAX_TASK) ≠ 0 := by decide
theorem ne_12 : (1 : Fin MAX_TASK) ≠ 2 := by decide
theorem ne_13 : (1 : Fin MAX_TASK) ≠ 3 := by decide
theorem ne_20 : (2 : Fin MAX_TASK) ≠ 0 := by decide
theorem ne_21 : (2 : Fin MAX_TASK) ≠ 1 := by decide
theorem ne_23 : (2 : Fin MAX_TASK) ≠ 3 := by decide
theorem ne_30 : (3 : Fin MAX_TASK) ≠ 0 := by decide
theorem ne_31 : (3 : Fin MAX_TASK) ≠ 1 := by decide
theorem ne_32 : (3 : Fin MAX_TASK) ≠ 2 := by decide

theorem endCycle_spec (s : St) (h0 : s.env.idRobotTask = 0) (h1 : s.env.idEndRobotTask = 1) :
    ∃ s1, endCycle s = some s1 ∧ Frame s s1 ∧ s1.fired = s.fired ∧
      (s1.tabTask 0).status = CREE ∧ (s1.tabTask 0).currentTime = 0 ∧
      (s1.tabTask 0).startTime = (s.tabTask 0).startTime ∧
      (s1.tabTask 1).status = CREE ∧ (s1.tabTask 1).currentTime = 0 ∧
      s1.env.currentCycle = 0 ∧ s1.env.pinForward = true ∧ s1.env.pinReturn = true ∧
      s1.env.activeScheduledTask = false ∧
      s1.env.direction = s.env.direction ∧ s1.env.randomValue = s.env.randomValue ∧
      s1.env.currentRandomValue = s.env.currentRandomValue := by
  simp only [endCycle, t_stop, h0, h1, slot_zero, slot_one, powerOff, publish,
    Option.bind_eq_bind, Option.some_bind, Option.pure_def, setTask_env, upd_env,
    show ((0 : Int) = -1) = False from by simp, show ((1 : Int) = -1) = False from by simp,
    if_false]
  refine ⟨_, rfl, ?_⟩
  refine ⟨⟨?_, ?_, ?_, ?_, ?_, ?_, ?_, ?_, ?_, ?_, ?_, ?_, ?_, ?_, ?_, ?_, ?_, ?_, ?_, ?_⟩, ?_⟩
  all_goals
    simp [Function.update_noteq, ne_01, ne_10, ne_20, ne_21, ne_30, ne_31]
  · intro i
    rcases fin_four i with h | h | h | h <;> subst h <;>
      simp [Function.update_noteq, ne_01, ne_10, ne_20, ne_21, ne_30, ne_31]
  · intro i
    rcases fin_four i with h | h | h | h <;> subst h <;>
      simp [Function.update_noteq, ne_01, ne_10, ne_20, ne_21, ne_30, ne_31]

theorem robotTask_eq (s : St) :
    robotTask s = (robotTaskLeg (powerOff s)).bind robotTaskCount := by
  unfold robotTask robotTaskLeg robotTaskCount
  cases hd : (powerOff s).env.direction <;>
    simp only [hd, Bool.not_false, Bool.not_true, Bool.false_eq_true, if_true, if_false,
      Option.bind_eq_bind, Option.pure_def, Option.bind_assoc]

theorem Frame.refl (s : St) : Frame s s :=
  ⟨rfl, rfl, rfl, rfl, rfl, rfl, rfl, rfl, rfl, rfl, rfl, rfl, rfl, rfl, fun _ => rfl,
    fun _ => rfl, rfl, rfl, rfl, rfl⟩

theorem Frame.trans {s a b : St} (h1 : Frame s a) (h2 : Frame a b) : Frame s b :=
  ⟨h2.idRobot.trans h1.idRobot, h2.idEnd.trans h1.idEnd, h2.idSched.trans h1.idSched,
    h2.scheduleEnabled.trans h1.scheduleEnabled, h2.scheduleH.trans h1.scheduleH,
    h2.scheduleM.trans h1.scheduleM, h2.minRandom.trans h1.minRandom,
    h2.maxRandom.trans h1.maxRandom, h2.nbCycles.trans h1.nbCycles,
    h2.activeTime.trans h1.activeTime, h2.logStatus.trans h1.logStatus,
    h2.hours.trans h1.hours, h2.minutes.trans h1.minutes, h2.b.trans h1.b,
    fun i => (h2.fonc i).trans (h1.fonc i), fun i => (h2.timerTask i).trans (h1.timerTask i),
    h2.start1.trans h1.start1, h2.task2.trans h1.task2, h2.task3.trans h1.task3,
    h2.last.trans h1.last⟩

theorem Inv.frame {s s1 : St} (h : Inv s) (hf : Frame s s1) : Inv s1 :=
  ⟨hf.idRobot.trans h.idRobot, hf.idEnd.trans h.idEnd, hf.idSched.trans h.idSched,
    (hf.fonc 0).trans h.fonc0, (hf.timerTask 0).trans h.timer0,
    (hf.fonc 1).trans h.fonc1, (hf.timerTask 1).trans h.timer1,
    by rw [hf.start1, hf.activeTime]; exact h.start1,
    (hf.fonc 2).trans h.fonc2, (hf.timerTask 2).trans h.timer2,
    by rw [hf.task3]; exact h.free3⟩

theorem robotTaskLeg_spec (s : St) (h0 : s.env.idRobotTask = 0) :
    ∃ s1, robotTaskLeg s = some s1 ∧ Frame s s1 ∧ s1.fired = s.fired ∧
      (s1.tabTask 0).status = (s.tabTask 0).status ∧
      (s1.tabTask 0).currentTime = (s.tabTask 0).currentTime ∧
      s1.tabTask 1 = s.tabTask 1 ∧
      s1.env.currentCycle = s.env.currentCycle ∧ s1.env.direction = s.env.direction ∧
      s1.env.activeScheduledTask = s.env.activeScheduledTask ∧
      (s1.tabTask 0).startTime = s1.env.currentRandomValue ∧
      (s.env.direction = true → s1.env.randomValue = s.env.randomValue ∧
        s1.env.currentRandomValue =
          (if s.env.randomValue > 30 then s.env.randomValue - 20
           else s.env.currentRandomValue) ∧
        s1.env.pinForward = true ∧ s1.env.pinReturn = false) ∧
      (s.env.direction = false →
        s1.env.currentRandomValue =
          toUnsigned (random s.env.minRandom s.env.maxRandom s).1 ∧
        s1.env.randomValue = s1.env.currentRandomValue ∧
        s1.env.pinForward = false ∧ s1.env.pinReturn = true) := by
  cases hd : s.env.direction
  · simp only [robotTaskLeg, setInterval, random, robotForward, h0, hd, slot_zero,
      Option.bind_eq_bind, Option.some_bind, Option.pure_def, setTask_env, upd_env,
      if_true, Bool.not_false, upd_tabTask, setTask_tabTask]
    refine ⟨_, rfl, ?_⟩
    refine ⟨⟨?_, ?_, ?_, ?_, ?_, ?_, ?_, ?_, ?_, ?_, ?_, ?_, ?_, ?_, ?_, ?_, ?_, ?_, ?_, ?_⟩,
      ?_, ?_, ?_, ?_, ?_, ?_, ?_, ?_, ?_, ?_⟩
    all_goals
      first
      | (intro i
         rcases fin_four i with h | h | h | h <;> subst h <;>
          simp [Function.update_noteq, ne_10, ne_20, ne_30])
      | simp [Function.update_noteq, ne_10, ne_20, ne_30, hd, random]
  · by_cases hr : s.env.randomValue > 30 <;>
      simp only [robotTaskLeg, setInterval, robotReturn, h0, hd, hr, slot_zero,
        Option.bind_eq_bind, Option.some_bind, Option.pure_def, setTask_env, upd_env,
        if_true, if_false, Bool.not_true, Bool.false_eq_true, upd_tabTask,
        setTask_tabTask] <;>
      refine ⟨_, rfl, ?_⟩ <;>
      refine ⟨⟨?_, ?_, ?_, ?_, ?_, ?_, ?_, ?_, ?_, ?_, ?_, ?_, ?_, ?_, ?_, ?_, ?_, ?_, ?_, ?_⟩,
        ?_, ?_, ?_, ?_, ?_, ?_, ?_, ?_, ?_, ?_⟩
    all_goals
      first
      | (intro i
         rcases fin_four i with h | h | h | h <;> subst h <;>
          simp [Function.update_noteq, ne_10, ne_20, ne_30])
      | simp [Function.update_noteq, ne_10, ne_20, ne_30, hd, hr]

theorem robotTaskCount_spec (s : St) (h0 : s.env.idRobotTask = 0)
    (h1 : s.env.idEndRobotTask = 1) :
    ∃ s1, robotTaskCount s = some s1 ∧ Frame s s1 ∧ s1.fired = s.fired ∧
      s1.env.direction = (!s.env.direction) ∧
      (s1.tabTask 0).startTime = (s.tabTask 0).startTime ∧
      s1.env.currentRandomValue = s.env.currentRandomValue ∧
      s1.env.randomValue = s.env.randomValue ∧
      (s.env.nbCycles ≤ s.env.currentCycle + 1 →
        (s1.tabTask 0).status = CREE ∧ (s1.tabTask 0).currentTime = 0 ∧
        (s1.tabTask 1).status = CREE ∧ (s1.tabTask 1).currentTime = 0 ∧
        s1.env.currentCycle = 0 ∧ s1.env.pinForward = true ∧ s1.env.pinReturn = true ∧
        s1.env.activeScheduledTask = false) ∧
      (s.env.currentCycle + 1 < s.env.nbCycles →
        (s1.tabTask 0).status = (s.tabTask 0).status ∧
        (s1.tabTask 0).currentTime = (s.tabTask 0).currentTime ∧
        s1.tabTask 1 = s.tabTask 1 ∧ s1.env.currentCycle = s.env.currentCycle + 1 ∧
        s1.env.activeScheduledTask = s.env.activeScheduledTask ∧
        s1.env.pinForward = s.env.pinForward ∧ s1.env.pinReturn = s.env.pinReturn) := by
  by_cases he : s.env.nbCycles ≤ s.env.currentCycle + 1
  · obtain ⟨s1, e, hf, hfi, a1, a2, a3, a4, a5, a6, a7, a8, a9, a10, a11, a12⟩ := endCycle_spec
      (((publish Topic.TOPIC_CYCLE_TIME s.env.randomBuffer s).upd fun g =>
        { g with direction := !g.direction }).upd fun g =>
        { g with currentCycle := g.currentCycle + 1 })
      (by simpa [publish] using h0) (by simpa [publish] using h1)
    have hc : (((publish Topic.TOPIC_CYCLE_TIME s.env.randomBuffer s).upd fun g =>
        { g with direction := !g.direction }).upd fun g =>
        { g with currentCycle := g.currentCycle + 1 }).env.currentCycle ≥
        (((publish Topic.TOPIC_CYCLE_TIME s.env.randomBuffer s).upd fun g =>
        { g with direction := !g.direction }).upd fun g =>
        { g with currentCycle := g.currentCycle + 1 }).env.nbCycles := by
      simpa [publish] using he
    refine ⟨writeLogs "End count cycle".toList s1, ?_, ?_⟩
    · simp only [robotTaskCount, Option.bind_eq_bind, Option.pure_def]
      rw [if_pos hc, e]
      rfl
    · have hfr : Frame s s1 := by
        refine Frame.trans ?_ hf
        refine ⟨?_, ?_, ?_, ?_, ?_, ?_, ?_, ?_, ?_, ?_, ?_, ?_, ?_, ?_, ?_, ?_, ?_, ?_, ?_, ?_⟩
        all_goals first
          | (intro i; simp [publish])
          | simp [publish]
      have hw : Frame s1 (writeLogs "End count cycle".toList s1) := by
        refine ⟨?_, ?_, ?_, ?_, ?_, ?_, ?_, ?_, ?_, ?_, ?_, ?_, ?_, ?_, ?_, ?_, ?_, ?_, ?_, ?_⟩
        all_goals first
          | (intro i; simp [writeLogs])
          | simp [writeLogs]
      refine ⟨hfr.trans hw, ?_, ?_, ?_, ?_, ?_, ?_, ?_⟩
      · simpa [writeLogs, publish] using hfi
      · simpa [writeLogs, publish] using a10
      · simpa [writeLogs, publish] using a3
      · simpa [writeLogs, publish] using a12
      · simpa [writeLogs, publish] using a11
      · intro _
        simp only [writeLogs, upd_tabTask, upd_env]
        exact ⟨a1, a2, a4, a5, a6, a7, a8, a9⟩
      · intro hlt
        omega
  · have hc : ¬ (((publish Topic.TOPIC_CYCLE_TIME s.env.randomBuffer s).upd fun g =>
        { g with direction := !g.direction }).upd fun g =>
        { g with currentCycle := g.currentCycle + 1 }).env.currentCycle ≥
        (((publish Topic.TOPIC_CYCLE_TIME s.env.randomBuffer s).upd fun g =>
        { g with direction := !g.direction }).upd fun g =>
        { g with currentCycle := g.currentCycle + 1 }).env.nbCycles := by
      simpa [publish] using he
    refine ⟨((publish Topic.TOPIC_CYCLE_TIME s.env.randomBuffer s).upd fun g =>
        { g with direction := !g.direction }).upd fun g =>
        { g with currentCycle := g.currentCycle + 1 }, ?_, ?_⟩
    · simp only [robotTaskCount, Option.bind_eq_bind, Option.pure_def]
      rw [if_neg hc]
    · refine ⟨⟨?_, ?_, ?_, ?_, ?_, ?_, ?_, ?_, ?_, ?_, ?_, ?_, ?_, ?_, ?_, ?_, ?_, ?_, ?_, ?_⟩,
        ?_, ?_, ?_, ?_, ?_, ?_, ?_⟩
      all_goals first
        | (intro hh; omega)
        | (intro i; simp [publish])
        | (simp [publish])

theorem powerOff_frame (s : St) : Frame s (powerOff s) := by
  refine ⟨?_, ?_, ?_, ?_, ?_, ?_, ?_, ?_, ?_, ?_, ?_, ?_, ?_, ?_, ?_, ?_, ?_, ?_, ?_, ?_⟩
  all_goals first
    | (intro i; simp [powerOff])
    | (simp [powerOff])

theorem robotTask_spec (s : St) (h0 : s.env.idRobotTask = 0) (h1 : s.env.idEndRobotTask = 1) :
    ∃ s1, robotTask s = some s1 ∧ Frame s s1 ∧ s1.fired = s.fired ∧
      s1.env.direction = (!s.env.direction) ∧
      (s1.tabTask 0).startTime = s1.env.currentRandomValue ∧
      (s.env.direction = true → s1.env.randomValue = s.env.randomValue ∧
        s1.env.currentRandomValue =
          (if s.env.randomValue > 30 then s.env.randomValue - 20
           else s.env.currentRandomValue)) ∧
      (s.env.direction = false →
        s1.env.currentRandomValue =
          toUnsigned (random s.env.minRandom s.env.maxRandom s).1 ∧
        s1.env.randomValue = s1.env.currentRandomValue) ∧
      (s.env.nbCycles ≤ s.env.currentCycle + 1 →
        (s1.tabTask 0).status = CREE ∧ (s1.tabTask 0).currentTime = 0 ∧
        (s1.tabTask 1).status = CREE ∧ (s1.tabTask 1).currentTime = 0 ∧
        s1.env.currentCycle = 0 ∧ s1.env.pinForward = true ∧ s1.env.pinReturn = true ∧
        s1.env.activeScheduledTask = false) ∧
      (s.env.currentCycle + 1 < s.env.nbCycles →
        (s1.tabTask 0).status = (s.tabTask 0).status ∧
        (s1.tabTask 0).currentTime = (s.tabTask 0).currentTime ∧
        s1.tabTask 1 = s.tabTask 1 ∧ s1.env.currentCycle = s.env.currentCycle + 1 ∧
        s1.env.activeScheduledTask = s.env.activeScheduledTask ∧
        (s.env.direction = false → s1.env.pinForward = false ∧ s1.env.pinReturn = true) ∧
        (s.env.direction = true → s1.env.pinForward = true ∧ s1.env.pinReturn = false)) := by
  have hp := powerOff_frame s
  obtain ⟨a, ea, fa, a1, a2, a3, a4, a5, a6, a7, a8, a9, a10⟩ :=
    robotTaskLeg_spec (powerOff s) (by simpa [powerOff] using h0)
  obtain ⟨b, eb, fb, b1, b2, b3, b4, b5, b6, b7⟩ := robotTaskCount_spec a
    (by rw [fa.idRobot]; simpa [powerOff] using h0)
    (by rw [fa.idEnd]; simpa [powerOff] using h1)
  have hpd : (powerOff s).env.direction = s.env.direction := by simp [powerOff]
  have hpr : (powerOff s).env.randomValue = s.env.randomValue := by simp [powerOff]
  have hpc : (powerOff s).env.currentRandomValue = s.env.currentRandomValue := by
    simp [powerOff]
  have hpy : (powerOff s).env.currentCycle = s.env.currentCycle := by simp [powerOff]
  have hpt : (powerOff s).tabTask = s.tabTask := by simp [powerOff]
  have hpa : (powerOff s).env.activeScheduledTask = s.env.activeScheduledTask := by
    simp [powerOff]
  have hpn : (powerOff s).env.nbCycles = s.env.nbCycles := by simp [powerOff]
  refine ⟨b, by rw [robotTask_eq, ea]; exact eb, (hp.trans fa).trans fb, ?_, ?_, ?_, ?_, ?_,
    ?_, ?_⟩
  · rw [b1, a1]; simp [powerOff]
  · rw [b2, a6, hpd]
  · rw [b3, b4, a8]
  · intro hd
    obtain ⟨c1, c2, -, -⟩ := a9 (hpd.trans hd)
    rw [b5, b4, c1, c2, hpr, hpc]
    exact ⟨rfl, rfl⟩
  · intro hd
    obtain ⟨c1, c2, -, -⟩ := a10 (hpd.trans hd)
    rw [b5, b4, c2, c1]
    exact ⟨by simp [random, powerOff], rfl⟩
  · intro he
    exact b6 (by rw [fa.nbCycles, a5, hpn, hpy]; exact he)
  · intro he
    obtain ⟨c1, c2, c3, c4, c5, c6, c7⟩ :=
      b7 (by rw [fa.nbCycles, a5, hpn, hpy]; exact he)
    refine ⟨?_, ?_, ?_, ?_, ?_, ?_, ?_⟩
    · rw [c1, a2, hpt]
    · rw [c2, a3, hpt]
    · rw [c3, a4, hpt]
    · rw [c4, a5, hpy]
    · rw [c5, a7, hpa]
    · intro hd
      obtain ⟨-, -, d1, d2⟩ := a10 (hpd.trans hd)
      rw [c6, c7, d1, d2]; exact ⟨rfl, rfl⟩
    · intro hd
      obtain ⟨-, -, d1, d2⟩ := a9 (hpd.trans hd)
      rw [c6, c7, d1, d2]; exact ⟨rfl, rfl⟩

theorem writeLogs_frame (log : List Char) (s : St) : Frame s (writeLogs log s) := by
  refine ⟨?_, ?_, ?_, ?_, ?_, ?_, ?_, ?_, ?_, ?_, ?_, ?_, ?_, ?_, ?_, ?_, ?_, ?_, ?_, ?_⟩
  all_goals first
    | (intro i; simp [writeLogs])
    | simp [writeLogs]

theorem robotEndTask_spec (s : St) (h0 : s.env.idRobotTask = 0)
    (h1 : s.env.idEndRobotTask = 1) :
    ∃ s1, robotEndTask s = some s1 ∧ Frame s s1 ∧ s1.fired = s.fired ∧
      (s1.tabTask 0).status = CREE ∧ (s1.tabTask 0).currentTime = 0 ∧
      (s1.tabTask 0).startTime = (s.tabTask 0).startTime ∧
      (s1.tabTask 1).status = CREE ∧ (s1.tabTask 1).currentTime = 0 ∧
      s1.env.currentCycle = 0 ∧ s1.env.pinForward = true ∧ s1.env.pinReturn = true ∧
      s1.env.activeScheduledTask = false ∧
      s1.env.direction = s.env.direction ∧ s1.env.randomValue = s.env.randomValue ∧
      s1.env.currentRandomValue = s.env.currentRandomValue := by
  obtain ⟨a, e, hf, hfi, a1, a2, a3, a4, a5, a6, a7, a8, a9, a10, a11, a12⟩ :=
    endCycle_spec s h0 h1
  refine ⟨writeLogs "End time cycle".toList a, ?_, hf.trans (writeLogs_frame _ a), ?_⟩
  · simp only [robotEndTask, Option.bind_eq_bind, Option.pure_def, e, Option.some_bind]
  · simp only [writeLogs, upd_tabTask, upd_env, upd_fired]
    exact ⟨hfi, a1, a2, a3, a4, a5, a6, a7, a8, a9, a10, a11, a12⟩

theorem Inv.setTask {s : St} (h : Inv s) (i : Fin MAX_TASK) (hi : i ≠ 3) (a b : Nat) :
    Inv (s.setTask i { s.tabTask i with status := a, currentTime := b }) := by
  obtain ⟨h1, h2, h3, h4, h5, h6, h7, h8, h9, h10, h11⟩ := h
  rcases fin_four i with e | e | e | e <;> subst e
  · exact ⟨h1, h2, h3, by simpa using h4, by simpa using h5,
      by simpa [Function.update_noteq ne_10] using h6,
      by simpa [Function.update_noteq ne_10] using h7,
      by simpa [Function.update_noteq ne_10] using h8,
      by simpa [Function.update_noteq ne_20] using h9,
      by simpa [Function.update_noteq ne_20] using h10,
      by simpa [Function.update_noteq ne_30] using h11⟩
  · exact ⟨h1, h2, h3, by simpa [Function.update_noteq ne_01] using h4,
      by simpa [Function.update_noteq ne_01] using h5,
      by simpa using h6, by simpa using h7, by simpa using h8,
      by simpa [Function.update_noteq ne_21] using h9,
      by simpa [Function.update_noteq ne_21] using h10,
      by simpa [Function.update_noteq ne_31] using h11⟩
  · exact ⟨h1, h2, h3, by simpa [Function.update_noteq ne_02] using h4,
      by simpa [Function.update_noteq ne_02] using h5,
      by simpa [Function.update_noteq ne_12] using h6,
      by simpa [Function.update_noteq ne_12] using h7,
      by simpa [Function.update_noteq ne_12] using h8,
      by simpa using h9, by simpa using h10,
      by simpa [Function.update_noteq ne_32] using h11⟩
  · exact absurd rfl hi

theorem Inv.fired {s : St} (h : Inv s) (l : List (Fin MAX_TASK)) :
    Inv { s with fired := l } :=
  ⟨h.1, h.2, h.3, h.4, h.5, h.6, h.7, h.8, h.9, h.10, h.11⟩

theorem Inv.started {s : St} (h : Inv s) (i : Fin MAX_TASK) (hi : i ≠ 3) :
    Inv (s.started i) :=
  (h.setTask i hi PRET 0).fired _

theorem Inv.entered {s : St} (h : Inv s) (i : Fin MAX_TASK) (hi : i ≠ 3) :
    Inv (s.entered i) := by
  have := (h.setTask i hi EXEC (((s.tabTask i).currentTime + 1) % UINT)).fired
    (s.fired ++ [i])
  exact this

theorem Inv.rearmed {s : St} (h : Inv s) (i : Fin MAX_TASK) (hi : i ≠ 3) :
    Inv (s.rearmed i) := by
  unfold Sys.rearmed
  split_ifs
  · exact h.setTask i hi CREE _
  · exact h.setTask i hi PRET 0
  · exact h

theorem scheduleCleanTask_idle (call : Fonc → St → Option St) (s : St) (h : ¬ Matches s) :
    scheduleCleanTask call s = some s := by
  unfold Matches at h
  unfold scheduleCleanTask
  by_cases h1 : s.env.scheduleEnabled = 0
  · simp [h1]
  · have h2 : ¬ (s.env.scheduleM = s.env.minutes ∧ s.env.scheduleH = s.env.hours) :=
      fun hc => h ⟨h1, hc⟩
    simp [h1, h2]

theorem started_frame (s : St) (i : Fin MAX_TASK) (hi2 : i ≠ 2) (hi3 : i ≠ 3) (hi1 : i ≠ 1) :
    Frame s (s.started i) := by
  refine ⟨rfl, rfl, rfl, rfl, rfl, rfl, rfl, rfl, rfl, rfl, rfl, rfl, rfl, rfl, ?_, ?_, ?_, ?_,
    ?_, rfl⟩
  · intro j
    by_cases h : j = i
    · subst h; simp
    · simp [Function.update_noteq h]
  · intro j
    by_cases h : j = i
    · subst h; simp
    · simp [Function.update_noteq h]
  · simp [Function.update_noteq (Ne.symm hi1)]
  · simp [Function.update_noteq (Ne.symm hi2)]
  · simp [Function.update_noteq (Ne.symm hi3)]

theorem setTask1_frame (s : St) (a b : Nat) :
    Frame s (s.setTask 1 { s.tabTask 1 with status := a, currentTime := b }) := by
  refine ⟨rfl, rfl, rfl, rfl, rfl, rfl, rfl, rfl, rfl, rfl, rfl, rfl, rfl, rfl, ?_, ?_, ?_, ?_,
    ?_, rfl⟩
  · intro j
    by_cases h : j = 1
    · subst h; simp
    · simp [Function.update_noteq h]
  · intro j
    by_cases h : j = 1
    · subst h; simp
    · simp [Function.update_noteq h]
  · simp
  · simp [Function.update_noteq ne_21]
  · simp [Function.update_noteq ne_31]

theorem setTask0_frame (s : St) (a b : Nat) :
    Frame s (s.setTask 0 { s.tabTask 0 with status := a, currentTime := b }) := by
  refine ⟨rfl, rfl, rfl, rfl, rfl, rfl, rfl, rfl, rfl, rfl, rfl, rfl, rfl, rfl, ?_, ?_, ?_, ?_,
    ?_, rfl⟩
  · intro j
    by_cases h : j = 0
    · subst h; simp
    · simp [Function.update_noteq h]
  · intro j
    by_cases h : j = 0
    · subst h; simp
    · simp [Function.update_noteq h]
  · simp [Function.update_noteq ne_10]
  · simp [Function.update_noteq ne_20]
  · simp [Function.update_noteq ne_30]

theorem scheduleCleanTask_match (call : Fonc → St → Option St)
    (hcall : ∀ x, call Fonc.robotTask x = robotTask x) (s : St) (hI : Inv s)
    (hm : Matches s) :
    ∃ a, robotTask (s.started 0) = some a ∧ t_start call s.env.idRobotTask s = some a ∧
      t_start call a.env.idEndRobotTask a =
        some (a.setTask 1 { a.tabTask 1 with status := PRET, currentTime := 0 }) ∧
      ∃ s3, scheduleCleanTask call s = some s3 ∧ Frame s s3 ∧
        s3.tabTask =
          Function.update a.tabTask 1 { a.tabTask 1 with status := PRET, currentTime := 0 } ∧
        s3.fired = s.fired ++ [0] ∧ s3.env.activeScheduledTask = true ∧
        s3.env.currentCycle = a.env.currentCycle ∧ s3.env.direction = a.env.direction ∧
        s3.env.currentRandomValue = a.env.currentRandomValue ∧
        s3.env.randomValue = a.env.randomValue ∧
        s3.env.pinForward = a.env.pinForward ∧ s3.env.pinReturn = a.env.pinReturn := by
  have hI0 : Inv (s.started 0) := hI.started 0 ne_03
  obtain ⟨a, ea, fa, afi, -⟩ := robotTask_spec (s.started 0) hI0.idRobot hI0.idEnd
  have hIa : Inv a := hI0.frame fa
  have e1 : t_start call s.env.idRobotTask s = some a := by
    have := t_start_timer call 0 s hI.timer0
    rw [hI.idRobot]
    rw [show ((0 : Int)) = (((0 : Fin MAX_TASK).val : Nat) : Int) from rfl, this, hI.fonc0,
      hcall, ea]
  have e2 : t_start call a.env.idEndRobotTask a =
      some (a.setTask 1 { a.tabTask 1 with status := PRET, currentTime := 0 }) := by
    have := t_start_one_shot call 1 a hIa.timer1
    rw [hIa.idEnd]
    rw [show ((1 : Int)) = (((1 : Fin MAX_TASK).val : Nat) : Int) from rfl, this]
  refine ⟨a, ea, e1, e2, ?_⟩
  have hm1 : s.env.scheduleEnabled ≠ 0 := hm.1
  have hm2 : s.env.scheduleM = s.env.minutes ∧ s.env.scheduleH = s.env.hours := hm.2
  have hfr : Frame s (a.setTask 1 { a.tabTask 1 with status := PRET, currentTime := 0 }) :=
    ((started_frame s 0 ne_02 ne_03 ne_01).trans fa).trans (setTask1_frame a PRET 0)
  refine ⟨scheduleCleanTaskEnd
    (a.setTask 1 { a.tabTask 1 with status := PRET, currentTime := 0 }), ?_, ?_, ?_⟩
  · simp only [scheduleCleanTask, hm1, hm2, ne_eq, not_false_eq_true, and_self, if_true,
      Option.bind_eq_bind, e1, Option.some_bind, e2, Option.pure_def]
    rfl
  · refine hfr.trans ?_
    refine ⟨?_, ?_, ?_, ?_, ?_, ?_, ?_, ?_, ?_, ?_, ?_, ?_, ?_, ?_, ?_, ?_, ?_, ?_, ?_, ?_⟩
    all_goals first
      | (intro i; simp [scheduleCleanTaskEnd, writeLogs, publish])
      | simp [scheduleCleanTaskEnd, writeLogs, publish]
  · simp [scheduleCleanTaskEnd, writeLogs, publish, afi]

theorem t_start_osc_zero (s : St) (hI : Inv s) :
    t_start (invoke 0) s.env.idRobotTask s = none := by
  have := t_start_timer (invoke 0) 0 s hI.timer0
  rw [hI.idRobot]
  rw [show ((0 : Int)) = (((0 : Fin MAX_TASK).val : Nat) : Int) from rfl, this]
  rfl

theorem invoke_frame (depth : Nat) (f : Fonc) (s s1 : St) (hI : Inv s)
    (h : invoke depth f s = some s1) : Frame s s1 := by
  cases depth with
  | zero => exact absurd h (by simp [invoke])
  | succ d =>
    cases f with
    | null => exact absurd h (by simp [invoke])
    | robotTask =>
      obtain ⟨a, ea, fa, -⟩ := robotTask_spec s hI.idRobot hI.idEnd
      have : some a = some s1 := by rw [← ea]; exact h
      rw [← Option.some.inj this]; exact fa
    | robotEndTask =>
      obtain ⟨a, ea, fa, -⟩ := robotEndTask_spec s hI.idRobot hI.idEnd
      have : some a = some s1 := by rw [← ea]; exact h
      rw [← Option.some.inj this]; exact fa
    | scheduleCleanTask =>
      have h2 : scheduleCleanTask (invoke d) s = some s1 := h
      by_cases hm : Matches s
      · cases d with
        | zero =>
          have hm1 : s.env.scheduleEnabled ≠ 0 := hm.1
          have hm2 : s.env.scheduleM = s.env.minutes ∧ s.env.scheduleH = s.env.hours := hm.2
          simp only [scheduleCleanTask, hm1, hm2, ne_eq, not_false_eq_true, and_self, if_true,
            Option.bind_eq_bind, t_start_osc_zero s hI, Option.none_bind] at h2
          exact absurd h2 (by simp)
        | succ e =>
          obtain ⟨a, -, -, -, s3, e3, f3, -⟩ :=
            scheduleCleanTask_match (invoke (e + 1)) (fun _ => rfl) s hI hm
          have : some s3 = some s1 := by rw [← e3]; exact h2
          rw [← Option.some.inj this]; exact f3
      · rw [scheduleCleanTask_idle _ s hm] at h2
        rw [← Option.some.inj h2]; exact Frame.refl s

theorem scheduleTask_inv (depth : Nat) (i : Fin MAX_TASK) (s s1 : St) (hI : Inv s)
    (h : scheduleTask (invoke depth) i s = some s1) : Inv s1 := by
  by_cases hr : (s.tabTask i).status = PRET
  · have hi : i ≠ 3 := by
      intro hc
      subst hc
      rw [hI.free3] at hr
      exact absurd hr (by decide)
    by_cases hd : ((s.tabTask i).currentTime + 1) % UINT = (s.tabTask i).startTime
    · cases hc : invoke depth (s.tabTask i).fonc (s.entered i) with
      | none =>
        have : scheduleTask (invoke depth) i s = none := by
          have hc1 : invoke depth (s.tabTask i).fonc
              { tabTask := Function.update s.tabTask i
                  { fonc := (s.tabTask i).fonc, status := EXEC,
                    currentTime := (s.tabTask i).startTime,
                    startTime := (s.tabTask i).startTime,
                    timerTask := (s.tabTask i).timerTask },
                tabLastStatusTask := s.tabLastStatusTask, fired := s.fired ++ [i],
                env := s.env } = none := by
            rw [← hc]
            simp [Sys.entered, Sys.setTask, hd]
          simp only [scheduleTask, hr, hd, callFonc, Sys.setTask, Function.update_same,
            if_true, Function.update_idem, hc1, Option.bind_eq_bind, Option.none_bind]
        rw [this] at h
        exact absurd h (by simp)
      | some a =>
        rw [scheduleTask_due (invoke depth) i s a hr hd hc] at h
        rw [← Option.some.inj h]
        have hIe : Inv (s.entered i) := hI.entered i hi
        have : Frame (s.entered i) a := invoke_frame depth _ _ a hIe hc
        exact (hIe.frame this).rearmed i hi
    · rw [scheduleTask_counting (invoke depth) i s hr hd] at h
      rw [← Option.some.inj h]
      have := hI.setTask i hi PRET (((s.tabTask i).currentTime + 1) % UINT)
      rw [← hr] at this
      exact this
  · rw [scheduleTask_idle (invoke depth) i s hr] at h
    rw [← Option.some.inj h]; exact hI

theorem tick_inv (depth : Nat) (s s1 : St) (hI : Inv s) (h : tick depth s = some s1) :
    Inv s1 := by
  simp only [tick, schedule, finRange_four, List.foldlM_cons, List.foldlM_nil,
    Option.bind_eq_bind, Option.pure_def] at h
  cases ha : scheduleTask (invoke depth) 0 s with
  | none => rw [ha] at h; exact absurd h (by simp)
  | some a =>
    rw [ha, Option.some_bind] at h
    cases hb : scheduleTask (invoke depth) 1 a with
    | none => rw [hb] at h; exact absurd h (by simp)
    | some b =>
      rw [hb, Option.some_bind] at h
      cases hc : scheduleTask (invoke depth) 2 b with
      | none => rw [hc] at h; exact absurd h (by simp)
      | some c =>
        rw [hc, Option.some_bind] at h
        rw [Option.bind_some] at h
        exact scheduleTask_inv depth 3 c s1
          (scheduleTask_inv depth 2 b c
            (scheduleTask_inv depth 1 a b (scheduleTask_inv depth 0 s a hI ha) hb) hc) h

theorem Inv.upd {s : St} (h : Inv s) (f : Globals → Globals)
    (h1 : (f s.env).idRobotTask = s.env.idRobotTask)
    (h2 : (f s.env).idEndRobotTask = s.env.idEndRobotTask)
    (h3 : (f s.env).idScheduleCleanTask = s.env.idScheduleCleanTask)
    (h4 : (f s.env).activeTime = s.env.activeTime) : Inv (s.upd f) :=
  ⟨h1.trans h.1, h2.trans h.2, h3.trans h.3, h.4, h.5, h.6, h.7,
    by rw [upd_tabTask, upd_env, h4]; exact h.8, h.9, h.10, h.11⟩

theorem Inv.setLast {s : St} (h : Inv s) (i : Fin MAX_TASK) (t : Task Fonc) :
    Inv (s.setLast i t) :=
  ⟨h.1, h.2, h.3, h.4, h.5, h.6, h.7, h.8, h.9, h.10, h.11⟩

theorem Inv.publish {s : St} (h : Inv s) (topic : Topic) (payload : List Char) :
    Inv (publish topic payload s) :=
  h.upd _ rfl rfl rfl rfl

theorem Inv.writeLogs {s : St} (h : Inv s) (log : List Char) : Inv (writeLogs log s) :=
  h.upd _ rfl rfl rfl rfl

theorem t_stop_zero (s : St) :
    t_stop 0 s = some (s.setTask 0 { s.tabTask 0 with status := CREE, currentTime := 0 }) := by
  simp [t_stop, slot_zero]

theorem t_stop_one (s : St) :
    t_stop 1 s = some (s.setTask 1 { s.tabTask 1 with status := CREE, currentTime := 0 }) := by
  simp [t_stop, slot_one]

theorem t_suspend_zero (s : St) :
    t_suspend 0 s =
      some ((s.setLast 0 { s.tabLastStatusTask 0 with status := (s.tabTask 0).status }).setTask 0
        { s.tabTask 0 with status := SUSP }) := by
  simp [t_suspend, slot_zero]

theorem t_resume_zero (s : St) :
    t_resume 0 s =
      some (s.setTask 0 { s.tabTask 0 with status := (s.tabLastStatusTask 0).status }) := by
  simp [t_resume, slot_zero]

theorem foldl_publish_inv (topic : Topic) (g : List Char → List Char)
    (lines : List (List Char)) (s : St) (h : Inv s) :
    Inv (lines.foldl (fun acc line => publish topic (g line) acc) s) := by
  induction lines generalizing s with
  | nil => exact h
  | cons l ls ih => exact ih _ (h.publish _ _)

theorem setParam_inv (tabParam : List Char) (s s1 : St) (h : setParam tabParam s = some s1) :
    s1.tabTask = s.tabTask ∧ s1.tabLastStatusTask = s.tabLastStatusTask ∧
    s1.fired = s.fired ∧ s1.env.idRobotTask = s.env.idRobotTask ∧
    s1.env.idEndRobotTask = s.env.idEndRobotTask ∧
    s1.env.idScheduleCleanTask = s.env.idScheduleCleanTask := by
  unfold setParam at h
  by_cases hl : tabParam.length < 50
  · simp only [hl, if_true, split, Option.bind_eq_bind, Option.pure_def] at h
    cases hs : splitLoop (strtokAll ':' tabParam []) 0 s.env.items with
    | none => rw [hs] at h; exact absurd h (by simp)
    | some items =>
      rw [hs] at h
      simp only [Option.some_bind] at h
      rw [← Option.some.inj h]
      exact ⟨rfl, rfl, rfl, rfl, rfl, rfl⟩
  · simp [hl] at h

theorem publish_idRobot (topic : Topic) (payload : List Char) (s : St) :
    (publish topic payload s).env.idRobotTask = s.env.idRobotTask := rfl

theorem publish_tabTask (topic : Topic) (payload : List Char) (s : St) :
    (publish topic payload s).tabTask = s.tabTask := rfl

theorem publishState_inv (s s1 : St) (hI : Inv s) (h : publishState s = some s1) :
    Inv s1 := by
  simp only [publishState, hI.idRobot, hI.idEnd, getCurrentTime, getStartTime, getStatus,
    slot_zero, slot_one, Option.map_some', Option.bind_eq_bind, Option.some_bind,
    Option.pure_def, publish_idRobot, publish_tabTask] at h
  by_cases ha : s.env.activeScheduledTask = true
  · have hc : ∀ (p q : List Char),
        (publish Topic.TOPIC_CYCLE_TIME q (publish Topic.TOPIC_STATUS p s)).env.activeScheduledTask
          = true := fun _ _ => ha
    rw [if_pos (hc _ _)] at h
    rw [← Option.some.inj h]
    exact ((hI.publish _ _).publish _ _).publish _ _
  · have hc : ∀ (p q : List Char),
        ¬ (publish Topic.TOPIC_CYCLE_TIME q (publish Topic.TOPIC_STATUS p s)).env.activeScheduledTask
          = true := fun _ _ => ha
    rw [if_neg (hc _ _)] at h
    rw [← Option.some.inj h]
    exact (hI.publish _ _).publish _ _

theorem t_start_inv (depth : Nat) (s s1 : St) (hI : Inv s) (i : Fin MAX_TASK) (hi : i ≠ 3)
    (h : t_start (invoke depth) (i.val : Int) s = some s1) : Inv s1 := by
  cases hb : (s.tabTask i).timerTask with
  | false =>
    rw [t_start_one_shot _ i s hb] at h
    rw [← Option.some.inj h]
    exact hI.setTask i hi PRET 0
  | true =>
    rw [t_start_timer _ i s hb] at h
    exact (hI.started i hi).frame (invoke_frame depth _ _ s1 (hI.started i hi) h)

theorem start_cycle_inv (depth : Nat) (s s1 s2 : St) (hI : Inv s)
    (h1 : t_start (invoke depth) s.env.idRobotTask s = some s1)
    (h2 : t_start (invoke depth) s1.env.idEndRobotTask s1 = some s2) : Inv s1 ∧ Inv s2 := by
  rw [hI.idRobot] at h1
  have hI1 : Inv s1 := t_start_inv depth s s1 hI 0 ne_03 h1
  rw [hI1.idEnd] at h2
  exact ⟨hI1, t_start_inv depth s1 s2 hI1 1 ne_13 h2⟩

theorem PubSubCallback_inv (depth : Nat) (topic : Topic) (strPayload : List Char)
    (s s1 : St) (hI : Inv s)
    (h : PubSubCallback (invoke depth) topic strPayload s = some s1) : Inv s1 := by
  cases topic with
  | TOPIC_SET_PARAM =>
    simp only [PubSubCallback] at h
    by_cases hl : strPayload.length < 33
    · simp only [hl, if_true, Option.bind_eq_bind, Option.pure_def, upd_env] at h
      cases hs : setParam strPayload
          ((s.upd fun g => { g with tabParam := strPayload }).upd fun g =>
            { g with paramFile := some g.tabParam }) with
      | none => rw [hs] at h; exact absurd h (by simp)
      | some a =>
        rw [hs, Option.some_bind] at h
        obtain ⟨a1, a2, a3, a4, a5, a6⟩ := setParam_inv _ _ _ hs
        simp only [upd_tabTask, upd_env, upd_last, upd_fired] at a1 a2 a3 a4 a5 a6
        rw [a5, hI.idEnd] at h
        simp only [setStartTime, slot_one, Option.bind_eq_bind, Option.some_bind] at h
        rw [← Option.some.inj h]
        refine ⟨a4.trans hI.1, a5.trans hI.2, a6.trans hI.3, ?_, ?_, ?_, ?_, ?_, ?_, ?_, ?_⟩
        · simpa [a1, Function.update_noteq ne_01] using hI.4
        · simpa [a1, Function.update_noteq ne_01] using hI.5
        · simpa [a1] using hI.6
        · simpa [a1] using hI.7
        · simp
        · simpa [a1, Function.update_noteq ne_21] using hI.9
        · simpa [a1, Function.update_noteq ne_21] using hI.10
        · simpa [a1, Function.update_noteq ne_31] using hI.11
    · simp [hl] at h
  | TOPIC_GET_PARAM =>
    simp only [PubSubCallback] at h
    split_ifs at h <;> rw [← Option.some.inj h] <;> exact (hI.publish _ _).publish _ _
  | TOPIC_GET_VERSION =>
    simp only [PubSubCallback] at h
    rw [← Option.some.inj h]; exact hI.publish _ _
  | TOPIC_GET_LOGS =>
    simp only [PubSubCallback] at h
    rw [← Option.some.inj h]
    exact (foldl_publish_inv Topic.TOPIC_READ_LOGS (fun line => line ++ [Char.ofNat 10])
      s.env.logFile s hI).publish _ _
  | TOPIC_GET_STATUS =>
    simp only [PubSubCallback] at h
    exact publishState_inv s s1 hI h
  | TOPIC_START =>
    simp only [PubSubCallback] at h
    by_cases hp : strPayload = "ON".toList
    · simp only [hp, if_true, Option.bind_eq_bind, Option.pure_def] at h
      cases h1 : t_start (invoke depth) s.env.idRobotTask s with
      | none => rw [h1] at h; exact absurd h (by simp)
      | some a =>
        rw [h1, Option.some_bind] at h
        cases h2 : t_start (invoke depth) a.env.idEndRobotTask a with
        | none => rw [h2] at h; exact absurd h (by simp)
        | some b =>
          rw [h2, Option.some_bind] at h
          rw [← Option.some.inj h]
          exact (start_cycle_inv depth s a b hI h1 h2).2.writeLogs _
    · simp only [hp, if_false, Option.bind_eq_bind, Option.pure_def] at h
      obtain ⟨a, ea, fa, -⟩ := robotEndTask_spec s hI.idRobot hI.idEnd
      rw [ea, Option.some_bind] at h
      rw [← Option.some.inj h]
      exact (hI.frame fa).publish _ _
  | TOPIC_MANUAL =>
    simp only [PubSubCallback] at h
    by_cases hc : s.env.currentCycle = 0
    · simp only [hc, if_true, Option.bind_eq_bind, Option.pure_def, hI.idRobot, t_stop_zero,
        Option.some_bind, setTask_env, hI.idEnd, t_stop_one] at h
      have hI2 := (hI.setTask 0 ne_03 CREE 0).setTask 1 ne_13 CREE 0
      split_ifs at h <;> rw [← Option.some.inj h]
      · exact hI2.upd _ rfl rfl rfl rfl
      · exact hI2.upd _ rfl rfl rfl rfl
      · exact hI2.upd _ rfl rfl rfl rfl
    · simp only [hc, if_false] at h
      by_cases hp : strPayload = "STOP".toList
      · simp only [hp, if_true, Option.bind_eq_bind, Option.pure_def] at h
        cases hb : s.env.b with
        | false =>
          simp only [hb, Bool.not_false, if_true, hI.idRobot, t_suspend_zero,
            Option.some_bind] at h
          rw [← Option.some.inj h]
          exact ((((hI.setLast 0 _).setTask 0 ne_03 SUSP _).upd _ rfl rfl rfl rfl).upd _
            rfl rfl rfl rfl)
        | true =>
          simp only [hb, Bool.not_true, Bool.false_eq_true, if_false, hI.idRobot,
            t_resume_zero, Option.some_bind, setTask_env] at h
          have hI2 := hI.setTask 0 ne_03 (s.tabLastStatusTask 0).status (s.tabTask 0).currentTime
          split_ifs at h <;> rw [← Option.some.inj h]
          · exact (hI2.upd _ rfl rfl rfl rfl).upd _ rfl rfl rfl rfl
          · exact (hI2.upd _ rfl rfl rfl rfl).upd _ rfl rfl rfl rfl
      · simp only [hp, if_false, Option.pure_def] at h
        rw [← Option.some.inj h]; exact hI
  | TOPIC_DELETE_LOGS =>
    simp only [PubSubCallback] at h
    rw [← Option.some.inj h]; exact hI.upd _ rfl rfl rfl rfl
  | TOPIC_RESET =>
    simp only [PubSubCallback] at h
    rw [← Option.some.inj h]; exact hI.upd _ rfl rfl rfl rfl
  | _ =>
    simp only [PubSubCallback] at h
    rw [← Option.some.inj h]; exact hI

theorem t_creer_at (f : F) (n : Nat) (b : Bool) (s : Sys F E) (j : Fin MAX_TASK)
    (hlow : ∀ i, i < j → (s.tabTask i).status ≠ N_CREE)
    (hj : (s.tabTask j).status = N_CREE) :
    t_creer f n b s =
      ((j.val : Int), s.setTask j
        { fonc := f, startTime := n, currentTime := 0, status := CREE, timerTask := b }) := by
  rcases t_creer_spec f n b s with ⟨hfull, -⟩ | ⟨i, hi, hilow, h⟩
  · exact absurd hj (hfull j)
  · have hij : i = j := by
      rcases lt_trichotomy i j with hlt | heq | hgt
      · exact absurd hi (hlow i hlt)
      · exact heq
      · exact absurd hj (hilow j hgt)
    subst hij
    exact h

theorem initFileParam_tab (force : Bool) (s s1 : St) (h : initFileParam force s = some s1) :
    s1.tabTask = s.tabTask := by
  unfold initFileParam at h
  split at h
  · split_ifs at h <;> (rw [← Option.some.inj h]; rfl)
  · rw [← Option.some.inj h]; rfl

theorem purge_tab (size : Nat) (s : St) : (purge size s).tabTask = s.tabTask := by
  unfold purge
  split_ifs <;> rfl

theorem setup_eq (call : Fonc → St → Option St) (boot : Boot) :
    setup call boot =
      (initFileParam false
        ((Sys.init Fonc.null (Globals.init boot)).upd fun g =>
          { g with pinForward := true, pinReturn := true })).bind fun a =>
      (setParam (logsWrite boot.bootRaison a).env.tabParam (logsWrite boot.bootRaison a)).bind
        fun b =>
        setupEnd call
          (setupScheduleCleanTask (setupEndRobotTask (setupRobotTask (purge 4048 b)))) := rfl

theorem setupRobotTask_spec (s : St) (h : ∀ i, (s.tabTask i).status = N_CREE) :
    (setupRobotTask s).env.idRobotTask = 0 ∧
    (setupRobotTask s).env.idEndRobotTask = s.env.idEndRobotTask ∧
    (setupRobotTask s).env.idScheduleCleanTask = s.env.idScheduleCleanTask ∧
    (setupRobotTask s).env.activeTime = s.env.activeTime ∧
    (setupRobotTask s).tabTask =
      Function.update s.tabTask 0
        { fonc := Fonc.robotTask, status := CREE, currentTime := 0,
          startTime := toUnsigned (random s.env.minRandom s.env.maxRandom s).1,
          timerTask := true } := by
  have e := t_creer_at Fonc.robotTask
    (toUnsigned (random s.env.minRandom s.env.maxRandom s).1) true
    (random s.env.minRandom s.env.maxRandom s).2 0
    (fun i hi => absurd hi (by rcases fin_four i with e | e | e | e <;> subst e <;> decide))
    (by simpa [random] using h 0)
  simp only [setupRobotTask, e]
  exact ⟨rfl, rfl, rfl, rfl, rfl⟩

theorem setupEndRobotTask_spec (s : St) (h0 : (s.tabTask 0).status ≠ N_CREE)
    (h1 : (s.tabTask 1).status = N_CREE) :
    (setupEndRobotTask s).env.idRobotTask = s.env.idRobotTask ∧
    (setupEndRobotTask s).env.idEndRobotTask = 1 ∧
    (setupEndRobotTask s).env.idScheduleCleanTask = s.env.idScheduleCleanTask ∧
    (setupEndRobotTask s).env.activeTime = s.env.activeTime ∧
    (setupEndRobotTask s).tabTask =
      Function.update s.tabTask 1
        { fonc := Fonc.robotEndTask, status := CREE, currentTime := 0,
          startTime := toUnsigned (s.env.activeTime * 60), timerTask := false } := by
  have e := t_creer_at Fonc.robotEndTask (toUnsigned (s.env.activeTime * 60)) false s 1
    (fun i hi => by
      rcases fin_four i with e | e | e | e <;> subst e <;>
        first | exact h0 | exact absurd hi (by decide))
    h1
  simp only [setupEndRobotTask, e]
  exact ⟨rfl, rfl, rfl, rfl, rfl⟩

theorem setupScheduleCleanTask_spec (s : St) (h0 : (s.tabTask 0).status ≠ N_CREE)
    (h1 : (s.tabTask 1).status ≠ N_CREE) (h2 : (s.tabTask 2).status = N_CREE) :
    (setupScheduleCleanTask s).env.idRobotTask = s.env.idRobotTask ∧
    (setupScheduleCleanTask s).env.idEndRobotTask = s.env.idEndRobotTask ∧
    (setupScheduleCleanTask s).env.idScheduleCleanTask = 2 ∧
    (setupScheduleCleanTask s).env.activeTime = s.env.activeTime ∧
    (setupScheduleCleanTask s).tabTask =
      Function.update s.tabTask 2
        { fonc := Fonc.scheduleCleanTask, status := CREE, currentTime := 0,
          startTime := 60, timerTask := true } := by
  have e := t_creer_at Fonc.scheduleCleanTask 60 true s 2
    (fun i hi => by
      rcases fin_four i with e | e | e | e <;> subst e <;>
        first | exact h0 | exact h1 | exact absurd hi (by decide))
    h2
  simp only [setupScheduleCleanTask, e]
  exact ⟨rfl, rfl, rfl, rfl, rfl⟩

theorem setupTasks_inv (s : St) (h : ∀ i, (s.tabTask i).status = N_CREE) :
    Inv (setupScheduleCleanTask (setupEndRobotTask (setupRobotTask s))) := by
  obtain ⟨a1, a2, a3, a4, a5⟩ := setupRobotTask_spec s h
  obtain ⟨b1, b2, b3, b4, b5⟩ := setupEndRobotTask_spec (setupRobotTask s)
    (by rw [a5]; simp) (by rw [a5]; simpa [Function.update_noteq ne_10] using h 1)
  obtain ⟨c1, c2, c3, c4, c5⟩ := setupScheduleCleanTask_spec
    (setupEndRobotTask (setupRobotTask s))
    (by rw [b5, a5]; simp [Function.update_noteq ne_01])
    (by rw [b5]; simp)
    (by rw [b5, a5]; simpa [Function.update_noteq ne_21, Function.update_noteq ne_20] using h 2)
  refine ⟨by rw [c1, b1, a1], by rw [c2, b2], c3, ?_, ?_, ?_, ?_, ?_, ?_, ?_, ?_⟩
  · rw [c5, b5, a5]; simp [Function.update_noteq ne_02, Function.update_noteq ne_01]
  · rw [c5, b5, a5]; simp [Function.update_noteq ne_02, Function.update_noteq ne_01]
  · rw [c5, b5]; simp [Function.update_noteq ne_12]
  · rw [c5, b5]; simp [Function.update_noteq ne_12]
  · rw [c5, b5, c4, b4]; simp [Function.update_noteq ne_12]
  · rw [c5]; simp
  · rw [c5]; simp
  · rw [c5, b5, a5]
    simpa [Function.update_noteq ne_32, Function.update_noteq ne_31,
      Function.update_noteq ne_30] using h 3

theorem setup_inv (depth : Nat) (boot : Boot) (s : St)
    (h : setup (invoke depth) boot = some s) : Inv s := by
  rw [setup_eq] at h
  cases h1 : initFileParam false
      ((Sys.init Fonc.null (Globals.init boot)).upd fun g =>
        { g with pinForward := true, pinReturn := true }) with
  | none => rw [h1] at h; exact absurd h (by simp)
  | some a =>
    rw [h1, Option.some_bind] at h
    have ta := initFileParam_tab _ _ _ h1
    cases h2 : setParam (logsWrite boot.bootRaison a).env.tabParam
        (logsWrite boot.bootRaison a) with
    | none => rw [h2] at h; exact absurd h (by simp)
    | some b =>
      rw [h2, Option.some_bind] at h
      obtain ⟨tb, -⟩ := setParam_inv _ _ _ h2
      have hb : ∀ i, ((purge 4048 b).tabTask i).status = N_CREE := by
        intro i
        rw [purge_tab, tb]
        simp only [logsWrite, upd_tabTask, ta]
        rfl
      have hI := setupTasks_inv (purge 4048 b) hb
      simp only [setupEnd, Option.bind_eq_bind, Option.pure_def] at h
      rw [hI.idSched] at h
      cases h3 : t_start (invoke depth) 2
          (setupScheduleCleanTask (setupEndRobotTask (setupRobotTask (purge 4048 b)))) with
      | none => rw [h3] at h; exact absurd h (by simp)
      | some c =>
        rw [h3, Option.some_bind] at h
        have hIc : Inv c := t_start_inv depth _ c hI 2 ne_23 h3
        rw [← Option.some.inj h]
        refine Inv.upd ?_ _ rfl rfl rfl rfl
        simp only [random]
        refine Inv.upd ?_ _ rfl rfl rfl rfl
        exact hIc.publish _ _

theorem reachable_inv (s : St) (h : Reachable s) : Inv s := by
  induction h with
  | boot depth boot s h => exact setup_inv depth boot s h
  | tick depth s s1 _ h ih => exact tick_inv depth s s1 ih h
  | message depth topic strPayload s s1 _ _ h ih =>
    exact PubSubCallback_inv depth topic strPayload s s1 ih h
  | clock r s _ ih => exact ih.upd _ rfl rfl rfl rfl

theorem bootState_eq : setup (invoke 1) bootDemo = some bootState := rfl

theorem bootState_reachable : Reachable bootState :=
  Reachable.boot 1 bootDemo bootState bootState_eq

/-- Claim C10. In every reachable state, `scheduleCleanTask` does the following. When
`scheduleEnabled` is non-zero and the clock shows `scheduleH:scheduleM` (`Matches`), it
returns the state obtained by `t_start` on the oscillation task then `t_start` on the
end-of-cycle task, with `activeScheduledTask` set: the action of the oscillation task has
been invoked once, the end-of-cycle task is `PRET` with `currentTime = 0`. In every other
case it returns the state unchanged. -/
theorem C10_scheduleCleanTask (depth : Nat) (s : St) (hs : Reachable s) :
    (Matches s →
      ∃ a b c, t_start (invoke (depth + 1)) s.env.idRobotTask s = some a ∧
        t_start (invoke (depth + 1)) a.env.idEndRobotTask a = some b ∧
        scheduleCleanTask (invoke (depth + 1)) s = some c ∧
        c.tabTask = b.tabTask ∧ c.tabLastStatusTask = b.tabLastStatusTask ∧
        c.fired = b.fired ∧ c.env.activeScheduledTask = true ∧
        c.fired = s.fired ++ [0] ∧
        getStatus c.env.idEndRobotTask c = some PRET ∧
        getCurrentTime c.env.idEndRobotTask c = some 0) ∧
    (¬ Matches s → scheduleCleanTask (invoke depth) s = some s) := by
  have hI := reachable_inv s hs
  refine ⟨fun hm => ?_, fun hm => scheduleCleanTask_idle _ s hm⟩
  obtain ⟨a, ea, e1, e2, c, e3, f3, t3, fi3, act, -⟩ :=
    scheduleCleanTask_match (invoke (depth + 1)) (fun _ => rfl) s hI hm
  obtain ⟨-, fa, afi, -⟩ := robotTask_spec (s.started 0) (hI.started 0 ne_03).idRobot
    (hI.started 0 ne_03).idEnd
  have hIa : Inv a := by
    obtain ⟨a', ea', fa', -⟩ := robotTask_spec (s.started 0) (hI.started 0 ne_03).idRobot
      (hI.started 0 ne_03).idEnd
    have : a' = a := Option.some.inj (ea'.symm.trans ea)
    subst this
    exact (hI.started 0 ne_03).frame fa'
  have hIc : Inv c := hI.frame f3
  refine ⟨a, _, c, e1, e2, e3, ?_, ?_, ?_, act, fi3, ?_, ?_⟩
  · rw [t3]; rfl
  · rw [f3.last]
    have : Frame s a := by
      obtain ⟨a', ea', fa', -⟩ := robotTask_spec (s.started 0) (hI.started 0 ne_03).idRobot
        (hI.started 0 ne_03).idEnd
      have : a' = a := Option.some.inj (ea'.symm.trans ea)
      subst this
      exact (started_frame s 0 ne_02 ne_03 ne_01).trans fa'
    simp [this.last]
  · rw [fi3]
    obtain ⟨a', ea', -, afi', -⟩ := robotTask_spec (s.started 0)
      (hI.started 0 ne_03).idRobot (hI.started 0 ne_03).idEnd
    have : a' = a := Option.some.inj (ea'.symm.trans ea)
    subst this
    simp [afi']
  · rw [hIc.idEnd]
    simp [getStatus, slot_one, t3]
  · rw [hIc.idEnd]
    simp [getCurrentTime, slot_one, t3]

/-- Instance of C10 where the test matches: the state after the power-on `bootDemo` once the
clock shows 10:30 (`bootMatching`, reachable, schedule enabled for 10:30). There
`scheduleCleanTask` starts both tasks and sets `activeScheduledTask`: the journal `[2]` of the
power-on gains one invocation of the oscillation action, the oscillation task and the
end-of-cycle task are `PRET`, the latter with `currentTime = 0`. And the instance where it
does not match: right after the power-on (09:15) the state is returned unchanged. -/
theorem C10_scheduleCleanTask_witness :
    Reachable bootMatching ∧ Matches bootMatching ∧
    (∃ a b c, t_start (invoke (0 + 1)) bootMatching.env.idRobotTask bootMatching = some a ∧
        t_start (invoke (0 + 1)) a.env.idEndRobotTask a = some b ∧
        scheduleCleanTask (invoke (0 + 1)) bootMatching = some c ∧
        c.tabTask = b.tabTask ∧ c.tabLastStatusTask = b.tabLastStatusTask ∧
        c.fired = b.fired ∧ c.env.activeScheduledTask = true ∧
        c.fired = bootMatching.fired ++ [0] ∧
        getStatus c.env.idEndRobotTask c = some PRET ∧
        getCurrentTime c.env.idEndRobotTask c = some 0) ∧
    (scheduleCleanTask (invoke (0 + 1)) bootMatching).map
        (fun c => (c.env.activeScheduledTask, c.fired, (c.tabTask 0).status,
          (c.tabTask 1).status, (c.tabTask 1).currentTime, c.env.currentCycle)) =
      some (true, [2, 0], PRET, PRET, 0, 1) ∧
    bootMatching.env.activeScheduledTask = false ∧
    ¬ Matches bootState ∧ scheduleCleanTask (invoke 0) bootState = some bootState :=
  ⟨Reachable.clock _ bootState bootState_reachable, by decide,
    (C10_scheduleCleanTask 0 bootMatching
      (Reachable.clock _ bootState bootState_reachable)).1 (by decide),
    by decide, by decide, by decide,
    (C10_scheduleCleanTask 0 bootState bootState_reachable).2 (by decide)⟩

theorem idle_iff (s : St) (hI : Inv s) :
    Idle s ↔ ((s.tabTask 0).status = CREE ∧ (s.tabTask 0).currentTime = 0 ∧
      (s.tabTask 1).status = CREE ∧ (s.tabTask 1).currentTime = 0 ∧
      s.env.currentCycle = 0 ∧ s.env.pinForward = true ∧ s.env.pinReturn = true) := by
  unfold Idle
  rw [hI.idRobot, hI.idEnd]
  simp [getStatus, getCurrentTime, slot_zero, slot_one]

theorem rearmed_of_ne (s : St) (i : Fin MAX_TASK) (h : (s.tabTask i).status ≠ EXEC) :
    s.rearmed i = s := by
  simp [Sys.rearmed, h]

theorem rearmed_timer (s : St) (i : Fin MAX_TASK) (h : (s.tabTask i).status = EXEC)
    (hb : (s.tabTask i).timerTask = true) :
    s.rearmed i = s.setTask i { s.tabTask i with status := PRET, currentTime := 0 } := by
  simp [Sys.rearmed, h, hb]

theorem osc_body (d : Nat) (s : St) (hI : Inv s) :
    ∃ s1, scheduleTask (invoke (d + 1)) 0 s = some s1 ∧ Inv s1 ∧ Frame s s1 ∧
      ((s.tabTask 0).status ≠ PRET → s1 = s) ∧
      ((s.tabTask 0).status = PRET →
        ((s.tabTask 0).currentTime + 1) % UINT ≠ (s.tabTask 0).startTime →
        s1.fired = s.fired ∧ s1.env = s.env ∧ s1.tabTask 1 = s.tabTask 1 ∧
        (s1.tabTask 0).status = PRET) ∧
      ((s.tabTask 0).status = PRET →
        ((s.tabTask 0).currentTime + 1) % UINT = (s.tabTask 0).startTime →
        s1.fired = s.fired ++ [0] ∧
        (s.env.nbCycles ≤ s.env.currentCycle + 1 → Idle s1) ∧
        (s.env.currentCycle + 1 < s.env.nbCycles →
          (s1.tabTask 0).status = PRET ∧ (s1.tabTask 0).currentTime = 0 ∧
          s1.tabTask 1 = s.tabTask 1 ∧ s1.env.currentCycle = s.env.currentCycle + 1)) := by
  by_cases hr : (s.tabTask 0).status = PRET
  · by_cases hd : ((s.tabTask 0).currentTime + 1) % UINT = (s.tabTask 0).startTime
    · have hIe : Inv (s.entered 0) := hI.entered 0 ne_03
      obtain ⟨a, ea, fa, afi, -, -, -, -, hend, hcont⟩ :=
        robotTask_spec (s.entered 0) hIe.idRobot hIe.idEnd
      have hIa : Inv a := hIe.frame fa
      have hc : invoke (d + 1) (s.tabTask 0).fonc (s.entered 0) = some a := by
        rw [hI.fonc0]; exact ea
      have hfe : Frame s (s.entered 0) := by
        have := setTask0_frame s EXEC (((s.tabTask 0).currentTime + 1) % UINT)
        exact ⟨this.1, this.2, this.3, this.4, this.5, this.6, this.7, this.8, this.9,
          this.10, this.11, this.12, this.13, this.14, this.15, this.16, this.17, this.18,
          this.19, this.20⟩
      have hfr : Frame a (a.rearmed 0) := by
        unfold Sys.rearmed
        split_ifs
        · exact setTask0_frame a CREE _
        · exact setTask0_frame a PRET 0
        · exact Frame.refl a
      refine ⟨a.rearmed 0, scheduleTask_due _ 0 s a hr hd hc, hIa.rearmed 0 ne_03,
        (hfe.trans fa).trans hfr, fun h => absurd hr h, fun _ h => absurd hd h, fun _ _ => ?_⟩
      have hen : (s.entered 0).env = s.env := rfl
      refine ⟨?_, ?_, ?_⟩
      · have : (a.rearmed 0).fired = a.fired := by
          unfold Sys.rearmed
          split_ifs <;> rfl
        rw [this, afi]; rfl
      · intro he
        obtain ⟨c1, c2, c3, c4, c5, c6, c7, -⟩ := hend (by rw [hen]; exact he)
        rw [rearmed_of_ne a 0 (by rw [c1]; decide)]
        exact (idle_iff a hIa).mpr ⟨c1, c2, c3, c4, c5, c6, c7⟩
      · intro he
        obtain ⟨c1, c2, c3, c4, -⟩ := hcont (by rw [hen]; exact he)
        have hst : (a.tabTask 0).status = EXEC := by rw [c1]; simp
        rw [rearmed_timer a 0 hst hIa.timer0]
        refine ⟨by simp, by simp, ?_, ?_⟩
        · rw [setTask_tabTask, Function.update_noteq ne_10, c3]
          simp [Function.update_noteq ne_10]
        · rw [setTask_env, c4, hen]
    · refine ⟨_, scheduleTask_counting _ 0 s hr hd, ?_, ?_, fun h => absurd hr h,
        fun _ _ => ⟨rfl, rfl, by simp [Function.update_noteq ne_10], by simpa using hr⟩,
        fun _ h => absurd h hd⟩
      · have := hI.setTask 0 ne_03 PRET (((s.tabTask 0).currentTime + 1) % UINT)
        rw [← hr] at this
        exact this
      · have := setTask0_frame s PRET (((s.tabTask 0).currentTime + 1) % UINT)
        rw [← hr] at this
        exact this
  · exact ⟨s, scheduleTask_idle _ 0 s hr, hI, Frame.refl s, fun _ => rfl,
      fun h => absurd h hr, fun h => absurd h hr⟩

theorem end_body (call : Fonc → St → Option St)
    (hcall : ∀ x, call Fonc.robotEndTask x = robotEndTask x) (s : St) (hI : Inv s) :
    ∃ s1, scheduleTask call 1 s = some s1 ∧ Inv s1 ∧ Frame s s1 ∧
      ((s.tabTask 1).status ≠ PRET → s1 = s) ∧
      ((s.tabTask 1).status = PRET →
        ((s.tabTask 1).currentTime + 1) % UINT ≠ (s.tabTask 1).startTime →
        s1 = s.setTask 1
          { s.tabTask 1 with currentTime := ((s.tabTask 1).currentTime + 1) % UINT }) ∧
      ((s.tabTask 1).status = PRET →
        ((s.tabTask 1).currentTime + 1) % UINT = (s.tabTask 1).startTime →
        s1.fired = s.fired ++ [1] ∧ Idle s1) := by
  by_cases hr : (s.tabTask 1).status = PRET
  · by_cases hd : ((s.tabTask 1).currentTime + 1) % UINT = (s.tabTask 1).startTime
    · have hIe : Inv (s.entered 1) := hI.entered 1 ne_13
      obtain ⟨a, ea, fa, afi, c1, c2, -, c3, c4, c5, c6, c7, -⟩ :=
        robotEndTask_spec (s.entered 1) hIe.idRobot hIe.idEnd
      have hIa : Inv a := hIe.frame fa
      have hc : call (s.tabTask 1).fonc (s.entered 1) = some a := by
        rw [hI.fonc1, hcall]; exact ea
      have hfe : Frame s (s.entered 1) := by
        have := setTask1_frame s EXEC (((s.tabTask 1).currentTime + 1) % UINT)
        exact ⟨this.1, this.2, this.3, this.4, this.5, this.6, this.7, this.8, this.9,
          this.10, this.11, this.12, this.13, this.14, this.15, this.16, this.17, this.18,
          this.19, this.20⟩
      have hre : a.rearmed 1 = a := rearmed_of_ne a 1 (by rw [c3]; decide)
      refine ⟨a, ?_, hIa, hfe.trans fa, fun h => absurd hr h, fun _ h => absurd hd h,
        fun _ _ => ⟨by rw [afi]; rfl, (idle_iff a hIa).mpr ⟨c1, c2, c3, c4, c5, c6, c7⟩⟩⟩
      rw [scheduleTask_due call 1 s a hr hd hc, hre]
    · refine ⟨_, scheduleTask_counting _ 1 s hr hd, ?_, ?_, fun h => absurd hr h,
        fun _ _ => rfl, fun _ h => absurd h hd⟩
      · have := hI.setTask 1 ne_13 PRET (((s.tabTask 1).currentTime + 1) % UINT)
        rw [← hr] at this
        exact this
      · have := setTask1_frame s PRET (((s.tabTask 1).currentTime + 1) % UINT)
        rw [← hr] at this
        exact this
  · exact ⟨s, scheduleTask_idle _ 1 s hr, hI, Frame.refl s, fun _ => rfl,
      fun h => absurd h hr, fun h => absurd h hr⟩

theorem count_append_two (l : List (Fin MAX_TASK)) :
    (l ++ [2]).count 0 = l.count 0 ∧ (l ++ [2]).count 1 = l.count 1 := by
  constructor <;> simp [List.count_append]

theorem trigger_body (d : Nat) (s : St) (hI : Inv s) (hm : ¬ Matches s) :
    ∃ s1, scheduleTask (invoke (d + 1)) 2 s = some s1 ∧ Inv s1 ∧ s1.env = s.env ∧
      s1.tabTask 0 = s.tabTask 0 ∧ s1.tabTask 1 = s.tabTask 1 ∧
      s1.tabLastStatusTask = s.tabLastStatusTask ∧
      s1.fired.count 0 = s.fired.count 0 ∧ s1.fired.count 1 = s.fired.count 1 := by
  by_cases hr : (s.tabTask 2).status = PRET
  · by_cases hd : ((s.tabTask 2).currentTime + 1) % UINT = (s.tabTask 2).startTime
    · have hIe : Inv (s.entered 2) := hI.entered 2 ne_23
      have hme : ¬ Matches (s.entered 2) := hm
      have hc : invoke (d + 1) (s.tabTask 2).fonc (s.entered 2) = some (s.entered 2) := by
        rw [hI.fonc2]
        exact scheduleCleanTask_idle (invoke d) (s.entered 2) hme
      have hst : ((s.entered 2).tabTask 2).status = EXEC := by simp
      have hre := rearmed_timer (s.entered 2) 2 hst hIe.timer2
      refine ⟨_, scheduleTask_due _ 2 s _ hr hd hc, hIe.rearmed 2 ne_23, ?_, ?_, ?_, ?_, ?_, ?_⟩
      · rw [hre]; rfl
      · rw [hre]; simp [Function.update_noteq ne_02]
      · rw [hre]; simp [Function.update_noteq ne_12]
      · rw [hre]; rfl
      · rw [hre]; exact (count_append_two s.fired).1
      · rw [hre]; exact (count_append_two s.fired).2
    · refine ⟨_, scheduleTask_counting _ 2 s hr hd, ?_, rfl, ?_, ?_, rfl, rfl, rfl⟩
      · have := hI.setTask 2 ne_23 PRET (((s.tabTask 2).currentTime + 1) % UINT)
        rw [← hr] at this
        exact this
      · simp [Function.update_noteq ne_02]
      · simp [Function.update_noteq ne_12]
  · exact ⟨s, scheduleTask_idle _ 2 s hr, hI, rfl, rfl, rfl, rfl, rfl, rfl⟩

theorem free_body (call : Fonc → St → Option St) (s : St) (hI : Inv s) :
    scheduleTask call 3 s = some s :=
  scheduleTask_idle call 3 s (by rw [hI.free3]; decide)

theorem tick_eq (depth : Nat) (s : St) :
    tick depth s =
      (scheduleTask (invoke depth) 0 s).bind fun a =>
        (scheduleTask (invoke depth) 1 a).bind fun b =>
          (scheduleTask (invoke depth) 2 b).bind fun c => scheduleTask (invoke depth) 3 c := by
  simp only [tick, schedule, finRange_four, List.foldlM_cons, List.foldlM_nil,
    Option.bind_eq_bind, Option.pure_def, Option.bind_assoc]
  congr 1; funext a; congr 1; funext b; congr 1; funext c
  simp

theorem matches_of_frame {s s1 : St} (hf : Frame s s1) : Matches s1 ↔ Matches s := by
  unfold Matches
  rw [hf.scheduleEnabled, hf.scheduleM, hf.scheduleH, hf.minutes, hf.hours]

theorem mod_succ_mod (k : Nat) : (k % UINT + 1) % UINT = (k + 1) % UINT :=
  Nat.mod_add_mod k UINT 1

theorem idle_congr (s s1 : St) (hI : Inv s) (hI1 : Inv s1) (he : s1.env = s.env)
    (h0 : s1.tabTask 0 = s.tabTask 0) (h1 : s1.tabTask 1 = s.tabTask 1) :
    Idle s1 ↔ Idle s := by
  rw [idle_iff s hI, idle_iff s1 hI1, he, h0, h1]

theorem tick_split (d : Nat) (s : St) (hI : Inv s) (hm : ¬ Matches s) :
    ∃ a b s1, scheduleTask (invoke (d + 1)) 0 s = some a ∧
      scheduleTask (invoke (d + 1)) 1 a = some b ∧ tick (d + 1) s = some s1 ∧
      Inv a ∧ Inv b ∧ Inv s1 ∧ Frame s a ∧ Frame a b ∧
      s1.env = b.env ∧ s1.tabTask 0 = b.tabTask 0 ∧ s1.tabTask 1 = b.tabTask 1 ∧
      s1.tabLastStatusTask = b.tabLastStatusTask ∧
      s1.fired.count 0 = b.fired.count 0 ∧ s1.fired.count 1 = b.fired.count 1 := by
  obtain ⟨a, ea, hIa, fa, -⟩ := osc_body d s hI
  obtain ⟨b, eb, hIb, fb, -⟩ := end_body (invoke (d + 1)) (fun _ => rfl) a hIa
  have hmb : ¬ Matches b := fun h => hm ((matches_of_frame (fa.trans fb)).mp h)
  obtain ⟨c, ec, hIc, c1, c2, c3, c4, c5, c6⟩ := trigger_body d b hIb hmb
  refine ⟨a, b, c, ea, eb, ?_, hIa, hIb, hIc, fa, fb, c1, c2, c3, c4, c5, c6⟩
  rw [tick_eq, ea, Option.some_bind, eb, Option.some_bind, ec, Option.some_bind]
  exact free_body _ c hIc

theorem setReading_inv (r : Reading) (s : St) (hI : Inv s) : Inv (setReading r s) :=
  hI.upd _ rfl rfl rfl rfl

theorem setReading_idle (r : Reading) (s : St) : Idle (setReading r s) ↔ Idle s := Iff.rfl

theorem matches_setReading (r : Reading) (s s1 : St)
    (h1 : s1.env.scheduleEnabled = s.env.scheduleEnabled)
    (h2 : s1.env.scheduleM = s.env.scheduleM) (h3 : s1.env.scheduleH = s.env.scheduleH) :
    Matches (setReading r s1) ↔ Matches (setReading r s) := by
  unfold Matches setReading
  simp only [upd_env, h1, h2, h3]

/-- One tick of a cycle whose end-of-cycle task is armed: afterwards the controller is idle,
or the end-of-cycle task is still armed, has counted one more tick and has not reached its
interval. An idle controller stays idle. -/
theorem tick_limit (d : Nat) (s : St) (hI : Inv s) (hm : ¬ Matches s) :
    ∃ s1, tick (d + 1) s = some s1 ∧ Inv s1 ∧
      s1.env.scheduleEnabled = s.env.scheduleEnabled ∧ s1.env.scheduleM = s.env.scheduleM ∧
      s1.env.scheduleH = s.env.scheduleH ∧
      (s1.tabTask 1).startTime = (s.tabTask 1).startTime ∧
      (Idle s → Idle s1) ∧
      ((s.tabTask 1).status = PRET →
        Idle s1 ∨ ((s1.tabTask 1).status = PRET ∧
          (s1.tabTask 1).currentTime = ((s.tabTask 1).currentTime + 1) % UINT ∧
          ((s.tabTask 1).currentTime + 1) % UINT ≠ (s.tabTask 1).startTime)) := by
  obtain ⟨a, b, s1, ea, eb, e1, hIa, hIb, hI1, fa, fb, c1, c2, c3, -, -, -⟩ :=
    tick_split d s hI hm
  have hib : Idle s1 ↔ Idle b := idle_congr b s1 hIb hI1 c1 c2 c3
  obtain ⟨a', ea', -, -, o1, o2, o3⟩ := osc_body d s hI
  have : a' = a := Option.some.inj (ea'.symm.trans ea)
  subst this
  obtain ⟨b', eb', -, -, n1, n2, n3⟩ := end_body (invoke (d + 1)) (fun _ => rfl) a' hIa
  have : b' = b := Option.some.inj (eb'.symm.trans eb)
  subst this
  refine ⟨s1, e1, hI1, ?_, ?_, ?_, ?_, ?_, ?_⟩
  · rw [c1, fb.scheduleEnabled, fa.scheduleEnabled]
  · rw [c1, fb.scheduleM, fa.scheduleM]
  · rw [c1, fb.scheduleH, fa.scheduleH]
  · rw [c3, fb.start1, fa.start1]
  · intro hid
    have hid' := (idle_iff s hI).mp hid
    have ha : a' = s := o1 (by rw [hid'.1]; decide)
    subst ha
    have hb : b' = a' := n1 (by rw [hid'.2.2.1]; decide)
    subst hb
    exact hib.mpr hid
  · intro h1
    -- the oscillation slot: either the cycle ends, or the end-of-cycle task is untouched
    have hosc : Idle a' ∨ a'.tabTask 1 = s.tabTask 1 := by
      by_cases hr : (s.tabTask 0).status = PRET
      · by_cases hd : ((s.tabTask 0).currentTime + 1) % UINT = (s.tabTask 0).startTime
        · obtain ⟨-, p1, p2⟩ := o3 hr hd
          by_cases he : s.env.nbCycles ≤ s.env.currentCycle + 1
          · exact Or.inl (p1 he)
          · exact Or.inr (p2 (by omega)).2.2.1
        · exact Or.inr (o2 hr hd).2.2.1
      · rw [o1 hr]; exact Or.inr rfl
    rcases hosc with hida | hsame
    · left
      have hida' := (idle_iff a' hIa).mp hida
      have hb : b' = a' := n1 (by rw [hida'.2.2.1]; decide)
      subst hb
      exact hib.mpr hida
    · have h1a : (a'.tabTask 1).status = PRET := by rw [hsame]; exact h1
      by_cases hd : ((a'.tabTask 1).currentTime + 1) % UINT = (a'.tabTask 1).startTime
      · left
        exact hib.mpr (n3 h1a hd).2
      · right
        have hb := n2 h1a hd
        refine ⟨?_, ?_, ?_⟩
        · rw [c3, hb]; simpa using h1a
        · rw [c3, hb, ← hsame]; simp
        · rw [← hsame]; exact hd

theorem run_limit (d : Nat) (rs : List Reading) :
    ∀ (k : Nat) (s : St), Inv s → (∀ r ∈ rs, ¬ Matches (setReading r s)) →
      (Idle s ∨ ((s.tabTask 1).status = PRET ∧ (s.tabTask 1).currentTime = k % UINT ∧
        ∀ j, 1 ≤ j → j ≤ k → j % UINT ≠ (s.tabTask 1).startTime)) →
      ∃ s1, runTicks (d + 1) rs s = some s1 ∧ Inv s1 ∧
        (s1.tabTask 1).startTime = (s.tabTask 1).startTime ∧
        (Idle s1 ∨ ((s1.tabTask 1).status = PRET ∧
          (s1.tabTask 1).currentTime = (k + rs.length) % UINT ∧
          ∀ j, 1 ≤ j → j ≤ k + rs.length → j % UINT ≠ (s1.tabTask 1).startTime)) := by
  induction rs with
  | nil =>
    intro k s hI _ h
    exact ⟨s, rfl, hI, rfl, h⟩
  | cons r rs ih =>
    intro k s hI hno h
    have hIr : Inv (setReading r s) := setReading_inv r s hI
    have hmr : ¬ Matches (setReading r s) := hno r (List.mem_cons_self _ _)
    obtain ⟨s1, e1, hI1, g1, g2, g3, g4, g5, g6⟩ := tick_limit d (setReading r s) hIr hmr
    have hno1 : ∀ x ∈ rs, ¬ Matches (setReading x s1) := by
      intro x hx hc
      exact hno x (List.mem_cons_of_mem _ hx)
        ((matches_setReading x s s1 g1 g2 g3).mp hc)
    have hstart : (s1.tabTask 1).startTime = (s.tabTask 1).startTime := g4
    have hnext : Idle s1 ∨ ((s1.tabTask 1).status = PRET ∧
        (s1.tabTask 1).currentTime = (k + 1) % UINT ∧
        ∀ j, 1 ≤ j → j ≤ k + 1 → j % UINT ≠ (s1.tabTask 1).startTime) := by
      rcases h with hid | ⟨hp, hc, hall⟩
      · exact Or.inl (g5 hid)
      · rcases g6 hp with hid | ⟨q1, q2, q3⟩
        · exact Or.inl hid
        · right
          have hct : ((setReading r s).tabTask 1).currentTime = k % UINT := hc
          have hst : ((setReading r s).tabTask 1).startTime = (s.tabTask 1).startTime := rfl
          rw [hct, mod_succ_mod k] at q2 q3
          refine ⟨q1, q2, fun j hj1 hj2 => ?_⟩
          rw [hstart]
          by_cases hjk : j ≤ k
          · exact hall j hj1 hjk
          · have : j = k + 1 := by omega
            subst this
            rw [hst] at q3
            exact q3
    obtain ⟨s2, e2, hI2, t2, h2⟩ := ih (k + 1) s1 hI1 hno1 hnext
    refine ⟨s2, ?_, hI2, t2.trans hstart, ?_⟩
    · simp only [runTicks, e1, Option.some_bind]
      exact e2
    · have hl : k + (r :: rs).length = k + 1 + rs.length := by
        simp only [List.length_cons]; omega
      rw [hl]
      exact h2

theorem start_spec (d : Nat) (s0 : St) (hI : Inv s0) :
    ∃ a, robotTask (s0.started 0) = some a ∧
      t_start (invoke (d + 1)) s0.env.idRobotTask s0 = some a ∧
      PubSubCallback (invoke (d + 1)) Topic.TOPIC_START "ON".toList s0 =
        some (writeLogs "Start manual cycle".toList
          (a.setTask 1 { a.tabTask 1 with status := PRET, currentTime := 0 })) ∧
      Inv a ∧ Frame s0 a ∧
      Inv (writeLogs "Start manual cycle".toList
        (a.setTask 1 { a.tabTask 1 with status := PRET, currentTime := 0 })) ∧
      Frame s0 (writeLogs "Start manual cycle".toList
        (a.setTask 1 { a.tabTask 1 with status := PRET, currentTime := 0 })) := by
  have hI0 : Inv (s0.started 0) := hI.started 0 ne_03
  obtain ⟨a, ea, fa, -⟩ := robotTask_spec (s0.started 0) hI0.idRobot hI0.idEnd
  have hIa : Inv a := hI0.frame fa
  have e1 : t_start (invoke (d + 1)) s0.env.idRobotTask s0 = some a := by
    have := t_start_timer (invoke (d + 1)) 0 s0 hI.timer0
    rw [hI.idRobot]
    rw [show ((0 : Int)) = (((0 : Fin MAX_TASK).val : Nat) : Int) from rfl, this, hI.fonc0]
    exact ea
  have e2 : t_start (invoke (d + 1)) a.env.idEndRobotTask a =
      some (a.setTask 1 { a.tabTask 1 with status := PRET, currentTime := 0 }) := by
    have := t_start_one_shot (invoke (d + 1)) 1 a hIa.timer1
    rw [hIa.idEnd]
    rw [show ((1 : Int)) = (((1 : Fin MAX_TASK).val : Nat) : Int) from rfl, this]
  have fsa : Frame s0 a := (started_frame s0 0 ne_02 ne_03 ne_01).trans fa
  refine ⟨a, ea, e1, ?_, hIa, fsa, (hIa.setTask 1 ne_13 PRET 0).writeLogs _,
    (fsa.trans (setTask1_frame a PRET 0)).trans (writeLogs_frame _ _)⟩
  simp only [PubSubCallback, if_true, Option.bind_eq_bind, Option.pure_def, e1,
    Option.some_bind, e2]

theorem toUnsigned_natCast (n : Nat) : toUnsigned (n : Int) = n % UINT := by
  unfold toUnsigned
  have : ((n : Int) % ((UINT : Nat) : Int)) = ((n % UINT : Nat) : Int) := by
    rw [Int.natCast_mod]
  rw [this]
  exact Int.toNat_natCast _

/-- Claim C9. A cycle never outlasts its time limit. From any reachable state with
`activeTime ≥ 1` (whatever `nbCycles`, whatever the generator outputs), the start command
(`TOPIC_START` with payload `ON`) followed by `activeTime * 60` ticks during which the
scheduled-start test never matches (and no message arrives) returns, and leaves the
controller idle: oscillation task and end-of-cycle task `CREE` with `currentTime = 0`,
`currentCycle = 0`, both relays released. -/
theorem C9_time_limit (depth : Nat) (s0 : St) (hs : Reachable s0)
    (hact : 1 ≤ s0.env.activeTime) (rs : List Reading)
    (hlen : (rs.length : Int) = s0.env.activeTime * 60)
    (hno : ∀ r ∈ rs, ¬ Matches (setReading r s0)) :
    ∃ s, (PubSubCallback (invoke (depth + 1)) Topic.TOPIC_START "ON".toList s0).bind
        (runTicks (depth + 1) rs) = some s ∧ Idle s := by
  have hI := reachable_inv s0 hs
  obtain ⟨a, -, -, e, hIa, -, hIs, fs⟩ := start_spec depth s0 hI
  have hno1 : ∀ r ∈ rs, ¬ Matches (setReading r
      (writeLogs "Start manual cycle".toList
        (a.setTask 1 { a.tabTask 1 with status := PRET, currentTime := 0 }))) := by
    intro r hr hc
    exact hno r hr ((matches_setReading r s0 _ fs.scheduleEnabled fs.scheduleM
      fs.scheduleH).mp hc)
  obtain ⟨s, e1, hI1, t1, h1⟩ := run_limit depth rs 0
    (writeLogs "Start manual cycle".toList
      (a.setTask 1 { a.tabTask 1 with status := PRET, currentTime := 0 })) hIs hno1
    (Or.inr ⟨by simp [writeLogs], by simp [writeLogs],
      fun j hj1 hj0 => absurd hj1 (by omega)⟩)
  refine ⟨s, by rw [e, Option.some_bind]; exact e1, ?_⟩
  rcases h1 with hid | ⟨-, -, hall⟩
  · exact hid
  · exfalso
    have hT : (s.tabTask 1).startTime = rs.length % UINT := by
      rw [t1, fs.start1, hI.start1, ← hlen, toUnsigned_natCast]
    have hpos : 1 ≤ rs.length := by
      have : (1 : Int) ≤ (rs.length : Int) := by rw [hlen]; omega
      omega
    exact hall rs.length hpos (by omega) hT.symm

/-- Instance of C9: after the power-on `bootDemo` (`activeTime = 1`), the start command and
60 ticks at 09:16. -/
theorem C9_time_limit_witness :
    ∃ s, (PubSubCallback (invoke (0 + 1)) Topic.TOPIC_START "ON".toList bootState).bind
        (runTicks (0 + 1)
          (List.replicate 60
            { hours := 9, minutes := 16, date := "01/06/2025 09:16:00".toList,
              localIP := "192.168.1.20".toList })) = some s ∧ Idle s :=
  C9_time_limit 0 bootState bootState_reachable (by decide)
    (List.replicate 60
      { hours := 9, minutes := 16, date := "01/06/2025 09:16:00".toList,
        localIP := "192.168.1.20".toList })
    (by decide)
    (by
      intro r hr
      rw [List.eq_of_mem_replicate hr]
      decide)

theorem count_append_zero (l : List (Fin MAX_TASK)) : (l ++ [0]).count 0 = l.count 0 + 1 := by
  simp [List.count_append]

theorem osc_phase (d : Nat) (base n k : Nat) (s : St) (hI : Inv s)
    (hnb : s.env.nbCycles = (n : Int)) (hp : Phase base n k s) :
    ∃ a, scheduleTask (invoke (d + 1)) 0 s = some a ∧ Inv a ∧ Frame s a ∧
      Phase base n k a ∧
      (a.fired.count 0 = s.fired.count 0 + 1 → a.fired.count 0 = base + n → Idle a) := by
  obtain ⟨a, ea, hIa, fa, o1, o2, o3⟩ := osc_body d s hI
  refine ⟨a, ea, hIa, fa, ?_⟩
  rcases hp with ⟨c, hc1, hcn, h0, h1, hk, hcc, hcount⟩ | ⟨hid, hcount⟩ | ⟨h0, h1, hk, hcount⟩
  · by_cases hd : ((s.tabTask 0).currentTime + 1) % UINT = (s.tabTask 0).startTime
    · obtain ⟨p0, p1, p2⟩ := o3 h0 hd
      have hca : a.fired.count 0 = base + c + 1 := by
        rw [p0, count_append_zero, hcount]
      by_cases he : n ≤ c + 1
      · have hidle : Idle a := p1 (by rw [hnb, hcc]; omega)
        have hcn' : c + 1 = n := by omega
        exact ⟨Or.inr (Or.inl ⟨hidle, by rw [hca]; omega⟩), fun _ _ => hidle⟩
      · obtain ⟨q1, -, q3, q4⟩ := p2 (by rw [hnb, hcc]; omega)
        refine ⟨Or.inl ⟨c + 1, by omega, by omega, q1, by rw [q3]; exact h1,
          by rw [q3]; exact hk, by rw [q4, hcc]; push_cast; ring, by rw [hca]; ring⟩, ?_⟩
        intro _ hc
        omega
    · obtain ⟨p0, p1, p2, p3⟩ := o2 h0 hd
      refine ⟨Or.inl ⟨c, hc1, hcn, p3, by rw [p2]; exact h1, by rw [p2]; exact hk,
        by rw [p1]; exact hcc, by rw [p0]; exact hcount⟩, ?_⟩
      intro hc _
      rw [p0] at hc
      omega
  · have hid' := (idle_iff s hI).mp hid
    have : a = s := o1 (by rw [hid'.1]; decide)
    subst this
    exact ⟨Or.inr (Or.inl ⟨hid, hcount⟩), fun hc _ => absurd hc (by omega)⟩
  · have : a = s := o1 (by rw [h0]; decide)
    subst this
    exact ⟨Or.inr (Or.inr ⟨h0, h1, hk, hcount⟩), fun hc _ => absurd hc (by omega)⟩

theorem end_phase (d : Nat) (base n k : Nat) (s : St) (hI : Inv s)
    (hlim : k + 1 < (s.tabTask 1).startTime) (hT : (s.tabTask 1).startTime < UINT)
    (hp : Phase base n k s) :
    ∃ b, scheduleTask (invoke (d + 1)) 1 s = some b ∧ Inv b ∧ Frame s b ∧
      Phase base n (k + 1) b ∧ b.fired.count 0 = s.fired.count 0 ∧ (Idle s → Idle b) := by
  obtain ⟨b, eb, hIb, fb, n1, n2, -⟩ := end_body (invoke (d + 1)) (fun _ => rfl) s hI
  refine ⟨b, eb, hIb, fb, ?_⟩
  have hcounting : (s.tabTask 1).status = PRET → (s.tabTask 1).currentTime = k →
      b = s.setTask 1 { s.tabTask 1 with currentTime := k + 1 } := by
    intro h1 hk
    have hm : ((s.tabTask 1).currentTime + 1) % UINT = k + 1 := by
      rw [hk]; exact Nat.mod_eq_of_lt (by omega)
    have := n2 h1 (by rw [hm]; omega)
    rw [hm] at this
    exact this
  rcases hp with ⟨c, hc1, hcn, h0, h1, hk, hcc, hcount⟩ | ⟨hid, hcount⟩ | ⟨h0, h1, hk, hcount⟩
  · have hb := hcounting h1 hk
    subst hb
    refine ⟨Or.inl ⟨c, hc1, hcn, ?_, ?_, ?_, hcc, hcount⟩, rfl, ?_⟩
    · simpa [Function.update_noteq ne_01] using h0
    · simpa using h1
    · simp
    · intro hid
      have := (idle_iff s hI).mp hid
      rw [this.2.2.1] at h1
      exact absurd h1 (by decide)
  · have hid' := (idle_iff s hI).mp hid
    have : b = s := n1 (by rw [hid'.2.2.1]; decide)
    subst this
    exact ⟨Or.inr (Or.inl ⟨hid, hcount⟩), rfl, fun h => h⟩
  · have hb := hcounting h1 hk
    subst hb
    refine ⟨Or.inr (Or.inr ⟨?_, ?_, ?_, hcount⟩), rfl, ?_⟩
    · simpa [Function.update_noteq ne_01] using h0
    · simpa using h1
    · simp
    · intro hid
      have := (idle_iff s hI).mp hid
      rw [this.2.2.1] at h1
      exact absurd h1 (by decide)

theorem phase_congr (base n k : Nat) (s s1 : St) (hI : Inv s) (hI1 : Inv s1)
    (he : s1.env = s.env) (h0 : s1.tabTask 0 = s.tabTask 0) (h1 : s1.tabTask 1 = s.tabTask 1)
    (hc : s1.fired.count 0 = s.fired.count 0) (hp : Phase base n k s) : Phase base n k s1 := by
  unfold Phase at hp ⊢
  rw [h0, h1, he, hc, idle_congr s s1 hI hI1 he h0 h1]
  exact hp

theorem tick_phase (d : Nat) (base n k : Nat) (s : St) (hI : Inv s) (hm : ¬ Matches s)
    (hnb : s.env.nbCycles = (n : Int)) (hlim : k + 1 < (s.tabTask 1).startTime)
    (hT : (s.tabTask 1).startTime < UINT) (hp : Phase base n k s) :
    ∃ s1, tick (d + 1) s = some s1 ∧ Inv s1 ∧ s1.env.nbCycles = (n : Int) ∧
      (s1.tabTask 1).startTime = (s.tabTask 1).startTime ∧
      s1.env.scheduleEnabled = s.env.scheduleEnabled ∧ s1.env.scheduleM = s.env.scheduleM ∧
      s1.env.scheduleH = s.env.scheduleH ∧
      Phase base n (k + 1) s1 ∧
      (s1.fired.count 0 = s.fired.count 0 + 1 → s1.fired.count 0 = base + n → Idle s1) := by
  obtain ⟨a, ea, hIa, fa, pa, ida⟩ := osc_phase d base n k s hI hnb hp
  obtain ⟨b, eb, hIb, fb, pb, cb, idb⟩ := end_phase d base n k a hIa
    (by rw [fa.start1]; exact hlim) (by rw [fa.start1]; exact hT) pa
  obtain ⟨a', b', s1, ea', eb', e1, -, -, hI1, -, -, c1, c2, c3, -, c5, -⟩ :=
    tick_split d s hI hm
  have : a' = a := Option.some.inj (ea'.symm.trans ea)
  subst this
  have : b' = b := Option.some.inj (eb'.symm.trans eb)
  subst this
  refine ⟨s1, e1, hI1, ?_, ?_, ?_, ?_, ?_, ?_, ?_⟩
  · rw [c1, fb.nbCycles, fa.nbCycles]; exact hnb
  · rw [c3, fb.start1, fa.start1]
  · rw [c1, fb.scheduleEnabled, fa.scheduleEnabled]
  · rw [c1, fb.scheduleM, fa.scheduleM]
  · rw [c1, fb.scheduleH, fa.scheduleH]
  · exact phase_congr base n (k + 1) b' s1 hIb hI1 c1 c2 c3 c5 pb
  · intro h1 h2
    rw [c5, cb] at h1 h2
    exact (idle_congr b' s1 hIb hI1 c1 c2 c3).mpr (idb (ida h1 h2))

theorem run_phase (d : Nat) (base n : Nat) (rs : List Reading) :
    ∀ (k : Nat) (s : St), Inv s → (∀ r ∈ rs, ¬ Matches (setReading r s)) →
      s.env.nbCycles = (n : Int) → k + rs.length < (s.tabTask 1).startTime →
      (s.tabTask 1).startTime < UINT → Phase base n k s →
      ∃ s1, runTicks (d + 1) rs s = some s1 ∧ Inv s1 ∧ s1.env.nbCycles = (n : Int) ∧
        (s1.tabTask 1).startTime = (s.tabTask 1).startTime ∧
        s1.env.scheduleEnabled = s.env.scheduleEnabled ∧
        s1.env.scheduleM = s.env.scheduleM ∧ s1.env.scheduleH = s.env.scheduleH ∧
        Phase base n (k + rs.length) s1 := by
  induction rs with
  | nil =>
    intro k s hI _ hnb _ _ hp
    exact ⟨s, rfl, hI, hnb, rfl, rfl, rfl, rfl, hp⟩
  | cons r rs ih =>
    intro k s hI hno hnb hlim hT hp
    have hIr : Inv (setReading r s) := setReading_inv r s hI
    have hmr : ¬ Matches (setReading r s) := hno r (List.mem_cons_self _ _)
    have hlen : (r :: rs).length = rs.length + 1 := List.length_cons _ _
    obtain ⟨s1, e1, hI1, g0, g4, g1, g2, g3, g5, -⟩ :=
      tick_phase d base n k (setReading r s) hIr hmr hnb
        (by show k + 1 < (s.tabTask 1).startTime; omega) hT hp
    have g4' : (s1.tabTask 1).startTime = (s.tabTask 1).startTime := g4
    have hno1 : ∀ x ∈ rs, ¬ Matches (setReading x s1) := by
      intro x hx hc
      exact hno x (List.mem_cons_of_mem _ hx)
        ((matches_setReading x s s1 g1 g2 g3).mp hc)
    obtain ⟨s2, e2, hI2, t0, t4, t1, t2, t3, t5⟩ := ih (k + 1) s1 hI1 hno1 g0
      (by rw [g4']; omega) (by rw [g4']; exact hT) g5
    refine ⟨s2, ?_, hI2, t0, t4.trans g4', t1.trans g1, t2.trans g2, t3.trans g3, ?_⟩
    · simp only [runTicks, e1, Option.some_bind]
      exact e2
    · have hl : k + (r :: rs).length = k + 1 + rs.length := by omega
      rw [hl]
      exact t5

theorem start_phase (d n : Nat) (s0 : St) (hI : Inv s0) (hidle : Idle s0)
    (hnb : s0.env.nbCycles = (n : Int)) (hn : 1 ≤ n) :
    ∃ a, t_start (invoke (d + 1)) s0.env.idRobotTask s0 = some a ∧
      PubSubCallback (invoke (d + 1)) Topic.TOPIC_START "ON".toList s0 =
        some (writeLogs "Start manual cycle".toList
          (a.setTask 1 { a.tabTask 1 with status := PRET, currentTime := 0 })) ∧
      Inv (writeLogs "Start manual cycle".toList
        (a.setTask 1 { a.tabTask 1 with status := PRET, currentTime := 0 })) ∧
      Frame s0 (writeLogs "Start manual cycle".toList
        (a.setTask 1 { a.tabTask 1 with status := PRET, currentTime := 0 })) ∧
      a.fired.count 0 = s0.fired.count 0 + 1 ∧ (n = 1 → Idle a) ∧
      Phase (s0.fired.count 0) n 0 (writeLogs "Start manual cycle".toList
        (a.setTask 1 { a.tabTask 1 with status := PRET, currentTime := 0 })) := by
  obtain ⟨a, ea, e1, e2, hIa, -, hIs, fs⟩ := start_spec d s0 hI
  have hI0 : Inv (s0.started 0) := hI.started 0 ne_03
  obtain ⟨a', ea', -, afi, -, -, -, -, hend, hcont⟩ :=
    robotTask_spec (s0.started 0) hI0.idRobot hI0.idEnd
  have : a' = a := Option.some.inj (ea'.symm.trans ea)
  subst this
  have hid := (idle_iff s0 hI).mp hidle
  have hcc : (s0.started 0).env.currentCycle = 0 := hid.2.2.2.2.1
  have hnb' : (s0.started 0).env.nbCycles = (n : Int) := hnb
  have hcount : a'.fired.count 0 = s0.fired.count 0 + 1 := by
    rw [afi]; exact count_append_zero s0.fired
  refine ⟨a', e1, e2, hIs, fs, hcount, ?_, ?_⟩
  · intro h1
    obtain ⟨c1, c2, c3, c4, c5, c6, c7, -⟩ := hend (by rw [hnb', hcc, h1]; decide)
    exact (idle_iff a' hIa).mpr ⟨c1, c2, c3, c4, c5, c6, c7⟩
  · by_cases h1 : n = 1
    · obtain ⟨c1, -⟩ := hend (by rw [hnb', hcc, h1]; decide)
      refine Or.inr (Or.inr ⟨?_, ?_, ?_, ?_⟩)
      · simpa [writeLogs, Function.update_noteq ne_01] using c1
      · simp [writeLogs]
      · simp [writeLogs]
      · simp only [writeLogs, upd_fired, setTask_fired, hcount, h1]
    · obtain ⟨c1, -, -, c4, -⟩ := hcont (by rw [hnb', hcc]; omega)
      refine Or.inl ⟨1, le_refl 1, by omega, ?_, ?_, ?_, ?_, ?_⟩
      · simp only [writeLogs, upd_tabTask, setTask_tabTask, Function.update_noteq ne_01, c1]
        simp
      · simp [writeLogs]
      · simp [writeLogs]
      · simp only [writeLogs, upd_env, setTask_env, c4, hcc]
        rfl
      · simp only [writeLogs, upd_fired, setTask_fired, hcount]

/-- Claim C7. Let the controller be idle in a reachable state, with `nbCycles = n ≥ 1`. The
start command makes the first firing of `robotTask` (inside `t_start`); ticks follow, with
no message, the scheduled-start test never matching, and fewer ticks than the interval of
the end-of-cycle task (time limit not reached). Then: (1) `t_start` on the oscillation task
returns with one firing journalled, and when `n = 1` the state it returns is idle; (2) the
start command followed by the ticks `rs` returns a state `s` in which at most `n` firings
have occurred and, as long as fewer than `n` have, `currentCycle` is their number; (3) in
the next tick, if the loop body of `schedule` for the oscillation task performs the `n`-th
firing, the state right after that loop body is idle (oscillation task and end-of-cycle task
`CREE` with `currentTime = 0`, `currentCycle = 0`, relays released), and (4) so is the
state when that tick returns: the recurring oscillation task has not been re-armed. -/
theorem C7_cycle_count (depth n : Nat) (hn : 1 ≤ n) (s0 : St) (hs : Reachable s0)
    (hidle : Idle s0) (hnb : s0.env.nbCycles = (n : Int)) (rs : List Reading) (r : Reading)
    (hno : ∀ x ∈ r :: rs, ¬ Matches (setReading x s0))
    (hlim : rs.length + 1 < (s0.tabTask 1).startTime) :
    ∃ a, t_start (invoke (depth + 1)) s0.env.idRobotTask s0 = some a ∧
      a.fired.count 0 = s0.fired.count 0 + 1 ∧ (n = 1 → Idle a) ∧
      ∃ s, (PubSubCallback (invoke (depth + 1)) Topic.TOPIC_START "ON".toList s0).bind
          (runTicks (depth + 1) rs) = some s ∧
        s.fired.count 0 ≤ s0.fired.count 0 + n ∧
        (s.fired.count 0 < s0.fired.count 0 + n →
          s.env.currentCycle = ((s.fired.count 0 - s0.fired.count 0 : Nat) : Int)) ∧
        (∃ b, scheduleTask (invoke (depth + 1)) 0 (setReading r s) = some b ∧
          (b.fired.count 0 = s.fired.count 0 + 1 →
            b.fired.count 0 = s0.fired.count 0 + n → Idle b)) ∧
        ∃ s1, tick (depth + 1) (setReading r s) = some s1 ∧
          (s1.fired.count 0 = s.fired.count 0 + 1 →
            s1.fired.count 0 = s0.fired.count 0 + n → Idle s1) := by
  have hI := reachable_inv s0 hs
  have hT : (s0.tabTask 1).startTime < UINT := by
    rw [hI.start1]
    unfold toUnsigned
    have h1 : (0 : Int) ≤ (s0.env.activeTime * 60) % ((UINT : Nat) : Int) :=
      Int.emod_nonneg _ (by decide)
    have h2 : (s0.env.activeTime * 60) % ((UINT : Nat) : Int) < ((UINT : Nat) : Int) :=
      Int.emod_lt_of_pos _ (by decide)
    omega
  obtain ⟨a, e1, e2, hIs, fs, hcount, hone, hp⟩ := start_phase depth n s0 hI hidle hnb hn
  refine ⟨a, e1, hcount, hone, ?_⟩
  have hno1 : ∀ x ∈ rs, ¬ Matches (setReading x
      (writeLogs "Start manual cycle".toList
        (a.setTask 1 { a.tabTask 1 with status := PRET, currentTime := 0 }))) := by
    intro x hx hc
    exact hno x (List.mem_cons_of_mem _ hx)
      ((matches_setReading x s0 _ fs.scheduleEnabled fs.scheduleM fs.scheduleH).mp hc)
  obtain ⟨s, es, hI1, g0, g4, g1, g2, g3, g5⟩ := run_phase depth (s0.fired.count 0) n rs 0
    (writeLogs "Start manual cycle".toList
      (a.setTask 1 { a.tabTask 1 with status := PRET, currentTime := 0 })) hIs hno1
    (by rw [fs.nbCycles]; exact hnb) (by rw [fs.start1]; omega) (by rw [fs.start1]; exact hT)
    hp
  have hstart : (s.tabTask 1).startTime = (s0.tabTask 1).startTime := g4.trans fs.start1
  have hmr : ¬ Matches (setReading r s) := by
    intro hc
    exact hno r (List.mem_cons_self _ _)
      ((matches_setReading r s0 s (g1.trans fs.scheduleEnabled) (g2.trans fs.scheduleM)
        (g3.trans fs.scheduleH)).mp hc)
  have hp' : Phase (s0.fired.count 0) n rs.length s := by
    simpa using g5
  refine ⟨s, by rw [e2, Option.some_bind]; exact es, ?_, ?_, ?_, ?_⟩
  · rcases hp' with ⟨c, -, hcn, -, -, -, -, hc⟩ | ⟨-, hc⟩ | ⟨-, -, -, hc⟩ <;> omega
  · intro hlt
    rcases hp' with ⟨c, -, hcn, -, -, -, hcc, hc⟩ | ⟨-, hc⟩ | ⟨-, -, -, hc⟩
    · rw [hcc, hc]
      congr 1
      omega
    · omega
    · omega
  · obtain ⟨b, eb, -, -, -, idb⟩ := osc_phase depth (s0.fired.count 0) n rs.length
      (setReading r s) (setReading_inv r s hI1) g0 hp'
    exact ⟨b, eb, idb⟩
  · obtain ⟨s1, e1', -, -, -, -, -, -, -, id1⟩ := tick_phase depth (s0.fired.count 0) n
      rs.length (setReading r s) (setReading_inv r s hI1) hmr g0
      (by show rs.length + 1 < (s.tabTask 1).startTime; rw [hstart]; exact hlim)
      (by show (s.tabTask 1).startTime < UINT; rw [hstart]; exact hT) hp'
    exact ⟨s1, e1', id1⟩

/-- Instance of C7: after the power-on `bootDemo` (`nbCycles = 3`, legs of 4 ticks), the
start command, seven ticks, and the eighth tick, in which the third firing occurs. -/
theorem C7_cycle_count_witness :
    ∃ a, t_start (invoke (0 + 1)) bootState.env.idRobotTask bootState = some a ∧
      a.fired.count 0 = bootState.fired.count 0 + 1 ∧ (3 = 1 → Idle a) ∧
      ∃ s, (PubSubCallback (invoke (0 + 1)) Topic.TOPIC_START "ON".toList bootState).bind
          (runTicks (0 + 1) (List.replicate 7
            { hours := 9, minutes := 16, date := "01/06/2025 09:16:00".toList,
              localIP := "192.168.1.20".toList })) = some s ∧
        s.fired.count 0 ≤ bootState.fired.count 0 + 3 ∧
        (s.fired.count 0 < bootState.fired.count 0 + 3 →
          s.env.currentCycle = ((s.fired.count 0 - bootState.fired.count 0 : Nat) : Int)) ∧
        (∃ b, scheduleTask (invoke (0 + 1)) 0
            (setReading
              { hours := 9, minutes := 16, date := "01/06/2025 09:16:00".toList,
                localIP := "192.168.1.20".toList } s) = some b ∧
          (b.fired.count 0 = s.fired.count 0 + 1 →
            b.fired.count 0 = bootState.fired.count 0 + 3 → Idle b)) ∧
        ∃ s1, tick (0 + 1)
            (setReading
              { hours := 9, minutes := 16, date := "01/06/2025 09:16:00".toList,
                localIP := "192.168.1.20".toList } s) = some s1 ∧
          (s1.fired.count 0 = s.fired.count 0 + 1 →
            s1.fired.count 0 = bootState.fired.count 0 + 3 → Idle s1) :=
  C7_cycle_count 0 3 (by decide) bootState bootState_reachable (by decide) (by decide)
    (List.replicate 7
      { hours := 9, minutes := 16, date := "01/06/2025 09:16:00".toList,
        localIP := "192.168.1.20".toList })
    { hours := 9, minutes := 16, date := "01/06/2025 09:16:00".toList,
      localIP := "192.168.1.20".toList }
    (by
      intro x hx
      rcases List.mem_cons.mp hx with h | h
      · rw [h]; decide
      · rw [List.eq_of_mem_replicate h]; decide)
    (by decide)

/-- Claim C8, the code at the failing input. Power-on `bootScheduled` at the scheduled minute:
`setup` starts the cycle at once (first, forward, firing: previous forward duration 25), then
draws `currentRandomValue` anew (12). After 24 ticks the reverse firing is pending with
`randomValue = 25`; the 25th tick performs it and installs the interval 12, although
`25 ≤ 30` calls for 25. -/
theorem C8_failing_input :
    ((setup (invoke 2) bootScheduled).bind (ticks (invoke 2) 24)).map
        (fun s => (s.env.direction, s.env.randomValue, (s.tabTask 0).status,
          (s.tabTask 0).currentTime, (s.tabTask 0).startTime, s.fired.count 0)) =
      some (true, 25, PRET, 24, 25, 1) ∧
    ((setup (invoke 2) bootScheduled).bind (ticks (invoke 2) 25)).map
        (fun s => (s.fired.count 0, (s.tabTask 0).startTime, s.env.currentRandomValue,
          s.env.randomValue)) =
      some (2, 12, 12, 25) := by
  decide

/-- The reverse firing in the ordinary situation, where `currentRandomValue` still holds the
previous forward duration `randomValue`: the interval installed is `randomValue - 20` when
`randomValue > 30`, and `randomValue` otherwise. -/
theorem reverse_interval_synced (s : St) (hI : Inv s) (hd : s.env.direction = true)
    (hsync : s.env.currentRandomValue = s.env.randomValue) :
    ∃ s1, robotTask s = some s1 ∧
      (s1.tabTask 0).startTime =
        (if s.env.randomValue > 30 then s.env.randomValue - 20 else s.env.randomValue) ∧
      s1.env.currentRandomValue = (s1.tabTask 0).startTime := by
  obtain ⟨s1, e, -, -, -, h1, h2, -⟩ := robotTask_spec s hI.idRobot hI.idEnd
  obtain ⟨-, h3⟩ := h2 hd
  exact ⟨s1, e, by rw [h1, h3, hsync], h1.symm⟩

/-! ## A start on a running cycle -/

theorem bootStarted_eq :
    PubSubCallback (invoke 1) Topic.TOPIC_START "ON".toList bootState = some bootStarted := rfl

theorem bootStarted_reachable : Reachable bootStarted :=
  Reachable.message 1 _ _ _ _ bootState_reachable (by decide) bootStarted_eq

theorem bootRunning_eq : tick 1 (setReading demoReading bootStarted) = some bootRunning := rfl

theorem bootRunning_reachable : Reachable bootRunning :=
  Reachable.tick 1 _ _ (Reachable.clock demoReading _ bootStarted_reachable) bootRunning_eq

/-- Claim C11 as stated fails. One tick after the start command the demonstration cycle is
running: first oscillation counted, forward leg in flight, both tasks `PRET` with
`currentTime = 1`. The two `t_start` calls performed again on that state count a second
oscillation, flip `direction`, drive the motor in reverse and put the `currentTime` of both
tasks back to 0: the observable cycle state is not what it was. -/
theorem C11_counterexample :
    Reachable bootRunning ∧
    cycleState bootRunning = ⟨1, true, 4, false, true, (PRET, 1, 4), (PRET, 1, 60)⟩ ∧
    (startCycle (invoke 1) bootRunning).map cycleState =
      some ⟨2, false, 4, true, false, (PRET, 0, 4), (PRET, 0, 60)⟩ ∧
    (startCycle (invoke 1) bootRunning).map cycleState ≠ some (cycleState bootRunning) :=
  ⟨bootRunning_reachable, by decide, by decide, by decide⟩

theorem startCycle_spec (d : Nat) (s : St) (hI : Inv s) :
    ∃ a, robotTask (s.started 0) = some a ∧
      startCycle (invoke (d + 1)) s =
        some (a.setTask 1 { a.tabTask 1 with status := PRET, currentTime := 0 }) := by
  obtain ⟨a, ea, e1, -, hIa, -⟩ := start_spec d s hI
  have e2 : t_start (invoke (d + 1)) a.env.idEndRobotTask a =
      some (a.setTask 1 { a.tabTask 1 with status := PRET, currentTime := 0 }) := by
    have := t_start_one_shot (invoke (d + 1)) 1 a hIa.timer1
    rw [hIa.idEnd]
    rw [show ((1 : Int)) = (((1 : Fin MAX_TASK).val : Nat) : Int) from rfl, this]
  exact ⟨a, ea, by simp only [startCycle, e1, Option.bind_eq_bind, Option.some_bind, e2]⟩

/-- Claim C11, amended. In every reachable state in which a cycle is running (oscillation
task and end-of-cycle task both `PRET`), the two `t_start` calls return and are not
idempotent: `robotTask` is invoked once more. Both tasks are left `PRET`, when the count
is not reached, with their `currentTime` put back to 0, the interval of the end-of-cycle
task is kept, `currentCycle` is incremented, `direction` is flipped, the interval of the
oscillation task is replaced by the newly chosen `currentRandomValue` (a fresh draw before a
forward leg, the reverse duration before a reverse leg) and the motor is driven for the new
leg. When the increment reaches `nbCycles` the cycle is ended instead (`currentCycle = 0`,
motor off, oscillation task `CREE`), the end-of-cycle task being started again all the
same. -/
theorem C11_redundant_start (d : Nat) (s : St) (hs : Reachable s)
    (h0 : (s.tabTask 0).status = PRET) (h1 : (s.tabTask 1).status = PRET) :
    ∃ s2, startCycle (invoke (d + 1)) s = some s2 ∧
      s2.fired = s.fired ++ [0] ∧
      s2.env.direction = (!s.env.direction) ∧
      (s2.tabTask 0).startTime = s2.env.currentRandomValue ∧
      (s.env.direction = false →
        s2.env.currentRandomValue =
          toUnsigned (random s.env.minRandom s.env.maxRandom s).1) ∧
      (s.env.direction = true →
        s2.env.currentRandomValue =
          (if s.env.randomValue > 30 then s.env.randomValue - 20
           else s.env.currentRandomValue)) ∧
      (s2.tabTask 1).status = (s.tabTask 1).status ∧ (s2.tabTask 1).currentTime = 0 ∧
      (s2.tabTask 1).startTime = (s.tabTask 1).startTime ∧
      (s.env.currentCycle + 1 < s.env.nbCycles →
        (s2.tabTask 0).status = (s.tabTask 0).status ∧ (s2.tabTask 0).currentTime = 0 ∧
        s2.env.currentCycle = s.env.currentCycle + 1 ∧
        (s.env.direction = false → s2.env.pinForward = false ∧ s2.env.pinReturn = true) ∧
        (s.env.direction = true → s2.env.pinForward = true ∧ s2.env.pinReturn = false)) ∧
      (s.env.nbCycles ≤ s.env.currentCycle + 1 →
        (s2.tabTask 0).status = CREE ∧ (s2.tabTask 0).currentTime = 0 ∧
        s2.env.currentCycle = 0 ∧ s2.env.pinForward = true ∧ s2.env.pinReturn = true) := by
  have hI := reachable_inv s hs
  obtain ⟨a, ea, e⟩ := startCycle_spec d s hI
  have hI0 : Inv (s.started 0) := hI.started 0 ne_03
  obtain ⟨a1, ea1, fa, hf, hdir, hst, hrev, hfwd, hend, hcont⟩ :=
    robotTask_spec (s.started 0) hI0.idRobot hI0.idEnd
  rw [ea] at ea1
  cases ea1
  have henv : (s.started 0).env = s.env := rfl
  simp only [henv] at hdir hrev hfwd hend hcont
  refine ⟨_, e, ?_, ?_, ?_, ?_, ?_, ?_, ?_, ?_, ?_, ?_⟩
  · simpa using hf
  · simpa using hdir
  · simpa [Function.update_noteq ne_01] using hst
  · intro hd
    exact (hfwd hd).1
  · intro hd
    exact (hrev hd).2
  · simp [h1]
  · simp
  · simpa [Sys.started, Function.update_noteq ne_10] using fa.start1
  · intro hc
    obtain ⟨c1, c2, -, c4, -, c6, c7⟩ := hcont hc
    refine ⟨?_, ?_, ?_, ?_, ?_⟩
    · simpa [Function.update_noteq ne_01, Sys.started, h0] using c1
    · simpa [Function.update_noteq ne_01, Sys.started] using c2
    · simpa using c4
    · simpa using c6
    · simpa using c7
  · intro hc
    obtain ⟨c1, c2, -, -, c5, c6, c7, -⟩ := hend hc
    refine ⟨?_, ?_, ?_, ?_, ?_⟩
    · simpa [Function.update_noteq ne_01] using c1
    · simpa [Function.update_noteq ne_01] using c2
    · simpa using c5
    · simpa using c6
    · simpa using c7

theorem C11_redundant_start_witness :
    (bootRunning.tabTask 0).status = PRET ∧ (bootRunning.tabTask 1).status = PRET ∧
    ∃ s2, startCycle (invoke (0 + 1)) bootRunning = some s2 ∧
      s2.fired = bootRunning.fired ++ [0] ∧
      s2.env.direction = (!bootRunning.env.direction) ∧
      (s2.tabTask 0).startTime = s2.env.currentRandomValue ∧
      (bootRunning.env.direction = false →
        s2.env.currentRandomValue =
          toUnsigned (random bootRunning.env.minRandom bootRunning.env.maxRandom
            bootRunning).1) ∧
      (bootRunning.env.direction = true →
        s2.env.currentRandomValue =
          (if bootRunning.env.randomValue > 30 then bootRunning.env.randomValue - 20
           else bootRunning.env.currentRandomValue)) ∧
      (s2.tabTask 1).status = (bootRunning.tabTask 1).status ∧
      (s2.tabTask 1).currentTime = 0 ∧
      (s2.tabTask 1).startTime = (bootRunning.tabTask 1).startTime ∧
      (bootRunning.env.currentCycle + 1 < bootRunning.env.nbCycles →
        (s2.tabTask 0).status = (bootRunning.tabTask 0).status ∧
        (s2.tabTask 0).currentTime = 0 ∧
        s2.env.currentCycle = bootRunning.env.currentCycle + 1 ∧
        (bootRunning.env.direction = false →
          s2.env.pinForward = false ∧ s2.env.pinReturn = true) ∧
        (bootRunning.env.direction = true →
          s2.env.pinForward = true ∧ s2.env.pinReturn = false)) ∧
      (bootRunning.env.nbCycles ≤ bootRunning.env.currentCycle + 1 →
        (s2.tabTask 0).status = CREE ∧ (s2.tabTask 0).currentTime = 0 ∧
        s2.env.currentCycle = 0 ∧ s2.env.pinForward = true ∧ s2.env.pinReturn = true) :=
  ⟨by decide, by decide,
    C11_redundant_start 0 bootRunning bootRunning_reachable (by decide) (by decide)⟩

/-! ## The manual `STOP` command -/

theorem bootPaused_eq :
    PubSubCallback (invoke 1) Topic.TOPIC_MANUAL "STOP".toList bootStarted = some bootPaused :=
  rfl

theorem bootRestarted_eq :
    PubSubCallback (invoke 1) Topic.TOPIC_START "ON".toList bootPaused = some bootRestarted :=
  rfl

theorem bootRestarted_reachable : Reachable bootRestarted :=
  Reachable.message 1 _ _ _ _
    (Reachable.message 1 _ _ _ _ bootStarted_reachable (by decide) bootPaused_eq)
    (by decide) bootRestarted_eq

/-- Claim C12, the code at the failing input. After power-on `bootDemo`: start command,
manual `STOP` (the cycle is paused and the toggle `b` becomes true), start command again.
The state reached is running and not paused (`currentCycle = 2`, oscillation task `PRET`),
with `b` still true. The next manual `STOP` takes the resume branch: the oscillation task
stays `PRET` and the motor is driven forward; the cycle is not paused. -/
theorem C12_failing_input :
    Reachable bootRestarted ∧
    (bootRestarted.env.currentCycle, (bootRestarted.tabTask 0).status, bootRestarted.env.b) =
      (2, PRET, true) ∧
    (PubSubCallback (invoke 1) Topic.TOPIC_MANUAL "STOP".toList bootRestarted).map
        (fun s => ((s.tabTask 0).status, s.env.pinForward, s.env.pinReturn, s.env.b)) =
      some (PRET, false, true, false) :=
  ⟨bootRestarted_reachable, by decide, by decide⟩

/-! ## The configuration parser -/

theorem splitLoop_spec (toks : List (List Char)) (i : Nat) (items : List (List Char))
    (hlen : ∀ t ∈ toks, t.length < 5) (hi : i + toks.length ≤ PARAM_LEN + 1)
    (hit : items.length = PARAM_LEN + 1) :
    ∃ r, splitLoop toks i items = some r ∧ r.length = PARAM_LEN + 1 ∧
      ∀ k, r.getD k [] =
        if i ≤ k ∧ k < i + toks.length then toks.getD (k - i) [] else items.getD k [] := by
  induction toks generalizing i items with
  | nil =>
    refine ⟨items, rfl, hit, fun k => ?_⟩
    have : ¬ (i ≤ k ∧ k < i + ([] : List (List Char)).length) := by simp
    rw [if_neg this]
  | cons pch rest ih =>
    have hl : (pch :: rest).length = rest.length + 1 := rfl
    rw [hl] at hi
    have hc : i < PARAM_LEN + 1 ∧ pch.length < 5 :=
      ⟨by omega, hlen pch (List.mem_cons_self _ _)⟩
    obtain ⟨r, er, hr, hk⟩ := ih (i + 1) (items.set i pch)
      (fun t ht => hlen t (List.mem_cons_of_mem _ ht)) (by omega)
      (by rw [List.length_set]; exact hit)
    refine ⟨r, by rw [splitLoop, if_pos hc]; exact er, hr, fun k => ?_⟩
    rw [hk k, hl]
    by_cases h1 : k = i
    · subst h1
      have hlt : k < items.length := by omega
      rw [if_neg (by omega), if_pos (by omega), Nat.sub_self, List.getD_cons_zero,
        List.getD_eq_getElem?_getD, List.getElem?_set]
      simp [hlt]
    · by_cases h2 : i + 1 ≤ k ∧ k < i + 1 + rest.length
      · rw [if_pos h2, if_pos (by omega)]
        have : k - i = (k - (i + 1)) + 1 := by omega
        rw [this, List.getD_cons_succ]
      · rw [if_neg h2, if_neg (by omega), List.getD_eq_getElem?_getD, List.getElem?_set,
          if_neg (fun h => h1 h.symm), ← List.getD_eq_getElem?_getD]

theorem split_spec (str : List Char) (s : St)
    (hlen : ∀ t ∈ strtokAll ':' str [], t.length < 5)
    (hn : (strtokAll ':' str []).length ≤ PARAM_LEN + 1)
    (hit : s.env.items.length = PARAM_LEN + 1) :
    ∃ r, split str ':' s = some (s.upd fun g => { g with items := r }) ∧
      r.length = PARAM_LEN + 1 ∧
      ∀ k, get r k = itemAfter (strtokAll ':' str []) s.env.items k := by
  obtain ⟨r, er, hr, hk⟩ := splitLoop_spec (strtokAll ':' str []) 0 s.env.items hlen
    (by omega) hit
  refine ⟨r, by simp only [split, er, Option.bind_eq_bind, Option.some_bind, Option.pure_def],
    hr, fun k => ?_⟩
  rw [get, hk k, itemAfter]
  simp

/-- Function `setParam` on a string that fits its buffers: it returns; the tokens of the
string overwrite the first entries of the static array, and each of the eight variables is
`atoi` of the entry of its index, a token when the string has one at that index, the entry
left by earlier calls otherwise. Nothing else changes. -/
theorem setParam_spec (tabParam : List Char) (s : St) (hp : tabParam.length < 50)
    (hlen : ∀ t ∈ strtokAll ':' tabParam [], t.length < 5)
    (hn : (strtokAll ':' tabParam []).length ≤ PARAM_LEN + 1)
    (hit : s.env.items.length = PARAM_LEN + 1) :
    ∃ s1, setParam tabParam s = some s1 ∧
      config s1 = (List.range PARAM_LEN).map
        (fun k => atoi (itemAfter (strtokAll ':' tabParam []) s.env.items k)) ∧
      s1.env.items.length = PARAM_LEN + 1 ∧
      (∀ k, get s1.env.items k = itemAfter (strtokAll ':' tabParam []) s.env.items k) ∧
      s1.tabTask = s.tabTask ∧ s1.tabLastStatusTask = s.tabLastStatusTask ∧
      s1.fired = s.fired ∧ s1.env.tabParam = s.env.tabParam ∧
      s1.env.paramFile = s.env.paramFile ∧ s1.env.randomBuffer = s.env.randomBuffer := by
  obtain ⟨r, er, hr, hk⟩ := split_spec tabParam s hlen hn hit
  simp only [setParam, if_pos hp, er, Option.bind_eq_bind, Option.some_bind,
    Option.pure_def]
  refine ⟨_, rfl, ?_, ?_, ?_, rfl, rfl, rfl, rfl, rfl, rfl⟩
  · simp only [config, upd_env, hk]
    rfl
  · exact hr
  · exact hk

theorem strtokAll_append (t rest cur : List Char) (ht : ':' ∉ t) :
    strtokAll ':' (t ++ rest) cur = strtokAll ':' rest (cur ++ t) := by
  induction t generalizing cur with
  | nil => simp
  | cons c t ih =>
    have hc : c ≠ ':' := fun h => ht (h ▸ List.mem_cons_self _ _)
    have ht2 : ':' ∉ t := fun h => ht (List.mem_cons_of_mem _ h)
    rw [List.cons_append, strtokAll, if_neg hc, ih _ ht2, List.append_assoc]
    rfl

theorem strtokAll_join (toks : List (List Char))
    (h : ∀ t ∈ toks, t ≠ [] ∧ ':' ∉ t) :
    strtokAll ':' (joinFields toks) [] = toks := by
  induction toks with
  | nil => rfl
  | cons t ts ih =>
    obtain ⟨hne, hnc⟩ := h t (List.mem_cons_self _ _)
    cases ts with
    | nil =>
      have := strtokAll_append t [] [] hnc
      rw [List.append_nil, List.nil_append] at this
      rw [joinFields, this, strtokAll, if_neg hne]
    | cons t2 ts =>
      have hj : joinFields (t :: t2 :: ts) = t ++ ':' :: joinFields (t2 :: ts) := rfl
      rw [hj, strtokAll_append t _ [] hnc, List.nil_append, strtokAll, if_pos rfl,
        if_neg hne, ih (fun x hx => h x (List.mem_cons_of_mem _ hx))]

theorem joinFields_length (toks : List (List Char)) (h : ∀ t ∈ toks, t.length < 5) :
    (joinFields toks).length < 5 * toks.length + 1 := by
  induction toks with
  | nil => simp [joinFields]
  | cons t ts ih =>
    have h1 := h t (List.mem_cons_self _ _)
    have h2 := ih (fun x hx => h x (List.mem_cons_of_mem _ hx))
    cases ts with
    | nil =>
      simp only [joinFields, List.length_singleton]
      omega
    | cons t2 ts =>
      have hj : joinFields (t :: t2 :: ts) = t ++ ':' :: joinFields (t2 :: ts) := rfl
      rw [hj]
      simp only [List.length_append, List.length_cons] at h2 ⊢
      omega

theorem digitChar_toNat (m : Nat) (h : m < 10) : (Nat.digitChar m).toNat = 48 + m := by
  interval_cases m <;> rfl

theorem toDigitsCore_digits (fuel n : Nat) (ds : List Char) :
    ∀ c ∈ Nat.toDigitsCore 10 fuel n ds, c ∈ ds ∨ (48 ≤ c.toNat ∧ c.toNat ≤ 57) := by
  induction fuel generalizing n ds with
  | zero =>
    intro c hc
    exact Or.inl hc
  | succ fuel ih =>
    intro c hc
    have hd := digitChar_toNat (n % 10) (Nat.mod_lt _ (by decide))
    simp only [Nat.toDigitsCore] at hc
    split_ifs at hc
    · rcases List.mem_cons.mp hc with h | h
      · exact Or.inr (by rw [h, hd]; omega)
      · exact Or.inl h
    · rcases ih _ _ c hc with h | h
      · rcases List.mem_cons.mp h with h | h
        · exact Or.inr (by rw [h, hd]; omega)
        · exact Or.inl h
      · exact Or.inr h

theorem toDigitsCore_length_ge (fuel n : Nat) (ds : List Char) :
    ds.length + 1 ≤ (Nat.toDigitsCore 10 (fuel + 1) n ds).length := by
  induction fuel generalizing n ds with
  | zero =>
    simp only [Nat.toDigitsCore]
    split_ifs <;> simp
  | succ fuel ih =>
    rw [Nat.toDigitsCore]
    split_ifs
    · simp
    · have := ih (n / 10) (Nat.digitChar (n % 10) :: ds)
      simp only [List.length_cons] at this
      omega

theorem atoiDigits_toDigitsCore (fuel n : Nat) (ds : List Char) (h : n < fuel) :
    atoiDigits (Nat.toDigitsCore 10 fuel n ds) 0 = atoiDigits ds n := by
  induction fuel generalizing n ds with
  | zero => omega
  | succ fuel ih =>
    have hd := digitChar_toNat (n % 10) (Nat.mod_lt _ (by decide))
    have hstep : ∀ acc, atoiDigits (Nat.digitChar (n % 10) :: ds) acc =
        atoiDigits ds (acc * 10 + n % 10) := by
      intro acc
      rw [atoiDigits, if_pos (by rw [hd]; omega), hd]
      congr 2
      omega
    simp only [Nat.toDigitsCore]
    split_ifs with h0
    · rw [hstep]
      congr 1
      omega
    · rw [ih (n / 10) _ (by omega), hstep]
      congr 1
      omega

theorem atoiDigits_toDigits (n : Nat) : atoiDigits (Nat.toDigits 10 n) 0 = n := by
  rw [Nat.toDigits, atoiDigits_toDigitsCore _ _ _ (Nat.lt_succ_self n)]
  rfl

theorem toDigits_digits (n : Nat) :
    ∀ c ∈ Nat.toDigits 10 n, 48 ≤ c.toNat ∧ c.toNat ≤ 57 := by
  intro c hc
  rcases toDigitsCore_digits _ _ _ c hc with h | h
  · exact absurd h (List.not_mem_nil _)
  · exact h

theorem toDigits_ne_nil (n : Nat) : Nat.toDigits 10 n ≠ [] := by
  intro h
  have := toDigitsCore_length_ge n n []
  rw [Nat.toDigits] at h
  rw [h] at this
  simp at this

theorem toDigits_length (n e : Nat) (h : n < 10 ^ e) (he : 0 < e) :
    (Nat.toDigits 10 n).length ≤ e :=
  Nat.toDigitsCore_length 10 (by decide) _ n e h he

theorem atoi_digits (l : List Char) (hne : l ≠ [])
    (hd : ∀ c ∈ l, 48 ≤ c.toNat ∧ c.toNat ≤ 57) : atoi l = ((atoiDigits l 0 : Nat) : Int) := by
  cases l with
  | nil => exact absurd rfl hne
  | cons c cs =>
    have hc := hd c (List.mem_cons_self _ _)
    have h1 : c ≠ ' ' := by
      rintro rfl
      exact absurd hc.1 (by decide)
    have h2 : c ≠ '-' := by
      rintro rfl
      exact absurd hc.1 (by decide)
    have h3 : c ≠ '+' := by
      rintro rfl
      exact absurd hc.1 (by decide)
    have hs : isSpace c = false := by
      simp only [isSpace, Bool.or_eq_false_iff, Bool.and_eq_false_iff, decide_eq_false_iff_not]
      exact ⟨h1, Or.inr (by omega)⟩
    have hdrop : (c :: cs).dropWhile isSpace = c :: cs := by
      rw [List.dropWhile_cons, hs]
      rfl
    unfold atoi
    rw [hdrop]
    split
    · rename_i heq
      exact absurd (List.cons.inj heq).1 h2
    · rename_i heq
      exact absurd (List.cons.inj heq).1 h3
    · rfl

theorem atoi_minus (l : List Char) : atoi ('-' :: l) = -((atoiDigits l 0 : Nat) : Int) := by
  have hdrop : ('-' :: l).dropWhile isSpace = '-' :: l := by
    rw [List.dropWhile_cons]
    rfl
  unfold atoi
  rw [hdrop]
  rfl

/-- An integer that `%d` writes in at most four characters is read back by `atoi`; its text
is not empty and holds no colon. -/
theorem fmtD_spec (v : Int) (h1 : -999 ≤ v) (h2 : v ≤ 9999) :
    fmtD v ≠ [] ∧ ':' ∉ fmtD v ∧ (fmtD v).length < 5 ∧ atoi (fmtD v) = v := by
  have hcolon : ∀ n, ':' ∉ Nat.toDigits 10 n := by
    intro n h
    have := toDigits_digits n _ h
    exact absurd this.2 (by decide)
  by_cases hneg : v < 0
  · have e : fmtD v = '-' :: Nat.toDigits 10 v.natAbs := by rw [fmtD, if_pos hneg]
    have hl := toDigits_length v.natAbs 3 (by omega) (by decide)
    refine ⟨by rw [e]; simp, ?_, ?_, ?_⟩
    · rw [e]
      intro h
      rcases List.mem_cons.mp h with h | h
      · exact absurd h (by decide)
      · exact hcolon _ h
    · rw [e, List.length_cons]
      omega
    · rw [e, atoi_minus, atoiDigits_toDigits]
      omega
  · have e : fmtD v = Nat.toDigits 10 v.toNat := by rw [fmtD, if_neg hneg]
    have hl := toDigits_length v.toNat 4 (by omega) (by decide)
    refine ⟨by rw [e]; exact toDigits_ne_nil _, by rw [e]; exact hcolon _, by rw [e]; omega,
      ?_⟩
    rw [e, atoi_digits _ (toDigits_ne_nil _) (toDigits_digits _), atoiDigits_toDigits]
    omega

/-! ## What only `setParam` writes -/

theorem parserState_env (s s1 : St) (h : s1.env = s.env) : parserState s1 = parserState s := by
  simp only [parserState, config, h]

theorem Parsed.of_eq {s s1 : St} (h : Parsed s) (e : parserState s1 = parserState s) :
    Parsed s1 := by
  simp only [parserState, Prod.mk.injEq] at e
  obtain ⟨e1, e2, e3⟩ := e
  exact ⟨by rw [e1]; exact h.length, by rw [e3, e1]; exact h.config, by rw [e2]; exact h.buffer⟩

theorem t_stop_env (taskId : Int) (s s1 : St) (h : t_stop taskId s = some s1) :
    s1.env = s.env := by
  simp only [t_stop] at h
  split_ifs at h
  · cases h; rfl
  · obtain ⟨k, -, h⟩ := Option.bind_eq_some.mp h
    cases h; rfl

theorem t_suspend_env (taskId : Int) (s s1 : St) (h : t_suspend taskId s = some s1) :
    s1.env = s.env := by
  simp only [t_suspend] at h
  split_ifs at h
  · cases h; rfl
  · obtain ⟨k, -, h⟩ := Option.bind_eq_some.mp h
    cases h; rfl

theorem t_resume_env (taskId : Int) (s s1 : St) (h : t_resume taskId s = some s1) :
    s1.env = s.env := by
  simp only [t_resume] at h
  split_ifs at h
  · cases h; rfl
  · obtain ⟨k, -, h⟩ := Option.bind_eq_some.mp h
    cases h; rfl

theorem setInterval_env (taskId : Int) (v : Nat) (s s1 : St)
    (h : setInterval taskId v s = some s1) : s1.env = s.env := by
  simp only [setInterval] at h
  obtain ⟨k, -, h⟩ := Option.bind_eq_some.mp h
  cases h; rfl

theorem setStartTime_env (taskId : Int) (v : Nat) (s s1 : St)
    (h : setStartTime taskId v s = some s1) : s1.env = s.env := by
  simp only [setStartTime] at h
  obtain ⟨k, -, h⟩ := Option.bind_eq_some.mp h
  cases h; rfl

theorem t_start_kept (call : Fonc → St → Option St)
    (hcall : ∀ f s s1, call f s = some s1 → parserState s1 = parserState s)
    (taskId : Int) (s s1 : St) (h : t_start call taskId s = some s1) :
    parserState s1 = parserState s := by
  simp only [t_start] at h
  split_ifs at h
  · cases h; rfl
  · obtain ⟨k, -, h⟩ := Option.bind_eq_some.mp h
    split_ifs at h
    · exact (hcall _ _ _ h).trans rfl
    · cases h; rfl

theorem scheduleTask_kept (call : Fonc → St → Option St)
    (hcall : ∀ f s s1, call f s = some s1 → parserState s1 = parserState s)
    (j : Fin MAX_TASK) (s s1 : St) (h : scheduleTask call j s = some s1) :
    parserState s1 = parserState s := by
  unfold scheduleTask at h
  by_cases hr : (s.tabTask j).status = PRET
  · by_cases hd : ((s.tabTask j).currentTime + 1) % UINT = (s.tabTask j).startTime
    · simp only [hr, hd, callFonc, Sys.setTask, Function.update_same, if_true,
        Function.update_idem, Option.bind_eq_bind] at h
      obtain ⟨a, ha, h⟩ := Option.bind_eq_some.mp h
      have e := hcall _ _ _ ha
      split_ifs at h <;> (cases h; exact e)
    · simp [hr, hd, Sys.setTask] at h
      cases h
      rfl
  · simp [hr] at h
    cases h
    rfl

theorem schedule_kept (call : Fonc → St → Option St)
    (hcall : ∀ f s s1, call f s = some s1 → parserState s1 = parserState s)
    (s s1 : St) (h : schedule call s = some s1) : parserState s1 = parserState s := by
  simp only [schedule, finRange_four, List.foldlM_cons, List.foldlM_nil, Option.bind_eq_bind,
    Option.pure_def] at h
  obtain ⟨a, ha, h⟩ := Option.bind_eq_some.mp h
  obtain ⟨b, hb, h⟩ := Option.bind_eq_some.mp h
  obtain ⟨c, hc, h⟩ := Option.bind_eq_some.mp h
  obtain ⟨d, hd, h⟩ := Option.bind_eq_some.mp h
  cases h
  rw [scheduleTask_kept call hcall 3 c _ hd, scheduleTask_kept call hcall 2 b c hc,
    scheduleTask_kept call hcall 1 a b hb, scheduleTask_kept call hcall 0 s a ha]

theorem endCycle_kept (s s1 : St) (h : endCycle s = some s1) :
    parserState s1 = parserState s := by
  simp only [endCycle, Option.bind_eq_bind, Option.pure_def] at h
  obtain ⟨a, ha, h⟩ := Option.bind_eq_some.mp h
  obtain ⟨b, hb, h⟩ := Option.bind_eq_some.mp h
  cases h
  have e1 := t_stop_env _ _ _ ha
  have e2 := t_stop_env _ _ _ hb
  simp only [parserState, config, powerOff, publish, upd_env, e2, e1]

theorem robotTaskLeg_kept (s s1 : St) (h : robotTaskLeg s = some s1) :
    parserState s1 = parserState s := by
  unfold robotTaskLeg at h
  cases hd : s.env.direction
  · simp only [hd, Bool.not_false, if_true, Option.bind_eq_bind, Option.pure_def] at h
    obtain ⟨a, ha, h⟩ := Option.bind_eq_some.mp h
    cases h
    have e := setInterval_env _ _ _ _ ha
    simp only [parserState, config, robotForward, upd_env, e, random]
  · simp only [hd, Bool.not_true, Bool.false_eq_true, if_false, Option.bind_eq_bind,
      Option.pure_def] at h
    obtain ⟨a, ha, h⟩ := Option.bind_eq_some.mp h
    cases h
    have e := setInterval_env _ _ _ _ ha
    simp only [parserState, config, robotReturn, upd_env, e]
    split_ifs <;> rfl

theorem robotTaskCount_kept (s s1 : St) (h : robotTaskCount s = some s1) :
    parserState s1 = parserState s := by
  unfold robotTaskCount at h
  simp only [Option.bind_eq_bind, Option.pure_def] at h
  split_ifs at h
  · obtain ⟨a, ha, h⟩ := Option.bind_eq_some.mp h
    cases h
    have e := endCycle_kept _ _ ha
    exact Eq.trans (b := parserState a) rfl (e.trans rfl)
  · cases h
    rfl

theorem robotTask_kept (s s1 : St) (h : robotTask s = some s1) :
    parserState s1 = parserState s := by
  rw [robotTask_eq] at h
  obtain ⟨a, ha, h⟩ := Option.bind_eq_some.mp h
  exact (robotTaskCount_kept a s1 h).trans ((robotTaskLeg_kept _ a ha).trans rfl)

theorem robotEndTask_kept (s s1 : St) (h : robotEndTask s = some s1) :
    parserState s1 = parserState s := by
  simp only [robotEndTask, Option.bind_eq_bind, Option.pure_def] at h
  obtain ⟨a, ha, h⟩ := Option.bind_eq_some.mp h
  cases h
  exact Eq.trans (b := parserState a) rfl (endCycle_kept _ _ ha)

theorem scheduleCleanTask_kept (call : Fonc → St → Option St)
    (hcall : ∀ f s s1, call f s = some s1 → parserState s1 = parserState s)
    (s s1 : St) (h : scheduleCleanTask call s = some s1) :
    parserState s1 = parserState s := by
  unfold scheduleCleanTask at h
  split_ifs at h
  · simp only [Option.bind_eq_bind, Option.pure_def] at h
    obtain ⟨a, ha, h⟩ := Option.bind_eq_some.mp h
    obtain ⟨b, hb, h⟩ := Option.bind_eq_some.mp h
    cases h
    rw [← t_start_kept call hcall _ _ _ ha, ← t_start_kept call hcall _ _ _ hb]
    simp only [parserState, config, publish, writeLogs, upd_env]
  · cases h; rfl
  · cases h; rfl

theorem invoke_kept (depth : Nat) (f : Fonc) (s s1 : St) (h : invoke depth f s = some s1) :
    parserState s1 = parserState s := by
  induction depth generalizing f s s1 with
  | zero => exact absurd h (by simp [invoke])
  | succ d ih =>
    cases f with
    | null => exact absurd h (by simp [invoke])
    | robotTask => exact robotTask_kept s s1 h
    | robotEndTask => exact robotEndTask_kept s s1 h
    | scheduleCleanTask => exact scheduleCleanTask_kept (invoke d) ih s s1 h

theorem tick_kept (depth : Nat) (s s1 : St) (h : tick depth s = some s1) :
    parserState s1 = parserState s :=
  schedule_kept (invoke depth) (invoke_kept depth) s s1 h

theorem foldl_publish_kept (topic : Topic) (g : List Char → List Char)
    (lines : List (List Char)) (s : St) :
    parserState (lines.foldl (fun acc line => publish topic (g line) acc) s) =
      parserState s := by
  induction lines generalizing s with
  | nil => rfl
  | cons l ls ih => exact (ih _).trans rfl

theorem publishState_kept (s s1 : St) (h : publishState s = some s1) :
    parserState s1 = parserState s := by
  simp only [publishState, Option.bind_eq_bind, Option.pure_def] at h
  obtain ⟨a, -, h⟩ := Option.bind_eq_some.mp h
  obtain ⟨b, -, h⟩ := Option.bind_eq_some.mp h
  obtain ⟨c, -, h⟩ := Option.bind_eq_some.mp h
  obtain ⟨d, -, h⟩ := Option.bind_eq_some.mp h
  split_ifs at h <;> (cases h; simp only [parserState, config, publish, upd_env])

theorem splitLoop_length (toks : List (List Char)) (i : Nat) (items r : List (List Char))
    (h : splitLoop toks i items = some r) : r.length = items.length := by
  induction toks generalizing i items with
  | nil =>
    cases h
    rfl
  | cons pch rest ih =>
    rw [splitLoop] at h
    split_ifs at h
    rw [ih _ _ h, List.length_set]

/-- Whatever the string, when `setParam` returns each configuration variable is `atoi` of
the entry of its index in the static array of `split`. -/
theorem setParam_parsed (tabParam : List Char) (s s1 : St)
    (h : setParam tabParam s = some s1) :
    s1.env.items.length = s.env.items.length ∧
    config s1 = (List.range PARAM_LEN).map (fun k => atoi (get s1.env.items k)) ∧
    s1.env.randomBuffer = s.env.randomBuffer := by
  simp only [setParam, Option.bind_eq_bind, Option.pure_def] at h
  split_ifs at h
  obtain ⟨a, ha, h⟩ := Option.bind_eq_some.mp h
  simp only [split, Option.bind_eq_bind, Option.pure_def] at ha
  obtain ⟨r, hr, ha⟩ := Option.bind_eq_some.mp ha
  cases ha
  cases h
  exact ⟨splitLoop_length _ _ _ _ hr, rfl, rfl⟩

theorem PubSubCallback_kept (depth : Nat) (topic : Topic) (strPayload : List Char)
    (s s1 : St) (ht : topic ≠ Topic.TOPIC_SET_PARAM)
    (h : PubSubCallback (invoke depth) topic strPayload s = some s1) :
    parserState s1 = parserState s := by
  cases topic with
  | TOPIC_SET_PARAM => exact absurd rfl ht
  | TOPIC_GET_PARAM =>
    simp only [PubSubCallback] at h
    split_ifs at h <;> (cases h; rfl)
  | TOPIC_GET_VERSION =>
    simp only [PubSubCallback] at h
    cases h; rfl
  | TOPIC_GET_LOGS =>
    simp only [PubSubCallback] at h
    cases h
    exact Eq.trans rfl (foldl_publish_kept _ _ _ s)
  | TOPIC_GET_STATUS => exact publishState_kept s s1 h
  | TOPIC_START =>
    simp only [PubSubCallback] at h
    split_ifs at h
    · simp only [Option.bind_eq_bind, Option.pure_def] at h
      obtain ⟨a, ha, h⟩ := Option.bind_eq_some.mp h
      obtain ⟨b, hb, h⟩ := Option.bind_eq_some.mp h
      cases h
      rw [← t_start_kept _ (invoke_kept depth) _ _ _ ha,
        ← t_start_kept _ (invoke_kept depth) _ _ _ hb]
      rfl
    · simp only [Option.bind_eq_bind, Option.pure_def] at h
      obtain ⟨a, ha, h⟩ := Option.bind_eq_some.mp h
      cases h
      rw [← robotEndTask_kept _ _ ha]
      rfl
  | TOPIC_MANUAL =>
    simp only [PubSubCallback] at h
    by_cases hc : s.env.currentCycle = 0
    · simp only [hc, if_true, Option.bind_eq_bind, Option.pure_def] at h
      obtain ⟨a, ha, h⟩ := Option.bind_eq_some.mp h
      obtain ⟨b, hb, h⟩ := Option.bind_eq_some.mp h
      have e : b.env = s.env := (t_stop_env _ _ _ hb).trans (t_stop_env _ _ _ ha)
      split_ifs at h <;>
        (cases h; simp only [parserState, config, robotForward, robotReturn, powerOff,
          upd_env, e])
    · simp only [hc, if_false] at h
      by_cases hp : strPayload = "STOP".toList
      · cases hb : s.env.b with
        | false =>
          simp only [hp, hb, Bool.not_false, if_true, Option.bind_eq_bind, Option.pure_def,
            Option.bind_assoc, Option.some_bind] at h
          obtain ⟨c, hc2, h⟩ := Option.bind_eq_some.mp h
          cases h
          have e := t_suspend_env _ _ _ hc2
          simp only [parserState, config, powerOff, upd_env, e]
        | true =>
          simp only [hp, hb, Bool.not_true, Bool.false_eq_true, if_false, if_true,
            Option.bind_eq_bind, Option.pure_def, Option.bind_assoc] at h
          obtain ⟨c, hc2, h⟩ := Option.bind_eq_some.mp h
          have e := t_resume_env _ _ _ hc2
          split_ifs at h <;>
            (simp only [Option.some_bind] at h
             cases h
             simp only [parserState, config, robotForward, robotReturn, upd_env, e])
      · simp only [hp, if_false, Option.pure_def] at h
        cases h; rfl
  | TOPIC_DELETE_LOGS =>
    simp only [PubSubCallback] at h
    cases h; rfl
  | TOPIC_RESET =>
    simp only [PubSubCallback] at h
    cases h; rfl
  | _ =>
    simp only [PubSubCallback] at h
    cases h; rfl

theorem setParamMessage_parsed (depth : Nat) (strPayload : List Char) (s s1 : St)
    (hP : Parsed s)
    (h : PubSubCallback (invoke depth) Topic.TOPIC_SET_PARAM strPayload s = some s1) :
    Parsed s1 := by
  simp only [PubSubCallback] at h
  split_ifs at h
  simp only [Option.bind_eq_bind, upd_env] at h
  obtain ⟨a, ha, h⟩ := Option.bind_eq_some.mp h
  obtain ⟨p1, p2, p3⟩ := setParam_parsed _ _ _ ha
  have e := setStartTime_env _ _ _ _ h
  refine ⟨?_, ?_, ?_⟩
  · rw [e, p1]; exact hP.length
  · rw [show config s1 = config a from by simp only [config, e], e]; exact p2
  · rw [e, p3]; exact hP.buffer

theorem initFileParam_kept (force : Bool) (s s1 : St) (h : initFileParam force s = some s1) :
    parserState s1 = parserState s := by
  unfold initFileParam at h
  split at h
  · split_ifs at h <;> (rw [← Option.some.inj h]; rfl)
  · rw [← Option.some.inj h]; rfl

theorem t_creer_env (f : Fonc) (n : Nat) (b : Bool) (s : St) :
    (t_creer f n b s).2.env = s.env := by
  rcases t_creer_spec f n b s with ⟨-, e⟩ | ⟨k, -, -, e⟩
  · rw [e]
  · rw [e]
    rfl

theorem setup_parsed (depth : Nat) (boot : Boot) (s : St)
    (h : setup (invoke depth) boot = some s) : Parsed s := by
  rw [setup_eq] at h
  obtain ⟨a, ha, h⟩ := Option.bind_eq_some.mp h
  obtain ⟨b, hb, h⟩ := Option.bind_eq_some.mp h
  have ea := initFileParam_kept _ _ _ ha
  obtain ⟨p1, p2, p3⟩ := setParam_parsed _ _ _ hb
  simp only [parserState, Prod.mk.injEq] at ea
  have hPb : Parsed b := by
    refine ⟨?_, p2, ?_⟩
    · rw [p1]
      show a.env.items.length = PARAM_LEN + 1
      rw [ea.1]
      rfl
    · rw [p3]
      show a.env.randomBuffer = []
      rw [ea.2.1]
      rfl
  have e1 : parserState (purge 4048 b) = parserState b := by
    unfold purge
    split_ifs <;> rfl
  have e2 : ∀ x, parserState (setupRobotTask x) = parserState x := by
    intro x
    simp only [setupRobotTask, parserState, config, upd_env, t_creer_env, random]
  have e3 : ∀ x, parserState (setupEndRobotTask x) = parserState x := by
    intro x
    simp only [setupEndRobotTask, parserState, config, upd_env, t_creer_env]
  have e4 : ∀ x, parserState (setupScheduleCleanTask x) = parserState x := by
    intro x
    simp only [setupScheduleCleanTask, parserState, config, upd_env, t_creer_env]
  simp only [setupEnd, Option.bind_eq_bind, Option.pure_def] at h
  obtain ⟨c, hc, h⟩ := Option.bind_eq_some.mp h
  cases h
  have e5 := t_start_kept _ (invoke_kept depth) _ _ _ hc
  have e6 : parserState
      ((random (publish Topic.TOPIC_RESET_CYCLE [] c).env.minRandom
          (publish Topic.TOPIC_RESET_CYCLE [] c).env.maxRandom
          (publish Topic.TOPIC_RESET_CYCLE [] c)).2.upd fun g =>
        { g with
          currentRandomValue :=
            toUnsigned
              (random (publish Topic.TOPIC_RESET_CYCLE [] c).env.minRandom
                (publish Topic.TOPIC_RESET_CYCLE [] c).env.maxRandom
                (publish Topic.TOPIC_RESET_CYCLE [] c)).1 }) = parserState c := by
    simp only [parserState, config, upd_env, publish, random]
  exact hPb.of_eq (e6.trans (e5.trans ((e4 _).trans ((e3 _).trans ((e2 _).trans e1)))))

/-- In every reachable state the static array of `split` has its nine entries, each
configuration variable is `atoi` of the entry of its index, and `randomBuffer` is empty. -/
theorem reachable_parsed (s : St) (h : Reachable s) : Parsed s := by
  induction h with
  | boot depth boot s h => exact setup_parsed depth boot s h
  | tick depth s s1 _ h ih => exact ih.of_eq (tick_kept depth s s1 h)
  | message depth topic strPayload s s1 _ _ h ih =>
    by_cases ht : topic = Topic.TOPIC_SET_PARAM
    · subst ht
      exact setParamMessage_parsed depth strPayload s s1 ih h
    · exact ih.of_eq (PubSubCallback_kept depth topic strPayload s s1 ht h)
  | clock r s _ ih => exact ih.of_eq rfl

theorem toDigitsCore_length_lower (fuel n e : Nat) (ds : List Char) (h : n < fuel)
    (he : 10 ^ e ≤ n) : ds.length + e + 1 ≤ (Nat.toDigitsCore 10 fuel n ds).length := by
  induction fuel generalizing n e ds with
  | zero => omega
  | succ fuel ih =>
    rw [Nat.toDigitsCore]
    have hpos : 0 < n := lt_of_lt_of_le (Nat.pos_pow_of_pos e (by decide)) he
    split_ifs with h0
    · have hn : n < 10 := by omega
      have : e = 0 := by
        by_contra hne
        have : 10 ^ 1 ≤ 10 ^ e := Nat.pow_le_pow_right (by decide) (by omega)
        omega
      subst this
      simp
    · cases e with
      | zero =>
        have := ih (n / 10) 0 (Nat.digitChar (n % 10) :: ds) (by omega) (by simp; omega)
        simp only [List.length_cons] at this
        omega
      | succ e =>
        have h10 : 10 ^ e ≤ n / 10 := by
          rw [Nat.le_div_iff_mul_le (by decide)]
          rw [pow_succ] at he
          exact he
        have := ih (n / 10) e (Nat.digitChar (n % 10) :: ds) (by omega) h10
        simp only [List.length_cons] at this
        omega

/-- The integers that `%d` writes in at most four characters are those from -999 to
9999. -/
theorem fmtD_range (v : Int) (h : (fmtD v).length ≤ 4) : -999 ≤ v ∧ v ≤ 9999 := by
  by_cases hneg : v < 0
  · have e : fmtD v = '-' :: Nat.toDigits 10 v.natAbs := by rw [fmtD, if_pos hneg]
    rw [e, List.length_cons] at h
    have : v.natAbs < 10 ^ 3 := by
      by_contra hc
      have := toDigitsCore_length_lower (v.natAbs + 1) v.natAbs 3 [] (Nat.lt_succ_self _)
        (by omega)
      rw [Nat.toDigits] at h
      simp only [List.length_nil] at this
      omega
    omega
  · have e : fmtD v = Nat.toDigits 10 v.toNat := by rw [fmtD, if_neg hneg]
    rw [e] at h
    have : v.toNat < 10 ^ 4 := by
      by_contra hc
      have := toDigitsCore_length_lower (v.toNat + 1) v.toNat 4 [] (Nat.lt_succ_self _)
        (by omega)
      rw [Nat.toDigits] at h
      simp only [List.length_nil] at this
      omega
    omega

theorem map_range_itemAfter (n : Nat) (toks items : List (List Char)) (hk : toks.length ≤ n) :
    (List.range n).map (fun k => atoi (itemAfter toks items k)) =
      toks.map atoi ++ ((List.range n).map (fun k => atoi (get items k))).drop toks.length := by
  apply List.ext_getElem?
  intro j
  by_cases hj : j < toks.length
  · rw [List.getElem?_append_left (by simpa using hj)]
    simp only [List.getElem?_map, List.getElem?_range (show j < n by omega), Option.map_some',
      itemAfter, if_pos hj, List.getD_eq_getElem?_getD, List.getElem?_eq_getElem hj,
      Option.getD_some]
  · rw [List.getElem?_append_right (by simpa using hj)]
    simp only [List.length_map, List.getElem?_drop, List.getElem?_map]
    have e : toks.length + (j - toks.length) = j := by omega
    rw [e]
    by_cases hn : j < n
    · simp only [List.getElem?_range hn, Option.map_some', itemAfter, if_neg hj, get]
    · simp only [List.getElem?_eq_none_iff.mpr (by simpa using hn : (List.range n).length ≤ j),
        Option.map_none']

/-- Claim C13. In every reachable state, for every list `vs` of eight integers each of which
`%d` writes in at most four characters (the integers from -999 to 9999), `setParam` called
with the configuration string `v0:v1:v2:v3:v4:v5:v6:v7` returns and leaves `scheduleEnabled`,
`scheduleH`, `scheduleM`, `minRandom`, `maxRandom`, `nbCycles`, `activeTime` and `logStatus`
equal to `v0 .. v7` in that order; formatting these eight variables back as a
colon-separated list gives the string that was parsed. -/
theorem C13_parse_round_trip (s : St) (hs : Reachable s) (vs : List Int)
    (hl : vs.length = PARAM_LEN) (hr : ∀ v ∈ vs, (fmtD v).length ≤ 4) :
    ∃ s1, setParam (formatParam vs) s = some s1 ∧ config s1 = vs ∧
      formatParam (config s1) = formatParam vs := by
  have hP := reachable_parsed s hs
  have hspec : ∀ v ∈ vs, fmtD v ≠ [] ∧ ':' ∉ fmtD v ∧ (fmtD v).length < 5 ∧ atoi (fmtD v) = v :=
    fun v hv => fmtD_spec v (fmtD_range v (hr v hv)).1 (fmtD_range v (hr v hv)).2
  have htok : strtokAll ':' (formatParam vs) [] = vs.map fmtD := by
    apply strtokAll_join
    intro t ht
    obtain ⟨v, hv, rfl⟩ := List.mem_map.mp ht
    exact ⟨(hspec v hv).1, (hspec v hv).2.1⟩
  have hlen : ∀ t ∈ vs.map fmtD, t.length < 5 := by
    intro t ht
    obtain ⟨v, hv, rfl⟩ := List.mem_map.mp ht
    exact (hspec v hv).2.2.1
  have hp : (formatParam vs).length < 50 := by
    have := joinFields_length (vs.map fmtD) hlen
    rw [List.length_map, hl] at this
    exact lt_trans this (by decide)
  obtain ⟨s1, e, hc, -⟩ := setParam_spec (formatParam vs) s hp (by rw [htok]; exact hlen)
    (by rw [htok, List.length_map, hl]; decide) hP.length
  have hcfg : config s1 = vs := by
    rw [hc, htok, map_range_itemAfter _ _ _ (by rw [List.length_map, hl]), List.length_map, hl,
      List.drop_of_length_le (by simp), List.append_nil, List.map_map]
    conv_rhs => rw [← List.map_id vs]
    exact List.map_congr_left fun v hv => (hspec v hv).2.2.2
  exact ⟨s1, e, hcfg, by rw [hcfg]⟩

theorem C13_parse_round_trip_witness :
    [1, 6, 45, 40, 99, 150, 360, 0].length = PARAM_LEN ∧
    (∀ v ∈ [1, 6, 45, 40, 99, 150, 360, 0], (fmtD v).length ≤ 4) ∧
    formatParam [1, 6, 45, 40, 99, 150, 360, 0] = "1:6:45:40:99:150:360:0".toList ∧
    ∃ s1, setParam (formatParam [1, 6, 45, 40, 99, 150, 360, 0]) bootState = some s1 ∧
      config s1 = [1, 6, 45, 40, 99, 150, 360, 0] ∧
      formatParam (config s1) = formatParam [1, 6, 45, 40, 99, 150, 360, 0] :=
  ⟨by decide, by decide, by decide,
    C13_parse_round_trip bootState bootState_reachable [1, 6, 45, 40, 99, 150, 360, 0]
      (by decide) (by decide)⟩

/-- Claim C15 fails on the code. `setInterval`, `setStartTime`, `getCurrentTime`,
`getStartTime` and `getStatus` have no test of the handle: called with `-1` each of them
accesses `tabTask[-1]`, outside the table (no result in the embedding), whatever the table
holds; `setCurrentTime` does the same. The sibling methods `t_start`, `t_stop`, `t_delete`,
`t_suspend` and `t_resume` test `taskId == -1` first and return the state they were given. -/
theorem C15_unguarded_handle (call : F → Sys F E → Option (Sys F E)) (s : Sys F E)
    (value : Nat) :
    setInterval (-1) value s = none ∧ setStartTime (-1) value s = none ∧
    getCurrentTime (-1) s = none ∧ getStartTime (-1) s = none ∧ getStatus (-1) s = none ∧
    setCurrentTime (-1) value s = none ∧
    t_start call (-1) s = some s ∧ t_stop (-1) s = some s ∧ t_delete (-1) s = some s ∧
    t_suspend (-1) s = some s ∧ t_resume (-1) s = some s := by
  have h : slot (-1) = none := rfl
  refine ⟨?_, ?_, ?_, ?_, ?_, ?_, ?_, ?_, ?_, ?_, ?_⟩ <;>
    simp [setInterval, setStartTime, getCurrentTime, getStartTime, getStatus, setCurrentTime,
      t_start, t_stop, t_delete, t_suspend, t_resume, h]

theorem scheduleTask_last (call : F → Sys F E → Option (Sys F E)) (i : Fin MAX_TASK)
    (hcall : ∀ f s s1, call f s = some s1 →
      (s1.tabLastStatusTask i).status = (s.tabLastStatusTask i).status)
    (j : Fin MAX_TASK) (s s1 : Sys F E) (h : scheduleTask call j s = some s1) :
    (s1.tabLastStatusTask i).status = (s.tabLastStatusTask i).status := by
  unfold scheduleTask at h
  by_cases hr : (s.tabTask j).status = PRET
  · by_cases hd : ((s.tabTask j).currentTime + 1) % UINT = (s.tabTask j).startTime
    · simp only [hr, hd, callFonc, Sys.setTask, Function.update_same, if_true,
        Function.update_idem, Option.bind_eq_bind] at h
      obtain ⟨a, ha, h⟩ := Option.bind_eq_some.mp h
      have e := hcall _ _ _ ha
      simp only at e
      split_ifs at h <;> (cases h; simp [e])
    · simp [hr, hd, Sys.setTask] at h
      cases h
      rfl
  · simp [hr] at h
    cases h
    rfl

theorem schedule_last (call : F → Sys F E → Option (Sys F E)) (i : Fin MAX_TASK)
    (hcall : ∀ f s s1, call f s = some s1 →
      (s1.tabLastStatusTask i).status = (s.tabLastStatusTask i).status)
    (s s1 : Sys F E) (h : schedule call s = some s1) :
    (s1.tabLastStatusTask i).status = (s.tabLastStatusTask i).status := by
  simp only [schedule, finRange_four, List.foldlM_cons, List.foldlM_nil, Option.bind_eq_bind,
    Option.pure_def] at h
  obtain ⟨a, ha, h⟩ := Option.bind_eq_some.mp h
  obtain ⟨b, hb, h⟩ := Option.bind_eq_some.mp h
  obtain ⟨c, hc, h⟩ := Option.bind_eq_some.mp h
  obtain ⟨d, hd, h⟩ := Option.bind_eq_some.mp h
  cases h
  rw [scheduleTask_last call i hcall 3 c _ hd, scheduleTask_last call i hcall 2 b c hc,
    scheduleTask_last call i hcall 1 a b hb, scheduleTask_last call i hcall 0 s a ha]

theorem applyCall_last (call : F → Sys F E → Option (Sys F E)) (i : Fin MAX_TASK)
    (hcall : ∀ f s s1, call f s = some s1 →
      (s1.tabLastStatusTask i).status = (s.tabLastStatusTask i).status)
    (c : Call F) (hc : ¬ c.suspends i) (s s1 : Sys F E) (h : applyCall call c s = some s1) :
    (s1.tabLastStatusTask i).status = (s.tabLastStatusTask i).status := by
  cases c with
  | creer fonc stopTime isTimer =>
    simp only [applyCall, Option.some.injEq] at h
    subst h
    rcases t_creer_spec fonc stopTime isTimer s with ⟨-, e⟩ | ⟨k, -, -, e⟩
    · rw [e]
    · rw [e]
      rfl
  | start taskId =>
    simp only [applyCall, t_start] at h
    by_cases h1 : taskId = -1
    · simp [h1] at h
      cases h
      rfl
    · simp only [h1, if_false, Option.bind_eq_bind] at h
      obtain ⟨k, -, h⟩ := Option.bind_eq_some.mp h
      split_ifs at h
      · exact (hcall _ _ _ h).trans rfl
      · cases h
        rfl
  | stop taskId =>
    simp only [applyCall, t_stop] at h
    split_ifs at h
    · cases h
      rfl
    · obtain ⟨k, -, h⟩ := Option.bind_eq_some.mp h
      cases h
      rfl
  | delete taskId =>
    simp only [applyCall, t_delete] at h
    split_ifs at h
    · cases h
      rfl
    · obtain ⟨k, -, h⟩ := Option.bind_eq_some.mp h
      cases h
      rfl
  | suspend taskId =>
    simp only [applyCall, t_suspend] at h
    split_ifs at h
    · cases h
      rfl
    · obtain ⟨k, hk, h⟩ := Option.bind_eq_some.mp h
      cases h
      have hki : i ≠ k := by
        intro e
        subst e
        apply hc
        simp only [Call.suspends]
        unfold slot at hk
        split_ifs at hk with hv
        cases hk
        simp only [Int.toNat_of_nonneg hv.1]
      simp [Function.update_noteq hki]
  | resume taskId =>
    simp only [applyCall, t_resume] at h
    split_ifs at h
    · cases h
      rfl
    · obtain ⟨k, -, h⟩ := Option.bind_eq_some.mp h
      cases h
      rfl
  | interval taskId value =>
    simp only [applyCall, setInterval] at h
    obtain ⟨k, -, h⟩ := Option.bind_eq_some.mp h
    cases h
    rfl
  | currentTime taskId value =>
    simp only [applyCall, setCurrentTime] at h
    obtain ⟨k, -, h⟩ := Option.bind_eq_some.mp h
    cases h
    rfl
  | startTime taskId value =>
    simp only [applyCall, setStartTime] at h
    obtain ⟨k, -, h⟩ := Option.bind_eq_some.mp h
    cases h
    rfl
  | schedule => exact schedule_last call i hcall s s1 h

theorem applyCalls_last (call : F → Sys F E → Option (Sys F E)) (i : Fin MAX_TASK)
    (hcall : ∀ f s s1, call f s = some s1 →
      (s1.tabLastStatusTask i).status = (s.tabLastStatusTask i).status)
    (cs : List (Call F)) (hcs : ∀ c ∈ cs, ¬ c.suspends i) (s s1 : Sys F E)
    (h : applyCalls call cs s = some s1) :
    (s1.tabLastStatusTask i).status = (s.tabLastStatusTask i).status := by
  induction cs generalizing s with
  | nil =>
    cases h
    rfl
  | cons c cs ih =>
    obtain ⟨a, ha, h⟩ := Option.bind_eq_some.mp h
    rw [ih (fun c hc => hcs c (List.mem_cons_of_mem _ hc)) a h,
      applyCall_last call i hcall c (hcs c (List.mem_cons_self _ _)) s a ha]

/-- Claim C19. Let the scheduler start from its initial tables and let any history of calls
of its interface follow in which `t_suspend` is never called on the id of slot `i` (no
action suspending it either). In the state reached, `t_resume(i)` returns and leaves the
task of slot `i` with status `N_CREE`, whatever its status was, the rest of its record and
every other slot unchanged. If moreover no lower slot is free, the next `t_creer` returns
`i` and replaces the record of the slot by the new task. -/
theorem C19_resume_never_suspended (call : F → Sys F E → Option (Sys F E)) (null : F)
    (env : E) (i : Fin MAX_TASK)
    (hcall : ∀ f s s1, call f s = some s1 →
      (s1.tabLastStatusTask i).status = (s.tabLastStatusTask i).status)
    (cs : List (Call F)) (hcs : ∀ c ∈ cs, ¬ c.suspends i) (s : Sys F E)
    (hrun : applyCalls call cs (Sys.init null env) = some s) :
    ∃ s1, t_resume (i.val : Int) s = some s1 ∧
      s1.tabTask i = { s.tabTask i with status := N_CREE } ∧
      (∀ j, j ≠ i → s1.tabTask j = s.tabTask j) ∧
      ∀ fonc stopTime isTimer, (∀ j, j < i → (s.tabTask j).status ≠ N_CREE) →
        (t_creer fonc stopTime isTimer s1).1 = (i.val : Int) ∧
        (t_creer fonc stopTime isTimer s1).2.tabTask i =
          { fonc := fonc, startTime := stopTime, currentTime := 0, status := CREE,
            timerTask := isTimer } := by
  have hl : (s.tabLastStatusTask i).status = N_CREE :=
    applyCalls_last call i hcall cs hcs _ s hrun
  refine ⟨s.setTask i { s.tabTask i with status := N_CREE }, ?_, ?_, ?_, ?_⟩
  · simp [t_resume, val_ne_neg_one, slot_val, hl]
  · simp
  · intro j hj
    simp [Function.update_noteq hj]
  · intro fonc stopTime isTimer hlow
    rcases t_creer_spec fonc stopTime isTimer
        (s.setTask i { s.tabTask i with status := N_CREE }) with ⟨hfull, -⟩ | ⟨k, hk, hmin, e⟩
    · exact absurd (by simp) (hfull i)
    · have hki : k = i := by
        rcases lt_trichotomy k i with hlt | heq | hgt
        · exact absurd (by simpa [Function.update_noteq (ne_of_lt hlt)] using hk) (hlow k hlt)
        · exact heq
        · exact absurd (by simp) (hmin i hgt)
      subst hki
      rw [e]
      simp

/-- A history on the small passive program: a task is created (slot 0), started, ticked
twice and stopped; it is never suspended. -/
theorem C19_resume_never_suspended_witness :
    (∀ f s s1, demoCall f s = some s1 →
      (s1.tabLastStatusTask 0).status = (s.tabLastStatusTask 0).status) ∧
    (∀ c ∈ [Call.creer () 5 true, Call.start 0, Call.schedule, Call.schedule, Call.stop 0],
      ¬ Call.suspends (0 : Fin MAX_TASK) c) ∧
    ∃ s, applyCalls demoCall
        [Call.creer () 5 true, Call.start 0, Call.schedule, Call.schedule, Call.stop 0]
        (Sys.init () 0) = some s ∧ (s.tabTask 0).status = CREE ∧
      ∃ s1, t_resume ((0 : Fin MAX_TASK).val : Int) s = some s1 ∧
        s1.tabTask 0 = { s.tabTask 0 with status := N_CREE } ∧
        (∀ j, j ≠ 0 → s1.tabTask j = s.tabTask j) ∧
        ∀ fonc stopTime isTimer, (∀ j, j < (0 : Fin MAX_TASK) → (s.tabTask j).status ≠ N_CREE) →
          (t_creer fonc stopTime isTimer s1).1 = ((0 : Fin MAX_TASK).val : Int) ∧
          (t_creer fonc stopTime isTimer s1).2.tabTask 0 =
            { fonc := fonc, startTime := stopTime, currentTime := 0, status := CREE,
              timerTask := isTimer } := by
  have hd : ∀ f s s1, demoCall f s = some s1 →
      (s1.tabLastStatusTask 0).status = (s.tabLastStatusTask 0).status := by
    intro f s s1 h
    simp only [demoCall, Option.some.injEq] at h
    subst h
    rfl
  have hc : ∀ c ∈ [Call.creer () 5 true, Call.start 0, Call.schedule, Call.schedule,
      Call.stop 0], ¬ Call.suspends (0 : Fin MAX_TASK) c := by
    intro c hc
    simp only [List.mem_cons, List.mem_singleton, List.not_mem_nil, or_false] at hc
    rcases hc with h | h | h | h | h <;> subst h <;> simp [Call.suspends]
  have hr : ∃ s, applyCalls demoCall
      [Call.creer () 5 true, Call.start 0, Call.schedule, Call.schedule, Call.stop 0]
      (Sys.init () 0) = some s ∧ (s.tabTask 0).status = CREE := by
    refine ⟨_, rfl, ?_⟩
    decide
  obtain ⟨s, hs, hst⟩ := hr
  exact ⟨hd, hc, s, hs, hst, C19_resume_never_suspended demoCall () 0 0 hd _ hc s hs⟩

/-! ## What `robotTask` publishes -/

theorem robotTaskLeg_published (s : St) (h0 : s.env.idRobotTask = 0) :
    ∃ s1, robotTaskLeg s = some s1 ∧ s1.env.published = s.env.published ∧
      s1.env.randomBuffer = s.env.randomBuffer := by
  cases hd : s.env.direction
  · simp only [robotTaskLeg, setInterval, random, robotForward, h0, hd, slot_zero,
      Option.bind_eq_bind, Option.some_bind, Option.pure_def, setTask_env, upd_env,
      if_true, Bool.not_false, upd_tabTask, setTask_tabTask]
    exact ⟨_, rfl, rfl, rfl⟩
  · by_cases hr : s.env.randomValue > 30 <;>
      simp only [robotTaskLeg, setInterval, robotReturn, h0, hd, hr, slot_zero,
        Option.bind_eq_bind, Option.some_bind, Option.pure_def, setTask_env, upd_env,
        if_true, if_false, Bool.not_true, Bool.false_eq_true, upd_tabTask,
        setTask_tabTask] <;>
      exact ⟨_, rfl, rfl, rfl⟩

theorem endCycle_published (s : St) (h0 : s.env.idRobotTask = 0)
    (h1 : s.env.idEndRobotTask = 1) :
    ∃ s1, endCycle s = some s1 ∧
      s1.env.published = s.env.published ++ [(Topic.TOPIC_RESET_CYCLE, [])] ∧
      s1.env.randomBuffer = s.env.randomBuffer := by
  simp only [endCycle, t_stop, h0, h1, slot_zero, slot_one, powerOff, publish,
    Option.bind_eq_bind, Option.some_bind, Option.pure_def, setTask_env, upd_env,
    show ((0 : Int) = -1) = False from by simp, show ((1 : Int) = -1) = False from by simp,
    if_false]
  exact ⟨_, rfl, rfl, rfl⟩

theorem robotTaskCount_published (s : St) (h0 : s.env.idRobotTask = 0)
    (h1 : s.env.idEndRobotTask = 1) :
    ∃ s1, robotTaskCount s = some s1 ∧
      s1.env.published =
        s.env.published ++ (Topic.TOPIC_CYCLE_TIME, s.env.randomBuffer) ::
          (if s.env.nbCycles ≤ s.env.currentCycle + 1 then [(Topic.TOPIC_RESET_CYCLE, [])]
           else []) ∧
      s1.env.randomBuffer = s.env.randomBuffer := by
  by_cases he : s.env.nbCycles ≤ s.env.currentCycle + 1
  · obtain ⟨s1, e, hp, hb⟩ := endCycle_published
      (((publish Topic.TOPIC_CYCLE_TIME s.env.randomBuffer s).upd fun g =>
        { g with direction := !g.direction }).upd fun g =>
        { g with currentCycle := g.currentCycle + 1 })
      (by simpa [publish] using h0) (by simpa [publish] using h1)
    have hc : (((publish Topic.TOPIC_CYCLE_TIME s.env.randomBuffer s).upd fun g =>
        { g with direction := !g.direction }).upd fun g =>
        { g with currentCycle := g.currentCycle + 1 }).env.currentCycle ≥
        (((publish Topic.TOPIC_CYCLE_TIME s.env.randomBuffer s).upd fun g =>
        { g with direction := !g.direction }).upd fun g =>
        { g with currentCycle := g.currentCycle + 1 }).env.nbCycles := by
      simpa [publish] using he
    refine ⟨writeLogs "End count cycle".toList s1, ?_, ?_, ?_⟩
    · simp only [robotTaskCount, Option.bind_eq_bind, Option.pure_def]
      rw [if_pos hc, e]
      rfl
    · simp only [writeLogs, upd_env, hp, publish, if_pos he]
      simp
    · simp only [writeLogs, upd_env, hb, publish]
  · have hc : ¬ (((publish Topic.TOPIC_CYCLE_TIME s.env.randomBuffer s).upd fun g =>
        { g with direction := !g.direction }).upd fun g =>
        { g with currentCycle := g.currentCycle + 1 }).env.currentCycle ≥
        (((publish Topic.TOPIC_CYCLE_TIME s.env.randomBuffer s).upd fun g =>
        { g with direction := !g.direction }).upd fun g =>
        { g with currentCycle := g.currentCycle + 1 }).env.nbCycles := by
      simpa [publish] using he
    refine ⟨((publish Topic.TOPIC_CYCLE_TIME s.env.randomBuffer s).upd fun g =>
        { g with direction := !g.direction }).upd fun g =>
        { g with currentCycle := g.currentCycle + 1 }, ?_, ?_, ?_⟩
    · simp only [robotTaskCount, Option.bind_eq_bind, Option.pure_def]
      rw [if_neg hc]
    · simp only [upd_env, publish, if_neg he]
    · simp only [upd_env, publish]

/-- What `robotTask` sends on `TOPIC_CYCLE_TIME` is the content of the global `randomBuffer`
as it was when the function was entered; the function does not write that buffer (no
statement of the program does), and the interval it installs is `currentRandomValue`. -/
theorem robotTask_published (s : St) (h0 : s.env.idRobotTask = 0)
    (h1 : s.env.idEndRobotTask = 1) :
    ∃ s1, robotTask s = some s1 ∧
      s1.env.published =
        s.env.published ++ (Topic.TOPIC_CYCLE_TIME, s.env.randomBuffer) ::
          (if s.env.nbCycles ≤ s.env.currentCycle + 1 then [(Topic.TOPIC_RESET_CYCLE, [])]
           else []) ∧
      s1.env.randomBuffer = s.env.randomBuffer ∧
      (s1.tabTask 0).startTime = s1.env.currentRandomValue := by
  obtain ⟨s1, e, -, -, -, hst, -⟩ := robotTask_spec s h0 h1
  obtain ⟨a, ea, hp, hb⟩ := robotTaskLeg_published (powerOff s) (by simpa [powerOff] using h0)
  obtain ⟨a1, ea1, fa, -, -, -, -, hcc, -⟩ :=
    robotTaskLeg_spec (powerOff s) (by simpa [powerOff] using h0)
  have : a1 = a := Option.some.inj (ea1.symm.trans ea)
  subst this
  obtain ⟨c, ec, hcp, hcb⟩ := robotTaskCount_published a1
    (by rw [fa.idRobot]; simpa [powerOff] using h0)
    (by rw [fa.idEnd]; simpa [powerOff] using h1)
  have e2 : robotTask s = some c := by rw [robotTask_eq, ea, Option.some_bind, ec]
  have : c = s1 := Option.some.inj (e2.symm.trans e)
  subst this
  have hn : a1.env.nbCycles = s.env.nbCycles := by rw [fa.nbCycles]; rfl
  have hk : a1.env.currentCycle = s.env.currentCycle := by rw [hcc]; rfl
  have hpp : (powerOff s).env.published = s.env.published := rfl
  have hpb : (powerOff s).env.randomBuffer = s.env.randomBuffer := rfl
  refine ⟨c, e, ?_, ?_, hst⟩
  · rw [hcp, hp, hb, hn, hk, hpp, hpb]
  · rw [hcb, hb, hpb]

/-- In every reachable state, when the scheduler (`schedule` on a due task, or `t_start`)
enters `robotTask`, the message that `robotTask` sends on `TOPIC_CYCLE_TIME` has the empty
payload, whatever interval it installs. -/
theorem robotTask_payload_empty (s x : St) (hs : Reachable s)
    (hx : x = s.entered 0 ∨ x = s.started 0) :
    ∃ s1, robotTask x = some s1 ∧
      s1.env.published =
        s.env.published ++ (Topic.TOPIC_CYCLE_TIME, []) ::
          (if s.env.nbCycles ≤ s.env.currentCycle + 1 then [(Topic.TOPIC_RESET_CYCLE, [])]
           else []) ∧
      (s1.tabTask 0).startTime = s1.env.currentRandomValue := by
  have hI := reachable_inv s hs
  have hP := reachable_parsed s hs
  have hIx : Inv x := by
    rcases hx with h | h <;> rw [h]
    · exact hI.entered 0 ne_03
    · exact hI.started 0 ne_03
  have hen : x.env = s.env := by
    rcases hx with h | h <;> rw [h] <;> rfl
  obtain ⟨s1, e, hp, -, hst⟩ := robotTask_published x hIx.idRobot hIx.idEnd
  refine ⟨s1, e, ?_, hst⟩
  rw [hp, hen, hP.buffer]

/-- Claim C16, the code at the failing input. After power-on `bootDemo` the start command
fires `robotTask` once: the interval chosen and installed is 4, and the message sent on
`TOPIC_CYCLE_TIME` has the empty payload (the global `randomBuffer`, which nothing writes),
not a text carrying 4. Four ticks later `robotTask` fires again, installs 4 again, and
sends the empty payload again. -/
theorem C16_failing_input :
    (bootState.env.published, bootState.env.randomBuffer) =
      ([(Topic.TOPIC_RESET_CYCLE, [])], []) ∧
    (bootStarted.fired.count 0, bootStarted.env.currentRandomValue,
        (bootStarted.tabTask 0).startTime, bootStarted.env.published) =
      (1, 4, 4, [(Topic.TOPIC_RESET_CYCLE, []), (Topic.TOPIC_CYCLE_TIME, [])]) ∧
    (runTicks 1 (List.replicate 4 demoReading) bootStarted).map
        (fun s => (s.fired.count 0, s.env.currentRandomValue, (s.tabTask 0).startTime,
          s.env.published)) =
      some (2, 4, 4, [(Topic.TOPIC_RESET_CYCLE, []), (Topic.TOPIC_CYCLE_TIME, []),
        (Topic.TOPIC_CYCLE_TIME, [])]) := by
  decide

/-! ## Pause and resume after an oscillation firing -/

theorem count_append_one (l : List (Fin MAX_TASK)) : (l ++ [1]).count 0 = l.count 0 := by
  simp [List.count_append]

theorem wrap_ne (e s k : Nat) (hs : s ≤ e)
    (hk : k + 1 < 4294967296 - (e - s)) : (e + k + 1) % 4294967296 ≠ s := by
  omega

theorem wrap_eq (e s k : Nat) (hs : s ≤ e) (he : e < 4294967296)
    (hk : k + 1 = 4294967296 - (e - s)) : (e + k + 1) % 4294967296 = s := by
  omega

theorem afterTick_iter_wrap (k : Nat) (t : Task F) (hr : t.status = PRET)
    (he : t.currentTime < UINT) (hs : t.startTime ≤ t.currentTime)
    (hk : k < UINT - (t.currentTime - t.startTime)) :
    Task.afterTick^[k] t = { t with currentTime := (t.currentTime + k) % UINT } ∧
      t.firings k = 0 := by
  induction k with
  | zero =>
    refine ⟨?_, rfl⟩
    rw [Function.iterate_zero_apply, Nat.add_zero, Nat.mod_eq_of_lt he]
  | succ k ih =>
    obtain ⟨h1, h2⟩ := ih (by omega)
    have hne : (t.currentTime + k + 1) % UINT ≠ t.startTime :=
      wrap_ne t.currentTime t.startTime k hs hk
    refine ⟨?_, ?_⟩
    · rw [Function.iterate_succ_apply', h1]
      simp only [Task.afterTick, hr, if_true, mod_succ_mod, if_neg hne]
      rfl
    · rw [firings_add, h2, h1]
      simp [Task.firings, Task.due, hr, hne, mod_succ_mod]

theorem firings_wrap (t : Task F) (hr : t.status = PRET) (he : t.currentTime < UINT)
    (hs : t.startTime ≤ t.currentTime) :
    t.firings (UINT - (t.currentTime - t.startTime)) = 1 := by
  have hpos : UINT - (t.currentTime - t.startTime) =
      (UINT - (t.currentTime - t.startTime) - 1) + 1 := by omega
  obtain ⟨h1, h2⟩ := afterTick_iter_wrap (UINT - (t.currentTime - t.startTime) - 1) t hr he hs
    (by omega)
  have heq : (t.currentTime + (UINT - (t.currentTime - t.startTime) - 1) + 1) % UINT =
      t.startTime :=
    wrap_eq t.currentTime t.startTime _ hs he hpos.symm
  rw [hpos, firings_add, h2, h1]
  simp [Task.firings, Task.due, hr, heq, mod_succ_mod]

/-- One pass of `loop` without scheduled start: the action of the end-of-cycle task is not
invoked when the controller is idle, nor when the task is `PRET` and its incremented
`currentTime` differs from its interval. -/
theorem tick_end_count (d : Nat) (s : St) (hI : Inv s) (hm : ¬ Matches s)
    (h : Idle s ∨ ((s.tabTask 1).status = PRET ∧
      ((s.tabTask 1).currentTime + 1) % UINT ≠ (s.tabTask 1).startTime)) :
    ∃ s1, tick (d + 1) s = some s1 ∧ s1.fired.count 1 = s.fired.count 1 := by
  obtain ⟨a, b, s1, ea, eb, e1, hIa, -, -, -, -, -, -, -, -, -, c6⟩ := tick_split d s hI hm
  obtain ⟨a', ea', -, -, o1, o2, o3⟩ := osc_body d s hI
  have : a' = a := Option.some.inj (ea'.symm.trans ea)
  subst this
  obtain ⟨b', eb', -, -, n1, n2, -⟩ := end_body (invoke (d + 1)) (fun _ => rfl) a' hIa
  have : b' = b := Option.some.inj (eb'.symm.trans eb)
  subst this
  refine ⟨s1, e1, ?_⟩
  rw [c6]
  -- the oscillation task leaves the count of the end-of-cycle task and, unless it ends the
  -- cycle, the record of the end-of-cycle task
  have hosc : a'.fired.count 1 = s.fired.count 1 ∧
      (Idle a' ∨ a'.tabTask 1 = s.tabTask 1) := by
    by_cases hr : (s.tabTask 0).status = PRET
    · by_cases hd : ((s.tabTask 0).currentTime + 1) % UINT = (s.tabTask 0).startTime
      · obtain ⟨q1, q2, q3⟩ := o3 hr hd
        refine ⟨by rw [q1]; simp [List.count_append], ?_⟩
        by_cases hc : s.env.nbCycles ≤ s.env.currentCycle + 1
        · exact Or.inl (q2 hc)
        · exact Or.inr (q3 (by omega)).2.2.1
      · obtain ⟨q1, -, q3, -⟩ := o2 hr hd
        exact ⟨by rw [q1], Or.inr q3⟩
    · rw [o1 hr]
      exact ⟨rfl, Or.inr rfl⟩
  have hidle : ∀ x : St, Inv x → Idle x → (x.tabTask 1).status ≠ PRET := by
    intro x hx hid
    rw [((idle_iff x hx).mp hid).2.2.1]
    decide
  rw [← hosc.1]
  rcases hosc.2 with hid | ht
  · rw [n1 (hidle a' hIa hid)]
  · rcases h with hid | ⟨hp, hne⟩
    · rw [n1 (by rw [ht]; exact hidle s hI hid)]
    · rw [n2 (by rw [ht]; exact hp) (by rw [ht]; exact hne)]
      rfl

theorem run_no_end (d : Nat) (e T : Nat) (rs : List Reading) :
    ∀ (k : Nat) (s : St), Inv s → (∀ r ∈ rs, ¬ Matches (setReading r s)) →
      (s.tabTask 1).startTime = T →
      (Idle s ∨ ((s.tabTask 1).status = PRET ∧ (s.tabTask 1).currentTime = (e + k) % UINT)) →
      (∀ j, k < j → j ≤ k + rs.length → (e + j) % UINT ≠ T) →
      ∃ s1, runTicks (d + 1) rs s = some s1 ∧ s1.fired.count 1 = s.fired.count 1 := by
  induction rs with
  | nil =>
    intro k s _ _ _ _ _
    exact ⟨s, rfl, rfl⟩
  | cons r rs ih =>
    intro k s hI hno hT h hall
    have hIr : Inv (setReading r s) := setReading_inv r s hI
    have hmr : ¬ Matches (setReading r s) := hno r (List.mem_cons_self _ _)
    have hl : (r :: rs).length = rs.length + 1 := rfl
    have hnext : (e + (k + 1)) % UINT ≠ T := hall (k + 1) (by omega) (by rw [hl]; omega)
    have hstep : Idle (setReading r s) ∨ (((setReading r s).tabTask 1).status = PRET ∧
        (((setReading r s).tabTask 1).currentTime + 1) % UINT ≠
          ((setReading r s).tabTask 1).startTime) := by
      rcases h with hid | ⟨hp, hc⟩
      · exact Or.inl ((setReading_idle r s).mpr hid)
      · right
        refine ⟨hp, ?_⟩
        show ((s.tabTask 1).currentTime + 1) % UINT ≠ (s.tabTask 1).startTime
        rw [hc, mod_succ_mod, hT]
        exact hnext
    obtain ⟨s1, e1, hc1⟩ := tick_end_count d (setReading r s) hIr hmr hstep
    obtain ⟨s1', e1', hI1, g1, g2, g3, g4, g5, g6⟩ := tick_limit d (setReading r s) hIr hmr
    have : s1' = s1 := Option.some.inj (e1'.symm.trans e1)
    subst this
    have hno1 : ∀ x ∈ rs, ¬ Matches (setReading x s1') := by
      intro x hx hc
      exact hno x (List.mem_cons_of_mem _ hx) ((matches_setReading x s s1' g1 g2 g3).mp hc)
    have hst : (s1'.tabTask 1).startTime = T := g4.trans hT
    have hinv : Idle s1' ∨ ((s1'.tabTask 1).status = PRET ∧
        (s1'.tabTask 1).currentTime = (e + (k + 1)) % UINT) := by
      rcases h with hid | ⟨hp, hc⟩
      · exact Or.inl (g5 ((setReading_idle r s).mpr hid))
      · rcases g6 hp with hid | ⟨q1, q2, -⟩
        · exact Or.inl hid
        · right
          refine ⟨q1, ?_⟩
          rw [q2]
          show ((s.tabTask 1).currentTime + 1) % UINT = _
          rw [hc, mod_succ_mod]
          rfl
    obtain ⟨s2, e2, hc2⟩ := ih (k + 1) s1' hI1 hno1 hst hinv
      (fun j hj1 hj2 => hall j (by omega) (by rw [hl]; omega))
    refine ⟨s2, ?_, by rw [hc2, hc1]; rfl⟩
    simp only [runTicks, e1, Option.some_bind]
    exact e2

theorem setParamMessage_end (depth : Nat) (strPayload : List Char) (s0 s : St) (hI : Inv s0)
    (h : PubSubCallback (invoke depth) Topic.TOPIC_SET_PARAM strPayload s0 = some s) :
    (s.tabTask 1).status = (s0.tabTask 1).status ∧
    (s.tabTask 1).currentTime = (s0.tabTask 1).currentTime ∧
    (s.tabTask 1).startTime = toUnsigned (s.env.activeTime * 60) ∧ s.fired = s0.fired := by
  have hIs := PubSubCallback_inv depth _ _ s0 s hI h
  simp only [PubSubCallback] at h
  split_ifs at h
  simp only [Option.bind_eq_bind, upd_env] at h
  obtain ⟨a, ha, h⟩ := Option.bind_eq_some.mp h
  obtain ⟨t1, -, t3, -, hid, -⟩ := setParam_inv _ _ _ ha
  have hid1 : a.env.idEndRobotTask = 1 := hid.trans hI.idEnd
  rw [hid1] at h
  simp only [setStartTime, slot_one, Option.bind_eq_bind, Option.some_bind,
    Option.some.injEq] at h
  subst h
  refine ⟨?_, ?_, hIs.start1, ?_⟩
  · simp [t1]
  · simp [t1]
  · simpa using t3

theorem bootLowered_eq :
    PubSubCallback (invoke (0 + 1)) Topic.TOPIC_SET_PARAM "1:10:30:2:5:3:0:1".toList
      bootRunning = some bootLowered := rfl

/-- Claim C18. The test of `schedule` is an equality on 32-bit counters. Among passive
actions, let a task be `PRET` with `currentTime = e` and interval `startTime = s`, where
`s ≤ e < 2^32`. Then `k` ticks return without invoking its action for every
`k < 2^32 - (e - s)`, and `2^32 - (e - s)` ticks return having invoked it exactly once: the
first firing is at tick number `2^32 - (e - s)`, once `currentTime` has wrapped around. In
particular, in the firmware: let a set-param command arrive in a reachable state whose
end-of-cycle task is `PRET` with `currentTime = e1`, and let it leave
`activeTime * 60 ≤ e1` (as an `unsigned`). Then any run of fewer than
`2^32 - (e1 - activeTime * 60)` ticks after it, the scheduled start not matching, returns
without invoking the action of the end-of-cycle task: that task does not end the cycle. -/
theorem C18_equality_firing (call : F → Sys F E → Option (Sys F E))
    (hp : ∀ f, Passive call f) (t : Sys F E) (i : Fin MAX_TASK)
    (hr : (t.tabTask i).status = PRET) (he : (t.tabTask i).currentTime < UINT)
    (hle : (t.tabTask i).startTime ≤ (t.tabTask i).currentTime)
    (depth : Nat) (s0 s : St) (hs : Reachable s0) (strPayload : List Char)
    (hset : PubSubCallback (invoke (depth + 1)) Topic.TOPIC_SET_PARAM strPayload s0 = some s)
    (hr1 : (s0.tabTask 1).status = PRET) (he1 : (s0.tabTask 1).currentTime < UINT)
    (hlow : toUnsigned (s.env.activeTime * 60) ≤ (s0.tabTask 1).currentTime)
    (rs : List Reading) (hno : ∀ r ∈ rs, ¬ Matches (setReading r s))
    (hlen : rs.length <
      UINT - ((s0.tabTask 1).currentTime - toUnsigned (s.env.activeTime * 60))) :
    (∀ k, k < UINT - ((t.tabTask i).currentTime - (t.tabTask i).startTime) →
      ∃ t1, ticks call k t = some t1 ∧ t1.fired.count i = t.fired.count i) ∧
    (∃ t1, ticks call (UINT - ((t.tabTask i).currentTime - (t.tabTask i).startTime)) t =
        some t1 ∧ t1.fired.count i = t.fired.count i + 1) ∧
    ∃ s1, runTicks (depth + 1) rs s = some s1 ∧ s1.fired.count 1 = s.fired.count 1 := by
  refine ⟨fun k hk => ?_, ?_, ?_⟩
  · obtain ⟨t1, e1, -, -, hf⟩ := ticks_passive call hp k t
    exact ⟨t1, e1, by
      rw [hf i, (afterTick_iter_wrap k (t.tabTask i) hr he hle hk).2, Nat.add_zero]⟩
  · obtain ⟨t1, e1, -, -, hf⟩ := ticks_passive call hp
      (UINT - ((t.tabTask i).currentTime - (t.tabTask i).startTime)) t
    exact ⟨t1, e1, by rw [hf i, firings_wrap (t.tabTask i) hr he hle]⟩
  · have hI0 := reachable_inv s0 hs
    have hI : Inv s := PubSubCallback_inv _ _ _ s0 s hI0 hset
    obtain ⟨p1, p2, p3, -⟩ := setParamMessage_end _ _ s0 s hI0 hset
    refine run_no_end depth (s0.tabTask 1).currentTime (toUnsigned (s.env.activeTime * 60)) rs
      0 s hI hno p3 (Or.inr ⟨p1.trans hr1, ?_⟩) ?_
    · rw [p2, Nat.add_zero, Nat.mod_eq_of_lt he1]
    · intro j hj1 hj2
      have hj : j = (j - 1) + 1 := by omega
      have hlen1 : rs.length <
          4294967296 - ((s0.tabTask 1).currentTime - toUnsigned (s.env.activeTime * 60)) :=
        hlen
      rw [hj, ← Nat.add_assoc]
      exact wrap_ne _ _ (j - 1) hlow (by omega)

/-- Instance of C18: the recurring task of `demoLate` (`currentTime = 4`, interval 3), and the
set-param command that lowers `activeTime` to 0 one tick after the start command, followed by
ten ticks at 09:16. -/
theorem C18_equality_firing_witness :
    (∀ f, Passive demoCall f) ∧ (demoLate.tabTask 0).status = PRET ∧
    (demoLate.tabTask 0).currentTime < UINT ∧
    (demoLate.tabTask 0).startTime ≤ (demoLate.tabTask 0).currentTime ∧
    Reachable bootRunning ∧
    PubSubCallback (invoke (0 + 1)) Topic.TOPIC_SET_PARAM "1:10:30:2:5:3:0:1".toList
      bootRunning = some bootLowered ∧
    (bootRunning.tabTask 1).status = PRET ∧ (bootRunning.tabTask 1).currentTime < UINT ∧
    toUnsigned (bootLowered.env.activeTime * 60) ≤ (bootRunning.tabTask 1).currentTime ∧
    (∀ r ∈ List.replicate 10 demoReading, ¬ Matches (setReading r bootLowered)) ∧
    (List.replicate 10 demoReading).length <
      UINT - ((bootRunning.tabTask 1).currentTime -
        toUnsigned (bootLowered.env.activeTime * 60)) ∧
    (∀ k, k < UINT - ((demoLate.tabTask 0).currentTime - (demoLate.tabTask 0).startTime) →
      ∃ t1, ticks demoCall k demoLate = some t1 ∧
        t1.fired.count 0 = demoLate.fired.count 0) ∧
    (∃ t1, ticks demoCall
        (UINT - ((demoLate.tabTask 0).currentTime - (demoLate.tabTask 0).startTime))
        demoLate = some t1 ∧ t1.fired.count 0 = demoLate.fired.count 0 + 1) ∧
    ∃ s1, runTicks (0 + 1) (List.replicate 10 demoReading) bootLowered = some s1 ∧
      s1.fired.count 1 = bootLowered.fired.count 1 := by
  have hno : ∀ r ∈ List.replicate 10 demoReading, ¬ Matches (setReading r bootLowered) := by
    intro r hr
    rw [List.eq_of_mem_replicate hr]
    decide
  exact ⟨demoCall_passive, by decide, by decide, by decide, bootRunning_reachable,
    bootLowered_eq, by decide, by decide, by decide, hno, by decide,
    C18_equality_firing demoCall demoCall_passive demoLate 0 (by decide) (by decide)
      (by decide) 0 bootRunning bootLowered bootRunning_reachable
      "1:10:30:2:5:3:0:1".toList bootLowered_eq (by decide) (by decide) (by decide)
      (List.replicate 10 demoReading) hno (by decide)⟩

end RobotPiscine
